import Mathlib

/-!
# git3 proof-of-work subsystem: shallow embedding and verified properties

The definitions below are shallow embeddings of the C sources
(`pow.c`, `pow_optimized.c`, `pow_avx2.c`, `sha3_avx2.c`, `hash.c`).

Conventions of the embedding:
* a C string is the `List Char` of its characters before the terminating NUL;
* a byte is a `Nat` below 256, a digest is a `List Nat` of 32 bytes;
* `uint32_t` / `uint64_t` arithmetic is arithmetic on `Nat` reduced
  modulo `2^32` / `2^64` at every operation of the source;
* loops that need not terminate take a fuel argument and return `none`
  when the fuel runs out;
* collaborators that are not among the sources (object store, object hash,
  commit lookup) are fields of `Repo`; what is assumed of them is written
  where they are used.
-/

namespace Git3

/-! ## Digests and their hex form -/

/-- One lowercase hexadecimal digit, as printed by `%x` for a value below 16. -/
def hexchar (n : Nat) : Char :=
  if n < 10 then Char.ofNat (48 + n) else Char.ofNat (87 + n)

/-- The two characters `snprintf(.., "%02x", byte)` prints for one byte
(`pow_avx2.c`, hex conversion loop of `mine_pow_commit_avx2`). -/
def hex_byte (b : Nat) : List Char :=
  [hexchar (b / 16 % 16), hexchar (b % 16)]

/-- Modelled from the spec: `oid_to_hex` / `oid_to_hex_r` live in `hex.c`, which is
not among the sources; the spec fixes the format (section 6, "Digest-to-hex:
64 lowercase hex characters, no prefix"), and `mine_pow_commit_avx2` spells the
same conversion out inline, byte by byte with `%02x`. -/
def oid_to_hex (d : List Nat) : List Char :=
  match d with
  | [] => []
  | b :: rest => hex_byte b ++ oid_to_hex rest

/-- A well-formed 32-byte digest (`unsigned char hash[GIT_MAX_RAWSZ]`). -/
def IsDigest (d : List Nat) : Prop :=
  d.length = 32 ∧ ∀ b ∈ d, b < 256

instance (d : List Nat) : Decidable (IsDigest d) := by
  unfold IsDigest; infer_instance

/-! ## `pow.c`: difficulty predicate and work -/

/-- The `for` loop of `check_pow_difficulty` (`pow.c` lines 88-117), with
`zero_bits` as accumulator. `none` is the early `return 0` on a character
that is not a hex digit; `some z` is the value of `zero_bits` when the loop
ends (by `break` or at the end of the string). -/
def check_pow_difficulty_loop : List Char → Nat → Option Nat
  | [], zero_bits => some zero_bits
  | c0 :: rest, zero_bits =>
    let c : Char :=
      if 'A' ≤ c0 ∧ c0 ≤ 'F' then Char.ofNat (c0.toNat - 'A'.toNat + 'a'.toNat) else c0
    if '0' ≤ c ∧ c ≤ '9' then
      let nibble := c.toNat - '0'.toNat
      if nibble = 0 then check_pow_difficulty_loop rest ((zero_bits + 4) % 2 ^ 32)
      else if nibble < 2 then some ((zero_bits + 3) % 2 ^ 32)
      else if nibble < 4 then some ((zero_bits + 2) % 2 ^ 32)
      else if nibble < 8 then some ((zero_bits + 1) % 2 ^ 32)
      else some zero_bits
    else if 'a' ≤ c ∧ c ≤ 'f' then
      let nibble := 10 + (c.toNat - 'a'.toNat)
      if nibble = 0 then check_pow_difficulty_loop rest ((zero_bits + 4) % 2 ^ 32)
      else if nibble < 2 then some ((zero_bits + 3) % 2 ^ 32)
      else if nibble < 4 then some ((zero_bits + 2) % 2 ^ 32)
      else if nibble < 8 then some ((zero_bits + 1) % 2 ^ 32)
      else some zero_bits
    else none

/-- `check_pow_difficulty` of `pow.c`: `true` for a non-zero return value. -/
def check_pow_difficulty (hash_hex : List Char) (difficulty : Nat) : Bool :=
  match check_pow_difficulty_loop hash_hex 0 with
  | none => false
  | some zero_bits => decide (zero_bits ≥ difficulty)

/-- The `for` loop of `calculate_hash_work` (`pow.c` lines 20-36): the value
of `leading_zeros` when the loop ends. -/
def calculate_hash_work_loop : List Char → Nat → Nat
  | [], leading_zeros => leading_zeros
  | c :: rest, leading_zeros =>
    if c = '0' then calculate_hash_work_loop rest ((leading_zeros + 4) % 2 ^ 32)
    else if c = '1' then (leading_zeros + 3) % 2 ^ 32
    else if '2' ≤ c ∧ c ≤ '3' then (leading_zeros + 2) % 2 ^ 32
    else if '4' ≤ c ∧ c ≤ '7' then (leading_zeros + 1) % 2 ^ 32
    else leading_zeros

/-- The `uint64_t` left shift `x << s`. C leaves a shift count of 64 or more
undefined; the x86-64 targets of this program (it includes `immintrin.h` and
`cpuid.h`) take the count modulo 64, which is what is modelled. Whatever the
platform does, the result is a `uint64_t`, below `2^64`. -/
def shl64 (x s : Nat) : Nat :=
  (x <<< (s % 64)) % 2 ^ 64

/-- `calculate_hash_work` of `pow.c`. -/
def calculate_hash_work (hash_hex : List Char) : Nat :=
  let leading_zeros := calculate_hash_work_loop hash_hex 0
  if leading_zeros = 0 then 1 else shl64 1 leading_zeros

/-! ## `pow_avx2.c`: byte-level difficulty predicate -/

/-- The floor of the binary logarithm of a positive number: the greatest `k`
with `2^k ≤ n` (and 0 for `n = 0`). -/
def floor_log2 (n : Nat) : Nat :=
  Nat.findGreatest (fun k => 2 ^ k ≤ n) n

/-- `__builtin_clz` on a non-zero 32-bit value: the number of leading zero
bits of its 32-bit representation. -/
def builtin_clz (x : Nat) : Nat :=
  31 - floor_log2 x

/-- The `for` loop of `check_difficulty_avx2` (`pow_avx2.c` lines 56-65) over
the bytes not yet visited; the loop condition `zero_bits < difficulty` is
tested before each byte. -/
def check_difficulty_avx2_loop (difficulty : Nat) : List Nat → Nat → Nat
  | [], zero_bits => zero_bits
  | byte :: rest, zero_bits =>
    if zero_bits < difficulty then
      if byte = 0 then check_difficulty_avx2_loop difficulty rest ((zero_bits + 8) % 2 ^ 32)
      else (zero_bits + (builtin_clz byte - 24)) % 2 ^ 32
    else zero_bits

/-- `check_difficulty_avx2` of `pow_avx2.c`; the loop visits `hash[0..31]`. -/
def check_difficulty_avx2 (hash : List Nat) (difficulty : Nat) : Bool :=
  decide (check_difficulty_avx2_loop difficulty (hash.take 32) 0 ≥ difficulty)

/-- The reference count of leading zero bits, in the words of the spec
(section 4.3): walk the bytes from index 0; a zero byte adds 8 and the walk
continues; the first non-zero byte `b` adds `7 - floor(log2 b)` and stops. -/
def leading_zero_bits : List Nat → Nat
  | [] => 0
  | b :: rest => if b = 0 then 8 + leading_zero_bits rest else 7 - floor_log2 b

/-! ## Collaborators: object store and commit graph -/

/-- The object kinds that take part in mining (`object.h`). -/
inductive object_type where
  | OBJ_COMMIT
  | OBJ_TAG
deriving DecidableEq, Repr

/-- What the cumulative-work walk reads of a parsed commit: its parent list
(`commit->parents`), first parent first. -/
structure commit where
  parents : List (List Nat)
deriving DecidableEq, Repr

/-- The collaborators of the proof-of-work code that are not among the
sources, taken as parameters:
* `hash_object_file kind bytes`: the identifier `the_hash_algo` gives to an
  object of that kind and content (`hash_object_file` of `object-file.c`);
* `store_accepts kind bytes`: whether the store manages to persist the object;
* `lookup_commit oid`: `lookup_commit` followed by `repo_parse_commit`,
  `none` when the lookup returns NULL or the parse fails. -/
structure Repo where
  hash_object_file : object_type → List Char → List Nat
  store_accepts : object_type → List Char → Bool
  lookup_commit : List Nat → Option commit

/-- Modelled from the spec: `write_object_file` is the store collaborator
`store.write_object(kind, bytes) -> digest | io-error` of section 6; it is
defined in `object-file.c`, which is not among the sources. It reports in
`*oid` the identifier of the bytes it is given (section 5: "otherwise the stored
object's identifier would not match") and returns a negative value when the
object cannot be persisted. The pair is (return value, `*oid`). -/
def write_object_file (repo : Repo) (type : object_type) (buf : List Char) :
    Int × List Nat :=
  (if repo.store_accepts type buf then 0 else -1, repo.hash_object_file type buf)

/-- `calculate_total_work` of `pow.c` (lines 44-66). The recursion follows
`commit->parents->item`; `fuel` bounds its depth and `none` means the fuel
ran out before the walk ended. -/
def calculate_total_work (repo : Repo) : Nat → List Nat → Option Nat
  | 0, _ => none
  | fuel + 1, commit_oid =>
    match repo.lookup_commit commit_oid with
    | none => some 0
    | some commit =>
      let total_work := calculate_hash_work (oid_to_hex commit_oid)
      match commit.parents with
      | [] => some total_work
      | parent :: _ =>
        match calculate_total_work repo fuel parent with
        | none => none
        | some parent_work => some ((total_work + parent_work) % 2 ^ 64)

/-- A first-parent chain `C_0, C_1, .., C_r` in the store: every commit of
the list is present, the first parent of each is the next one, and the last
one has no parent. -/
def FirstParentChain (repo : Repo) : List (List Nat) → Prop
  | [] => False
  | [c] => ∃ cm, repo.lookup_commit c = some cm ∧ cm.parents = []
  | c :: c1 :: rest =>
    (∃ cm, repo.lookup_commit c = some cm ∧ cm.parents.head? = some c1) ∧
      FirstParentChain repo (c1 :: rest)

/-! ## `pow.c`: mining by re-serialization -/

/-- Commit types for Git3 (`pow.h`). -/
inductive commit_type where
  | COMMIT_TYPE_NORMAL
  | COMMIT_TYPE_FREEZE
  | COMMIT_TYPE_CLEAN
deriving DecidableEq, Repr

/-- `struct pow_data` of `pow.h`. -/
structure pow_data where
  nonce : Nat
  difficulty : Nat
  work : Nat
  cumulative_work : Nat
deriving DecidableEq, Repr

/-- What `printf`-style `%lu` and `%u` print: the decimal digits, no padding. -/
def fmt_dec (n : Nat) : List Char :=
  Nat.toDigits 10 n

/-- What a mining call leaves behind: its return value, `*result_oid`,
`*pow_out` (`none` for a NULL `pow_out`), and the objects handed to the store
write, in order. -/
structure mine_result where
  ret : Int
  result_oid : List Nat
  pow_out : Option pow_data
  written : List (object_type × List Char)
deriving DecidableEq, Repr

/-- The fixed part of the commit object, `header_buf` of `mine_pow_commit`
(`pow.c` lines 155-161). -/
def mine_pow_commit_header (tree_oid : List Nat) (parent_oid : Option (List Nat))
    (author committer : List Char) : List Char :=
  let header_buf : List Char := []
  let header_buf := header_buf ++ ("tree ".toList ++ oid_to_hex tree_oid ++ "\n".toList)
  let header_buf :=
    match parent_oid with
    | some p => header_buf ++ ("parent ".toList ++ oid_to_hex p ++ "\n".toList)
    | none => header_buf
  let header_buf := header_buf ++ ("author ".toList ++ author ++ "\n".toList)
  let header_buf := header_buf ++ ("committer ".toList ++ committer ++ "\n".toList)
  header_buf ++ ['\n']

/-- The content of `commit_buf` built by one iteration of the mining loop of
`mine_pow_commit` (`pow.c` lines 166-182). -/
def mine_pow_commit_buf (header_buf message : List Char) (type : commit_type)
    (difficulty parent_cumulative_work nonce : Nat) : List Char :=
  let commit_buf : List Char := []
  let commit_buf := commit_buf ++ header_buf
  let commit_buf :=
    if type = commit_type.COMMIT_TYPE_FREEZE then commit_buf ++ "[FREEZE] ".toList
    else if type = commit_type.COMMIT_TYPE_CLEAN then commit_buf ++ "[CLEAN] ".toList
    else commit_buf
  let commit_buf := commit_buf ++ message
  let commit_buf := commit_buf ++ ("\n\nPoW-Nonce: ".toList ++ fmt_dec nonce ++ "\n".toList)
  let commit_buf := commit_buf ++ ("PoW-Difficulty: ".toList ++ fmt_dec difficulty ++ "\n".toList)
  commit_buf ++ ("PoW-Parent-Work: ".toList ++ fmt_dec parent_cumulative_work)

/-- The mining loop of `mine_pow_commit` (`pow.c` lines 164-247), from the
current `nonce` on; `none` when `fuel` iterations found no valid nonce. -/
def mine_pow_commit_loop (repo : Repo) (header_buf message : List Char) (type : commit_type)
    (difficulty parent_cumulative_work : Nat) (pow_out : Option pow_data) :
    Nat → Nat → Option mine_result
  | 0, _ => none
  | fuel + 1, nonce =>
    let commit_buf :=
      mine_pow_commit_buf header_buf message type difficulty parent_cumulative_work nonce
    let result_oid := repo.hash_object_file object_type.OBJ_COMMIT commit_buf
    let hex := oid_to_hex result_oid
    if check_pow_difficulty hex difficulty then
      let this_work := calculate_hash_work hex
      let total_work := (parent_cumulative_work + this_work) % 2 ^ 64
      let w := write_object_file repo object_type.OBJ_COMMIT commit_buf
      if w.1 < 0 then
        some { ret := -1, result_oid := w.2, pow_out := pow_out,
               written := [(object_type.OBJ_COMMIT, commit_buf)] }
      else
        some { ret := 0, result_oid := w.2,
               pow_out := pow_out.map fun _ =>
                 { nonce := nonce, difficulty := difficulty, work := this_work,
                   cumulative_work := total_work },
               written := [(object_type.OBJ_COMMIT, commit_buf)] }
    else
      mine_pow_commit_loop repo header_buf message type difficulty parent_cumulative_work
        pow_out fuel ((nonce + 1) % 2 ^ 64)

/-- `mine_pow_commit` of `pow.c`. `wfuel` bounds the parent-work walk and
`fuel` the number of nonces tried; `none` when either runs out. `pow_out` is
the caller's record (`none` for NULL). -/
def mine_pow_commit (repo : Repo) (wfuel fuel : Nat) (tree_oid : List Nat)
    (parent_oid : Option (List Nat)) (author committer message : List Char)
    (type : commit_type) (difficulty : Nat) (pow_out : Option pow_data) :
    Option mine_result :=
  let parent_work : Option Nat :=
    match parent_oid with
    | some p => calculate_total_work repo wfuel p
    | none => some 0
  match parent_work with
  | none => none
  | some parent_cumulative_work =>
    let header_buf := mine_pow_commit_header tree_oid parent_oid author committer
    mine_pow_commit_loop repo header_buf message type difficulty parent_cumulative_work
      pow_out fuel 0

/-- `GIT3_MIN_DIFFICULTY` of `pow.h`. -/
def GIT3_MIN_DIFFICULTY : Nat := 20

/-- The content of `tag_buf` built by one iteration of the loop of
`mine_pow_tag` (`pow.c` lines 282-297). -/
def mine_pow_tag_buf (object_oid : List Nat) (type tag : List Char)
    (tagger : Option (List Char)) (message : List Char) (tag_type : Option (List Char))
    (nonce : Nat) : List Char :=
  let tag_buf : List Char := []
  let tag_buf := tag_buf ++ ("object ".toList ++ oid_to_hex object_oid ++ "\n".toList)
  let tag_buf := tag_buf ++ ("type ".toList ++ type ++ "\n".toList)
  let tag_buf := tag_buf ++ ("tag ".toList ++ tag ++ "\n".toList)
  let tag_buf :=
    match tagger with
    | some t => tag_buf ++ ("tagger ".toList ++ t ++ "\n".toList)
    | none => tag_buf
  let tag_buf :=
    match tag_type with
    | some tt =>
      if tt ≠ "normal".toList then tag_buf ++ ("tagtype ".toList ++ tt ++ "\n".toList)
      else tag_buf
    | none => tag_buf
  tag_buf ++ ("\n".toList ++ message ++ "\n\nPoW-Nonce: ".toList ++ fmt_dec nonce)

/-- The loop of `mine_pow_tag` (`pow.c` lines 281-327), from the current
`nonce` on, with `difficulty` already raised to the floor. The return value
of the store write is not looked at. -/
def mine_pow_tag_loop (repo : Repo) (object_oid : List Nat) (type tag : List Char)
    (tagger : Option (List Char)) (message : List Char) (tag_type : Option (List Char))
    (difficulty : Nat) (pow_out : Option pow_data) : Nat → Nat → Option mine_result
  | 0, _ => none
  | fuel + 1, nonce =>
    let tag_buf := mine_pow_tag_buf object_oid type tag tagger message tag_type nonce
    let tag_oid := repo.hash_object_file object_type.OBJ_TAG tag_buf
    let hex := oid_to_hex tag_oid
    if check_pow_difficulty hex difficulty then
      let pow_out := pow_out.map fun p =>
        { p with nonce := nonce, difficulty := difficulty,
                 cumulative_work := calculate_hash_work hex }
      let w := write_object_file repo object_type.OBJ_TAG tag_buf
      some { ret := 0, result_oid := w.2, pow_out := pow_out,
             written := [(object_type.OBJ_TAG, tag_buf)] }
    else
      mine_pow_tag_loop repo object_oid type tag tagger message tag_type difficulty pow_out
        fuel ((nonce + 1) % 2 ^ 64)

/-- `mine_pow_tag` of `pow.c`. -/
def mine_pow_tag (repo : Repo) (fuel : Nat) (object_oid : List Nat) (type tag : List Char)
    (tagger : Option (List Char)) (message : List Char) (tag_type : Option (List Char))
    (difficulty : Nat) (pow_out : Option pow_data) : Option mine_result :=
  let difficulty := if difficulty < GIT3_MIN_DIFFICULTY then GIT3_MIN_DIFFICULTY else difficulty
  mine_pow_tag_loop repo object_oid type tag tagger message tag_type difficulty pow_out fuel 0

/-! ## `pow_optimized.c`: mining by overwriting the nonce in place -/

/-- `build_commit_for_mining` of `pow_optimized.c` (lines 26-80): the
template in `commit_buf` and the offset written to `*nonce_offset_out`
(the function always returns 0). -/
def build_commit_for_mining (tree_oid : List Nat) (parent_oid : Option (List Nat))
    (author committer message : List Char) (type : commit_type)
    (difficulty parent_cumulative_work : Nat) : List Char × Nat :=
  let commit_buf : List Char := []
  let commit_buf := commit_buf ++ ("tree ".toList ++ oid_to_hex tree_oid ++ "\n".toList)
  let commit_buf :=
    match parent_oid with
    | some p => commit_buf ++ ("parent ".toList ++ oid_to_hex p ++ "\n".toList)
    | none => commit_buf
  let commit_buf := commit_buf ++ ("author ".toList ++ author ++ "\n".toList)
  let commit_buf := commit_buf ++ ("committer ".toList ++ committer ++ "\n".toList)
  let commit_buf := commit_buf ++ ['\n']
  let commit_buf :=
    if type = commit_type.COMMIT_TYPE_FREEZE then commit_buf ++ "[FREEZE] ".toList
    else if type = commit_type.COMMIT_TYPE_CLEAN then commit_buf ++ "[CLEAN] ".toList
    else commit_buf
  let commit_buf := commit_buf ++ message
  let commit_buf := commit_buf ++ "\n\n".toList
  let commit_buf := commit_buf ++ "PoW-Nonce: ".toList
  let nonce_offset := commit_buf.length
  let commit_buf := commit_buf ++ "00000000000000000000".toList
  let commit_buf := commit_buf ++ ("\nPoW-Difficulty: ".toList ++ fmt_dec difficulty ++ "\n".toList)
  let commit_buf := commit_buf ++ ("PoW-Parent-Work: ".toList ++ fmt_dec parent_cumulative_work)
  (commit_buf, nonce_offset)

/-- `memcpy(buf + off, src, n)` on a buffer held as a list. -/
def memcpy_at (buf : List Char) (off : Nat) (src : List Char) (n : Nat) : List Char :=
  buf.take off ++ src.take n ++ buf.drop (off + n)

/-- The C string that starts at the beginning of a character array: the
characters before the first NUL (what `strbuf_addstr` copies, by `strlen`). -/
def c_string_of (buf : List Char) : List Char :=
  buf.takeWhile fun c => c ≠ Char.ofNat 0

/-- One pass of the mining loop of `mine_pow_commit_optimized` up to the hash
(`pow_optimized.c` lines 140-166) and the restore at line 258: given
`commit_buf.buf` at the start of the pass, the content of `final_buf` that is
hashed, and `commit_buf.buf` as the pass leaves it when the nonce is no hit. -/
def mine_pow_commit_optimized_pass (commit_buf : List Char)
    (nonce_offset difficulty parent_cumulative_work nonce : Nat) : List Char × List Char :=
  let nonce_str := (fmt_dec nonce).take 20
  let nonce_len := (fmt_dec nonce).length
  let commit_buf := memcpy_at commit_buf nonce_offset nonce_str nonce_len
  let content_len := nonce_offset + nonce_len
  let temp := ("\nPoW-Difficulty: ".toList ++ fmt_dec difficulty ++
    "\nPoW-Parent-Work: ".toList ++ fmt_dec parent_cumulative_work).take 255
  let saved := commit_buf.getD content_len (Char.ofNat 0)
  let commit_buf := commit_buf.set content_len (Char.ofNat 0)
  let final_buf : List Char := []
  let final_buf := final_buf ++ c_string_of commit_buf
  let final_buf := final_buf ++ temp
  (final_buf, commit_buf.set content_len saved)

/-- The content of `commit_buf.buf` of `mine_pow_commit_optimized` when the
loop reaches nonce `n`, every smaller nonce having been tried without a hit:
the template of `build_commit_for_mining` after `n` passes. -/
def mine_pow_commit_optimized_buf_at (template : List Char)
    (nonce_offset difficulty parent_cumulative_work : Nat) : Nat → List Char
  | 0 => template
  | n + 1 =>
    (mine_pow_commit_optimized_pass
      (mine_pow_commit_optimized_buf_at template nonce_offset difficulty
        parent_cumulative_work n)
      nonce_offset difficulty parent_cumulative_work n).2

/-- The bytes `mine_pow_commit_optimized` passes to `hash_object_file` in
the pass for nonce `n` (`pow_optimized.c` line 165). -/
def mine_pow_commit_optimized_hashed (tree_oid : List Nat) (parent_oid : Option (List Nat))
    (author committer message : List Char) (type : commit_type)
    (difficulty parent_cumulative_work n : Nat) : List Char :=
  let t := build_commit_for_mining tree_oid parent_oid author committer message type
    difficulty parent_cumulative_work
  (mine_pow_commit_optimized_pass
    (mine_pow_commit_optimized_buf_at t.1 t.2 difficulty parent_cumulative_work n)
    t.2 difficulty parent_cumulative_work n).1

/-! ## `sha3_avx2.c`: the in-tree hasher of the AVX2 miner -/

/-- Keccak round constants (`sha3_avx2.c` lines 16-29). -/
def keccak_round_constants : List Nat := [
  0x0000000000000001, 0x0000000000008082,
  0x800000000000808a, 0x8000000080008000,
  0x000000000000808b, 0x0000000080000001,
  0x8000000080008081, 0x8000000000008009,
  0x000000000000008a, 0x0000000000000088,
  0x0000000080008009, 0x000000008000000a,
  0x000000008000808b, 0x800000000000008b,
  0x8000000000008089, 0x8000000000008003,
  0x8000000000008002, 0x8000000000000080,
  0x000000000000800a, 0x800000008000000a,
  0x8000000080008081, 0x8000000000008080,
  0x0000000080000001, 0x8000000080008008]

/-- Rotation offsets, the table `r` of `sha3_avx2.c` (lines 32-38). -/
def r : List Nat :=
  [ 0,  1, 62, 28, 27] ++
  [36, 44,  6, 55, 20] ++
  [ 3, 10, 43, 25, 39] ++
  [41, 45, 15, 21,  8] ++
  [18,  2, 61, 56, 14]

/-- The expression `(x << n) | (x >> (64 - n))` on `uint64_t`, for `n ≤ 63`.
For `n = 0` the right shift is by 64; the x86-64 shift, a rotate instruction
and the value-level reading modelled here all give `x` in that case. -/
def rotl64 (x n : Nat) : Nat :=
  ((x <<< n) % 2 ^ 64) ||| (x >>> (64 - n))

/-- Bitwise complement `~x` on `uint64_t`. -/
def not64 (x : Nat) : Nat :=
  (2 ^ 64 - 1) ^^^ x

/-- One pass of the `round` loop of `keccak_f_1600_avx2` (`sha3_avx2.c` lines
46-103), on the 25 lanes of `state`. The vector expression assigned to `C[0]`
at the top of the loop is never read and is left out. -/
def keccak_round (state : List Nat) (round : Nat) : List Nat :=
  let C_scalar : List Nat := (List.range 5).map fun x =>
    state.getD x 0 ^^^ state.getD (x + 5) 0 ^^^ state.getD (x + 10) 0 ^^^
      state.getD (x + 15) 0 ^^^ state.getD (x + 20) 0
  let D_scalar : List Nat := (List.range 5).map fun x =>
    C_scalar.getD ((x + 4) % 5) 0 ^^^
      (((C_scalar.getD ((x + 1) % 5) 0 <<< 1) % 2 ^ 64) |||
        (C_scalar.getD ((x + 1) % 5) 0 >>> 63))
  let state := (List.range 5).foldl (fun st x =>
    (List.range 5).foldl (fun st y =>
      st.set (y * 5 + x) (st.getD (y * 5 + x) 0 ^^^ D_scalar.getD x 0)) st) state
  let temp := state.getD 1 0
  let rho_pi := (List.range 24).foldl (fun (p : List Nat × Nat) i =>
    let j := (i + 1) * (i + 2) / 2 % 25
    let temp2 := p.1.getD j 0
    (p.1.set j (rotl64 p.2 (r.getD j 0)), temp2)) (state, temp)
  let state := rho_pi.1
  let state := (List.range 5).foldl (fun st y =>
    let T : List Nat := (List.range 5).map fun x => st.getD (y * 5 + x) 0
    (List.range 5).foldl (fun st x =>
      st.set (y * 5 + x)
        (T.getD x 0 ^^^ (not64 (T.getD ((x + 1) % 5) 0) &&& T.getD ((x + 2) % 5) 0))) st) state
  state.set 0 (state.getD 0 0 ^^^ keccak_round_constants.getD round 0)

/-- Evaluation order only: `strict_nat x k` is `k x`, with `x` computed before
`k` is entered. -/
def strict_nat {α : Type} (x : Nat) (k : Nat → α) : α :=
  match x with
  | 0 => k 0
  | n + 1 => k (n + 1)

/-- Evaluation order only: `strict_lanes l k` is `k l`, with every element of
`l` computed before `k` is entered, as the stores of a loop pass are in the
source before the next pass reads them. -/
def strict_lanes {α : Type} : List Nat → (List Nat → α) → α
  | [], k => k []
  | x :: xs, k => strict_nat x fun v => strict_lanes xs fun vs => k (v :: vs)

/-- The `round` loop of `keccak_f_1600_avx2` from pass `round` on, `fuel`
passes. -/
def keccak_round_loop : Nat → Nat → List Nat → List Nat
  | 0, _, state => state
  | fuel + 1, round, state =>
    strict_lanes (keccak_round state round) fun state => keccak_round_loop fuel (round + 1) state

/-- `keccak_f_1600_avx2` of `sha3_avx2.c`: 24 passes of the round loop. -/
def keccak_f_1600_avx2 (state : List Nat) : List Nat :=
  keccak_round_loop 24 0 state

/-- The `uint64_t` read from 8 bytes in memory order (little-endian, x86). -/
def load64 (bytes : List Nat) : Nat :=
  bytes.foldr (fun b acc => b + 256 * acc) 0

/-- The first `n` lanes of a byte buffer viewed as `uint64_t[]`. -/
def lanes_of_buffer : Nat → List Nat → List Nat
  | 0, _ => []
  | n + 1, buffer => load64 (buffer.take 8) :: lanes_of_buffer n (buffer.drop 8)

/-- The loop `for (i = 0; i < rate / 8; i++) state[i] ^= ((uint64_t*)buffer)[i]`
(`sha3_avx2.c` lines 138-140 and 166-168), with `rate / 8 = 17`. -/
def xor_buffer_into_state (state buffer : List Nat) : List Nat :=
  let lanes := lanes_of_buffer 17 buffer
  (List.range 17).foldl (fun st i => st.set i (st.getD i 0 ^^^ lanes.getD i 0)) state

/-- `sha3_256_avx2_ctx` of `sha3_avx2.c`. -/
structure sha3_256_avx2_ctx where
  state : List Nat
  buffer : List Nat
  buffer_len : Nat
deriving DecidableEq, Repr

/-- `sha3_256_avx2_init`. The buffer bytes are left as they are by the source;
they are taken as zero here and are overwritten before they are read. -/
def sha3_256_avx2_init : sha3_256_avx2_ctx :=
  { state := List.replicate 25 0, buffer := List.replicate 136 0, buffer_len := 0 }

/-- `memcpy(buffer + off, data, data.length)` on a byte buffer. -/
def store_bytes (buffer : List Nat) (off : Nat) (data : List Nat) : List Nat :=
  buffer.take off ++ data ++ buffer.drop (off + data.length)

/-- The `while (len > 0)` loop of `sha3_256_avx2_update` (`sha3_avx2.c` lines
125-146); `fuel` bounds the number of passes. -/
def sha3_256_avx2_update_loop : Nat → sha3_256_avx2_ctx → List Nat → sha3_256_avx2_ctx
  | 0, ctx, _ => ctx
  | fuel + 1, ctx, data =>
    if data.length > 0 then
      let to_copy := if 136 - ctx.buffer_len > data.length then data.length
        else 136 - ctx.buffer_len
      let buffer := store_bytes ctx.buffer ctx.buffer_len (data.take to_copy)
      let buffer_len := ctx.buffer_len + to_copy
      if buffer_len = 136 then
        sha3_256_avx2_update_loop fuel
          { state := keccak_f_1600_avx2 (xor_buffer_into_state ctx.state buffer),
            buffer := buffer, buffer_len := 0 }
          (data.drop to_copy)
      else
        sha3_256_avx2_update_loop fuel { ctx with buffer := buffer, buffer_len := buffer_len }
          (data.drop to_copy)
    else ctx

/-- `sha3_256_avx2_update`: every pass of the loop consumes at least one byte
while `buffer_len < 136`, so `data.length` passes are enough. -/
def sha3_256_avx2_update (ctx : sha3_256_avx2_ctx) (data : List Nat) : sha3_256_avx2_ctx :=
  sha3_256_avx2_update_loop data.length ctx data

/-- The zero-padding loop `while (buffer_len < rate - 1) buffer[buffer_len++] = 0`
of `sha3_256_avx2_final`. -/
def sha3_zero_pad : Nat → List Nat → Nat → List Nat × Nat
  | 0, buffer, buffer_len => (buffer, buffer_len)
  | fuel + 1, buffer, buffer_len =>
    if buffer_len < 135 then sha3_zero_pad fuel (buffer.set buffer_len 0) (buffer_len + 1)
    else (buffer, buffer_len)

/-- The 8 bytes of a `uint64_t` in memory order. -/
def store64 (x : Nat) : List Nat :=
  (List.range 8).map fun i => (x >>> (8 * i)) % 256

/-- `sha3_256_avx2_final` of `sha3_avx2.c` (lines 150-175): the 32 output
bytes. A write at index 136 falls outside the 136-byte buffer and leaves the
block that is absorbed unchanged (`List.set` beyond the end). -/
def sha3_256_avx2_final (ctx : sha3_256_avx2_ctx) : List Nat :=
  let buffer := ctx.buffer.set ctx.buffer_len 0x06
  let buffer_len := ctx.buffer_len + 1
  let padded := sha3_zero_pad 136 buffer buffer_len
  let buffer := padded.1.set padded.2 0x80
  let state := keccak_f_1600_avx2 (xor_buffer_into_state ctx.state buffer)
  ((state.take 4).map store64).flatten

/-- `sha3_256_avx2` of `sha3_avx2.c`: the one-shot hash. -/
def sha3_256_avx2 (data : List Nat) : List Nat :=
  sha3_256_avx2_final (sha3_256_avx2_update sha3_256_avx2_init data)

/-- The bytes of a character buffer (`(unsigned char *)commit_buf.buf`). -/
def bytes_of (buf : List Char) : List Nat :=
  buf.map fun c => c.toNat % 256

/-! ## `pow_avx2.c`: the multi-threaded miner -/

/-- The fields of `mining_thread_data` that differ from thread to thread or
describe the template (`pow_avx2.c` lines 28-39); the pointers to the shared
result are the `mining_shared` record below. -/
structure mining_thread_data where
  base_data : List Char
  base_len : Nat
  nonce_offset : Nat
  start_nonce : Nat
  end_nonce : Nat
  difficulty : Nat
deriving DecidableEq, Repr

/-- The state the worker threads share: `found`, `result_nonce`, `result_hash`
of `mine_pow_commit_avx2` and the file-level flag `mining_interrupted`. -/
structure mining_shared where
  found : Bool
  result_nonce : Nat
  result_hash : List Nat
  mining_interrupted : Bool
deriving DecidableEq, Repr

/-- The commit a worker builds for one nonce (`pow_avx2.c` lines 82-88):
the template up to the placeholder, the decimal nonce (through the 32-byte
`nonce_buf`), and the template after the 17 characters of
`NONCE_PLACEHOLDER`. -/
def mining_worker_avx2_buf (data : mining_thread_data) (nonce : Nat) : List Char :=
  let commit_buf : List Char := []
  let commit_buf := commit_buf ++ data.base_data.take data.nonce_offset
  let nonce_buf := (fmt_dec nonce).take 31
  let commit_buf := commit_buf ++ nonce_buf
  commit_buf ++
    (data.base_data.drop (data.nonce_offset + "NONCE_PLACEHOLDER".length)).take
      (data.base_len - data.nonce_offset - "NONCE_PLACEHOLDER".length)

/-- The digest a worker computes for a commit (`pow_avx2.c` lines 91-99). -/
def mining_worker_avx2_hash (repo : Repo) (sha3_avx2_available : Bool)
    (commit_buf : List Char) : List Nat :=
  if sha3_avx2_available then sha3_256_avx2 (bytes_of commit_buf)
  else (repo.hash_object_file object_type.OBJ_COMMIT commit_buf).take 32

/-- One pass of the `for` loop of `mining_worker_avx2` (`pow_avx2.c` lines
77-125) for a worker whose loop variable is `nonce`: the shared state after
the pass and the next value of the loop variable, `none` when the thread has
returned. The claim of the result is made under the mutex, so a pass is taken
as one step. -/
def mining_worker_avx2_pass (repo : Repo) (sha3_avx2_available : Bool)
    (data : mining_thread_data) (sh : mining_shared) (nonce : Nat) :
    mining_shared × Option Nat :=
  if nonce < data.end_nonce ∧ ¬ sh.found ∧ ¬ sh.mining_interrupted then
    let commit_buf := mining_worker_avx2_buf data nonce
    let hash := mining_worker_avx2_hash repo sha3_avx2_available commit_buf
    if check_difficulty_avx2 hash data.difficulty then
      let sh :=
        if ¬ sh.found then { sh with found := true, result_nonce := nonce, result_hash := hash }
        else sh
      (sh, none)
    else (sh, some ((nonce + 1) % 2 ^ 64))
  else (sh, none)

/-- What can happen next while the threads run: thread `i` makes one pass of
its loop, or SIGINT arrives and `handle_interrupt` sets the flag. -/
inductive sched_event where
  | run (i : Nat)
  | sigint
deriving DecidableEq, Repr

/-- The threads and the shared state: for each thread its loop variable,
`none` once it has returned. -/
structure mining_threads where
  shared : mining_shared
  nonces : List (Option Nat)
deriving DecidableEq, Repr

/-- One scheduling step of the running threads. -/
def mining_threads_step (repo : Repo) (sha3_avx2_available : Bool)
    (thread_data : List mining_thread_data) (st : mining_threads) :
    sched_event → mining_threads
  | sched_event.sigint => { st with shared := { st.shared with mining_interrupted := true } }
  | sched_event.run i =>
    match thread_data.get? i, st.nonces.getD i none with
    | some data, some nonce =>
      let p := mining_worker_avx2_pass repo sha3_avx2_available data st.shared nonce
      { shared := p.1, nonces := st.nonces.set i p.2 }
    | _, _ => st

/-- The threads run along a schedule. -/
def mining_threads_run (repo : Repo) (sha3_avx2_available : Bool)
    (thread_data : List mining_thread_data) (st : mining_threads)
    (schedule : List sched_event) : mining_threads :=
  schedule.foldl (mining_threads_step repo sha3_avx2_available thread_data) st

/-- The base commit data of `mine_pow_commit_avx2` (`pow_avx2.c` lines
157-183): `base_buf` and `nonce_offset`. -/
def mine_pow_commit_avx2_base (tree_oid : List Nat) (parent_oid : Option (List Nat))
    (author committer message : List Char) (type : commit_type)
    (difficulty parent_work : Nat) : List Char × Nat :=
  let base_buf : List Char := []
  let base_buf := base_buf ++ ("tree ".toList ++ oid_to_hex tree_oid ++ "\n".toList)
  let base_buf :=
    match parent_oid with
    | some p => base_buf ++ ("parent ".toList ++ oid_to_hex p ++ "\n".toList)
    | none => base_buf
  let base_buf := base_buf ++ ("author ".toList ++ author ++ "\n".toList)
  let base_buf := base_buf ++ ("committer ".toList ++ committer ++ "\n".toList)
  let base_buf := base_buf ++ ['\n']
  let base_buf :=
    if type = commit_type.COMMIT_TYPE_FREEZE then base_buf ++ "[FREEZE] ".toList
    else if type = commit_type.COMMIT_TYPE_CLEAN then base_buf ++ "[CLEAN] ".toList
    else base_buf
  let base_buf := base_buf ++ message
  let base_buf := base_buf ++ "\n\nPoW-Nonce: ".toList
  let nonce_offset := base_buf.length
  let base_buf := base_buf ++ "NONCE_PLACEHOLDER".toList
  let base_buf := base_buf ++ ("\nPoW-Difficulty: ".toList ++ fmt_dec difficulty ++ "\n".toList)
  let base_buf := base_buf ++ ("PoW-Parent-Work: ".toList ++ fmt_dec parent_work)
  (base_buf, nonce_offset)

/-- `UINT64_MAX`. -/
def UINT64_MAX : Nat := 2 ^ 64 - 1

/-- The per-thread data set up by `mine_pow_commit_avx2` (`pow_avx2.c` lines
195-208) for `num_threads = 4`. -/
def mine_pow_commit_avx2_thread_data (base_buf : List Char) (nonce_offset difficulty : Nat) :
    List mining_thread_data :=
  let num_threads := 4
  let nonce_range := UINT64_MAX / num_threads
  (List.range num_threads).map fun i =>
    { base_data := base_buf, base_len := base_buf.length, nonce_offset := nonce_offset,
      start_nonce := (i * nonce_range) % 2 ^ 64,
      end_nonce := ((i + 1) * nonce_range) % 2 ^ 64,
      difficulty := difficulty }

/-- The final commit `mine_pow_commit_avx2` builds for the found nonce
(`pow_avx2.c` lines 220-225). -/
def mine_pow_commit_avx2_final_buf (base_buf : List Char) (nonce_offset result_nonce : Nat) :
    List Char :=
  let final_buf : List Char := []
  let final_buf := final_buf ++ base_buf.take nonce_offset
  let final_buf := final_buf ++ fmt_dec result_nonce
  final_buf ++
    (base_buf.drop (nonce_offset + "NONCE_PLACEHOLDER".length)).take
      (base_buf.length - nonce_offset - "NONCE_PLACEHOLDER".length)

/-- What a call of `mine_pow_commit_avx2` leaves behind: the outcome of the
call, the shared state at the join (`none` on the fallback path, which starts
no thread), and the file-level flag `mining_interrupted` after the call. -/
structure avx2_result where
  result : mine_result
  joined : Option mining_shared
  mining_interrupted : Bool
deriving DecidableEq, Repr

/-- The part of `mine_pow_commit_avx2` after the join (`pow_avx2.c` lines
218-263). `result_oid` is the caller's value of `*result_oid`, which is left
alone when nothing is written. -/
def mine_pow_commit_avx2_finish (repo : Repo) (base_buf : List Char)
    (nonce_offset difficulty parent_work : Nat) (sh : mining_shared)
    (result_oid : List Nat) (pow_out : Option pow_data) : mine_result :=
  if sh.found ∧ ¬ sh.mining_interrupted then
    let final_buf := mine_pow_commit_avx2_final_buf base_buf nonce_offset sh.result_nonce
    let hex := oid_to_hex (sh.result_hash.take 32)
    let work := calculate_hash_work hex
    let total_work := (parent_work + work) % 2 ^ 64
    let w := write_object_file repo object_type.OBJ_COMMIT final_buf
    if w.1 < 0 then
      { ret := -1, result_oid := w.2, pow_out := pow_out,
        written := [(object_type.OBJ_COMMIT, final_buf)] }
    else
      { ret := 0, result_oid := w.2,
        pow_out := pow_out.map fun _ =>
          { nonce := sh.result_nonce, difficulty := difficulty, work := work,
            cumulative_work := total_work },
        written := [(object_type.OBJ_COMMIT, final_buf)] }
  else
    { ret := -1, result_oid := result_oid, pow_out := pow_out, written := [] }

/-- `mine_pow_commit_avx2` of `pow_avx2.c` in the build with `__AVX2__`.
`sha3_avx2_available` is the CPU probe, `mining_interrupted` the value of
the file-level flag when the call starts (the call does not reset it), and
`schedule` the interleaving of the four threads and of SIGINT deliveries up
to the test after the join; `none` when the fuel of the fallback or of the
parent walk runs out, or when the schedule ends before every thread has
returned. -/
def mine_pow_commit_avx2 (repo : Repo) (sha3_avx2_available : Bool) (wfuel fuel : Nat)
    (schedule : List sched_event) (mining_interrupted : Bool)
    (tree_oid : List Nat) (parent_oid : Option (List Nat))
    (author committer message : List Char) (type : commit_type) (difficulty : Nat)
    (result_oid : List Nat) (pow_out : Option pow_data) : Option avx2_result :=
  if ¬ sha3_avx2_available then
    (mine_pow_commit repo wfuel fuel tree_oid parent_oid author committer message type
      difficulty pow_out).map fun res =>
        { result := res, joined := none, mining_interrupted := mining_interrupted }
  else
    let parent_work_opt : Option Nat :=
      match parent_oid with
      | some p => calculate_total_work repo wfuel p
      | none => some 0
    match parent_work_opt with
    | none => none
    | some parent_work =>
      let base := mine_pow_commit_avx2_base tree_oid parent_oid author committer message type
        difficulty parent_work
      let thread_data := mine_pow_commit_avx2_thread_data base.1 base.2 difficulty
      let start : mining_threads :=
        { shared := { found := false, result_nonce := 0, result_hash := List.replicate 32 0,
                      mining_interrupted := mining_interrupted },
          nonces := thread_data.map fun d => some d.start_nonce }
      let st := mining_threads_run repo sha3_avx2_available thread_data start schedule
      if st.nonces.all Option.isNone then
        some { result := mine_pow_commit_avx2_finish repo base.1 base.2 difficulty parent_work
                 st.shared result_oid pow_out,
               joined := some st.shared,
               mining_interrupted := st.shared.mining_interrupted }
      else none

/-! ## The store's identifier function: SHA3-256 over the typed object -/

/-- Modelled from the spec: the portable hasher behind `the_hash_algo`
(`sha3/block/sha3.h`) is not among the sources; section 4.1 of the spec fixes
it as "standard FIPS-202 SHA3-256 (Keccak-f[1600], rate = 136 bytes, capacity =
64 bytes, domain separator byte 0x06, final padding bit 0x80)". This is the
lane order of the pi step of FIPS-202, in the order the rho offsets below are
applied. -/
def fips202_piln : List Nat :=
  [10, 7, 11, 17, 18, 3, 5, 16, 8, 21, 24, 4, 15, 23, 19, 13, 12, 2, 20, 14, 22, 9, 6, 1]

/-- Modelled from the spec: the rho rotation offsets of FIPS-202 (the triangular
numbers modulo 64), see `fips202_piln`. -/
def fips202_rotc : List Nat :=
  [1, 3, 6, 10, 15, 21, 28, 36, 45, 55, 2, 14, 27, 41, 56, 8, 25, 43, 62, 18, 39, 61, 20, 44]

/-- Modelled from the spec: one round of Keccak-f[1600] as FIPS-202 defines it
(theta, rho and pi, chi, iota), see `fips202_piln`. -/
def fips202_round (state : List Nat) (round : Nat) : List Nat :=
  let C : List Nat := (List.range 5).map fun x =>
    state.getD x 0 ^^^ state.getD (x + 5) 0 ^^^ state.getD (x + 10) 0 ^^^
      state.getD (x + 15) 0 ^^^ state.getD (x + 20) 0
  let D : List Nat := (List.range 5).map fun x =>
    C.getD ((x + 4) % 5) 0 ^^^ rotl64 (C.getD ((x + 1) % 5) 0) 1
  let state := (List.range 25).map fun i => state.getD i 0 ^^^ D.getD (i % 5) 0
  let rho_pi := (List.range 24).foldl (fun (p : List Nat × Nat) i =>
    let j := fips202_piln.getD i 0
    (p.1.set j (rotl64 p.2 (fips202_rotc.getD i 0)), p.1.getD j 0)) (state, state.getD 1 0)
  let state := rho_pi.1
  let state := (List.range 25).map fun i =>
    let y := i / 5
    let x := i % 5
    state.getD i 0 ^^^
      (not64 (state.getD (y * 5 + (x + 1) % 5) 0) &&& state.getD (y * 5 + (x + 2) % 5) 0)
  state.set 0 (state.getD 0 0 ^^^ keccak_round_constants.getD round 0)

/-- Modelled from the spec: the rounds of Keccak-f[1600] from round `round` on,
`fuel` of them, see `fips202_piln`. -/
def fips202_round_loop : Nat → Nat → List Nat → List Nat
  | 0, _, state => state
  | fuel + 1, round, state =>
    strict_lanes (fips202_round state round) fun state =>
      fips202_round_loop fuel (round + 1) state

/-- Modelled from the spec: Keccak-f[1600] of FIPS-202, 24 rounds, see
`fips202_piln`. -/
def fips202_keccak_f (state : List Nat) : List Nat :=
  fips202_round_loop 24 0 state

/-- Modelled from the spec: the multi-rate padding of SHA3-256: the message, the
domain separator 0x06, zero bytes, and 0x80 in the last byte of the block (one
byte 0x86 when a single byte is left), see `fips202_piln`. -/
def fips202_pad (data : List Nat) : List Nat :=
  let q := 136 - data.length % 136
  if q = 1 then data ++ [0x86]
  else data ++ [0x06] ++ List.replicate (q - 2) 0 ++ [0x80]

/-- Modelled from the spec: absorbing `n` blocks of 136 bytes, see
`fips202_piln`. -/
def fips202_absorb : Nat → List Nat → List Nat → List Nat
  | 0, state, _ => state
  | n + 1, state, data =>
    fips202_absorb n (fips202_keccak_f (xor_buffer_into_state state (data.take 136)))
      (data.drop 136)

/-- Modelled from the spec: SHA3-256 of FIPS-202, see `fips202_piln`. -/
def fips202_sha3_256 (data : List Nat) : List Nat :=
  let padded := fips202_pad data
  let state := fips202_absorb (padded.length / 136) (List.replicate 25 0) padded
  ((state.take 4).map store64).flatten

/-- The name of an object kind in the object header. -/
def type_name : object_type → List Char
  | object_type.OBJ_COMMIT => "commit".toList
  | object_type.OBJ_TAG => "tag".toList

/-- Modelled from the spec: `hash_object_file` is defined in `object-file.c`,
which is not among the sources. The identifier of an object is the digest of the
hasher of section 4.1 over the object as the store keeps it: the kind, a space,
the decimal length, a NUL byte, then the content. -/
def hash_object_file_sha3 (type : object_type) (buf : List Char) : List Nat :=
  fips202_sha3_256
    (bytes_of (type_name type ++ " ".toList ++ fmt_dec buf.length ++ [Char.ofNat 0] ++ buf))

/-- A repository whose identifiers are SHA3-256 object hashes, whose store
accepts every write and holds no commit yet. -/
def sha3_repo : Repo :=
  { hash_object_file := hash_object_file_sha3
    store_accepts := fun _ _ => true
    lookup_commit := fun _ => none }

/-- `empty_tree_oid_sha3` of `hash.c` (lines 6-15). -/
def empty_tree_oid_sha3 : List Nat := [
  0x30, 0x21, 0x1e, 0xd4, 0x85, 0xc9, 0x12, 0xe5, 0xbc, 0x28,
  0x5b, 0xd0, 0xbd, 0x89, 0x59, 0xdd, 0xbf, 0xb5, 0x87, 0x5c,
  0xaf, 0xb0, 0xae, 0x28, 0xe0, 0xab, 0xfa, 0x10, 0x77, 0xb2,
  0xb2, 0x14]

/-! ## Reference serializations, in the words of the spec -/

/-- The commit serialization of section 4.2 of the spec: `tree`, optional
`parent`, `author`, `committer`, an empty line, the kind marker directly
followed by the message, then the three PoW lines, the last one without a
trailing newline. -/
def commit_serialization (tree_hex : List Char) (parent_hex : Option (List Char))
    (author committer message : List Char) (kind : commit_type)
    (nonce difficulty parent_work : Nat) : List Char :=
  "tree ".toList ++ tree_hex ++ "\n".toList ++
  (match parent_hex with
    | some p => "parent ".toList ++ p ++ "\n".toList
    | none => []) ++
  "author ".toList ++ author ++ "\n".toList ++
  "committer ".toList ++ committer ++ "\n".toList ++
  "\n".toList ++
  (match kind with
    | commit_type.COMMIT_TYPE_NORMAL => []
    | commit_type.COMMIT_TYPE_FREEZE => "[FREEZE] ".toList
    | commit_type.COMMIT_TYPE_CLEAN => "[CLEAN] ".toList) ++
  message ++
  "\n\nPoW-Nonce: ".toList ++ fmt_dec nonce ++
  "\nPoW-Difficulty: ".toList ++ fmt_dec difficulty ++
  "\nPoW-Parent-Work: ".toList ++ fmt_dec parent_work

/-- The tag serialization of section 4.2 of the spec: `object`, `type`, `tag`,
optional `tagger`, `tagtype` when a category is given and is not "normal", an
empty line, the message, an empty line and the nonce line without a trailing
newline. -/
def tag_serialization (object_hex type tag : List Char) (tagger : Option (List Char))
    (message : List Char) (category : Option (List Char)) (nonce : Nat) : List Char :=
  "object ".toList ++ object_hex ++ "\n".toList ++
  "type ".toList ++ type ++ "\n".toList ++
  "tag ".toList ++ tag ++ "\n".toList ++
  (match tagger with
    | some t => "tagger ".toList ++ t ++ "\n".toList
    | none => []) ++
  (match category with
    | some c => if c = "normal".toList then [] else "tagtype ".toList ++ c ++ "\n".toList
    | none => []) ++
  "\n".toList ++ message ++ "\n\nPoW-Nonce: ".toList ++ fmt_dec nonce

/-! ## Worked examples -/

/-- The all-zero digest (the null identifier). -/
def zero_digest : List Nat := List.replicate 32 0

/-- A repository for worked examples: the identifier of an object starts with
two zero bytes and a checksum of its characters (0 to 3) in the third byte, so
that it has 31, 23 or 22 leading zero bits; the store accepts every write and
holds no commit. -/
def checksum_repo : Repo :=
  { hash_object_file := fun _ buf =>
      [0, 0, (buf.map Char.toNat).sum % 4] ++ List.replicate 29 1
    store_accepts := fun _ _ => true
    lookup_commit := fun _ => none }

/-- A root commit identifier with 5 leading zero bits. -/
def example_c0 : List Nat := 0x04 :: List.replicate 31 1

/-- A commit identifier with 12 leading zero bits. -/
def example_c1 : List Nat := 0x00 :: 0x0f :: List.replicate 30 1

/-- A commit identifier with no leading zero bit. -/
def example_c2 : List Nat := 0x80 :: List.replicate 31 1

/-- A commit identifier off the first-parent chain, with 8 leading zero bits. -/
def example_side : List Nat := 0x00 :: List.replicate 31 0xff

/-- A store holding the chain `example_c0 ← example_c1 ← example_c2`; the last
commit is a merge whose second parent is `example_side`. -/
def example_chain_repo : Repo :=
  { hash_object_file := fun _ _ => zero_digest
    store_accepts := fun _ _ => true
    lookup_commit := fun oid =>
      if oid = example_c2 then some { parents := [example_c1, example_side] }
      else if oid = example_c1 then some { parents := [example_c0] }
      else if oid = example_c0 then some { parents := [] }
      else if oid = example_side then some { parents := [] }
      else none }

/-- The store of `example_chain_repo` with the merge's second parent replaced
by the null identifier, which the store does not hold. -/
def example_chain_repo_alt : Repo :=
  { hash_object_file := fun _ _ => zero_digest
    store_accepts := fun _ _ => true
    lookup_commit := fun oid =>
      if oid = example_c2 then some { parents := [example_c1, zero_digest] }
      else if oid = example_c1 then some { parents := [example_c0] }
      else if oid = example_c0 then some { parents := [] }
      else none }


/-- The identifier the checksum repository gives to an object whose checksum
is zero. -/
def checksum_hit : List Nat := [0, 0, 0] ++ List.replicate 29 1

/-- The outcome of mining a NORMAL commit `hello` on the empty tree, without
parent, on the checksum repository at difficulty 24. -/
def example_root_result : mine_result :=
  { ret := 0
    result_oid := checksum_hit
    pow_out := some { nonce := 1, difficulty := 24, work := 2 ^ 31, cumulative_work := 2 ^ 31 }
    written := [(object_type.OBJ_COMMIT,
      ("tree 30211ed485c912e5bc285bd0bd8959ddbfb5875cafb0ae28e0abfa1077b2b214\n" ++
       "author a\ncommitter c\n\nhello\n\n" ++
       "PoW-Nonce: 1\nPoW-Difficulty: 24\nPoW-Parent-Work: 0").toList)] }

/-- The outcome of mining a FREEZE commit `hello` on `example_c1` with parent
`example_c0` on the checksum repository at difficulty 24, no record requested. -/
def example_commit_result : mine_result :=
  { ret := 0
    result_oid := checksum_hit
    pow_out := none
    written := [(object_type.OBJ_COMMIT,
      ("tree 000f010101010101010101010101010101010101010101010101010101010101\n" ++
       "parent 0401010101010101010101010101010101010101010101010101010101010101\n" ++
       "author ab\ncommitter c\n\n[FREEZE] hello\n\n" ++
       "PoW-Nonce: 2\nPoW-Difficulty: 24\nPoW-Parent-Work: 0").toList)] }

/-- The outcome of mining a tag `v1` of category `release` on the checksum
repository at difficulty 24, with a record whose fields were all 7. -/
def example_tag_result : mine_result :=
  { ret := 0
    result_oid := checksum_hit
    pow_out := some { nonce := 3, difficulty := 24, work := 7, cumulative_work := 2 ^ 31 }
    written := [(object_type.OBJ_TAG,
      ("object 000f010101010101010101010101010101010101010101010101010101010101\n" ++
       "type commit\ntag v1\ntagger t\ntagtype release\n\nmsg\n\nPoW-Nonce: 3").toList)] }

/-! ## The parts the three commit serializations have in common -/

/-- A C string holds no NUL character. -/
def IsCString (s : List Char) : Prop :=
  ∀ c ∈ s, c ≠ Char.ofNat 0

instance (s : List Char) : Decidable (IsCString s) := by
  unfold IsCString; infer_instance

/-- The commit text from `tree` up to and including `PoW-Nonce: `. -/
def commit_front (tree_oid : List Nat) (parent_oid : Option (List Nat))
    (author committer message : List Char) (type : commit_type) : List Char :=
  "tree ".toList ++ oid_to_hex tree_oid ++ "\n".toList ++
  (match parent_oid with
    | some p => "parent ".toList ++ oid_to_hex p ++ "\n".toList
    | none => []) ++
  "author ".toList ++ author ++ "\n".toList ++
  "committer ".toList ++ committer ++ "\n".toList ++
  "\n".toList ++
  (match type with
    | commit_type.COMMIT_TYPE_NORMAL => []
    | commit_type.COMMIT_TYPE_FREEZE => "[FREEZE] ".toList
    | commit_type.COMMIT_TYPE_CLEAN => "[CLEAN] ".toList) ++
  message ++ "\n\nPoW-Nonce: ".toList

/-- The commit text after the nonce: the difficulty and parent-work lines. -/
def commit_back (difficulty parent_work : Nat) : List Char :=
  "\nPoW-Difficulty: ".toList ++ fmt_dec difficulty ++
  "\nPoW-Parent-Work: ".toList ++ fmt_dec parent_work

/-! ## Invariant of the threads of the AVX2 miner -/

/-- What holds of the threads and their shared state at every point of a run:
loop variables and the recorded nonce are 64-bit values, and once `found` is set
the recorded hash is the digest a worker computed for the recorded nonce and
tested against its difficulty. -/
def mining_threads_inv (repo : Repo) (avail : Bool) (thread_data : List mining_thread_data)
    (st : mining_threads) : Prop :=
  (∀ i nonce, st.nonces.getD i none = some nonce → nonce < 2 ^ 64) ∧
  (st.shared.found = true →
    st.shared.result_nonce < 2 ^ 64 ∧
    ∃ data ∈ thread_data,
      st.shared.result_hash =
        mining_worker_avx2_hash repo avail
          (mining_worker_avx2_buf data st.shared.result_nonce) ∧
      check_difficulty_avx2 st.shared.result_hash data.difficulty = true)

/-! ## A run of the AVX2 miner on a SHA3-256 repository -/

/-- Author line of the worked example. -/
def example_author : List Char := "A U Thor <author@example.com> 1700000000 +0000".toList

/-- Committer line of the worked example. -/
def example_committer : List Char :=
  "C O Mitter <committer@example.com> 1700000000 +0000".toList

/-- The commit of the worked example with nonce 0. -/
def example_avx2_commit : List Char :=
  ("tree 30211ed485c912e5bc285bd0bd8959ddbfb5875cafb0ae28e0abfa1077b2b214\n" ++
   "author A U Thor <author@example.com> 1700000000 +0000\n" ++
   "committer C O Mitter <committer@example.com> 1700000000 +0000\n" ++
   "\nhello 1500987\n\n" ++
   "PoW-Nonce: 0\nPoW-Difficulty: 20\nPoW-Parent-Work: 0").toList

/-- The digest `sha3_256_avx2` computes for `example_avx2_commit`:
`00000b102a53...`, 20 leading zero bits. -/
def example_avx2_tested : List Nat := [
  0x00, 0x00, 0x0b, 0x10, 0x2a, 0x53, 0x0b, 0x29, 0x6c, 0xc3, 0xfa, 0x8c, 0x29, 0xac, 0x2c, 0x85,
  0x81, 0xf2, 0x19, 0x79, 0x34, 0x58, 0x58, 0x14, 0xcb, 0xb3, 0xd0, 0xc0, 0xfa, 0xab, 0x4b, 0x5c]

/-- The identifier of `example_avx2_commit` as a commit object in the SHA3-256
repository: `87cf4174eab5...`, no leading zero bit. -/
def example_avx2_stored : List Nat := [
  0x87, 0xcf, 0x41, 0x74, 0xea, 0xb5, 0x93, 0xb9, 0x0d, 0xcc, 0x51, 0x3f, 0xc1, 0x92, 0xb3, 0x7f,
  0xbe, 0x62, 0xcc, 0x14, 0xfa, 0x85, 0xac, 0x18, 0x14, 0x42, 0x2f, 0x30, 0x99, 0x8c, 0xb7, 0x6d]

/-- The outcome of the worked example: success, with the store's identifier in
`*result_oid` and the tested digest left in `result_hash`. -/
def example_avx2_result : avx2_result :=
  { result :=
      { ret := 0
        result_oid := example_avx2_stored
        pow_out := some { nonce := 0, difficulty := 20, work := 2 ^ 20,
                          cumulative_work := 2 ^ 20 }
        written := [(object_type.OBJ_COMMIT, example_avx2_commit)] }
    joined := some { found := true, result_nonce := 0, result_hash := example_avx2_tested,
                     mining_interrupted := false }
    mining_interrupted := false }

/-! ## `pow_optimized.c`: the whole of `mine_pow_commit_optimized` -/

/-- The dispositions of SIGINT told apart here: the two standard ones, the
`handle_interrupt` of `pow_optimized.c`, and any other function of the host
program, named by a number. -/
inductive sighandler where
  | SIG_DFL
  | SIG_IGN
  | handle_interrupt
  | installed (id : Nat)
deriving DecidableEq, Repr

/-- The process-wide state `mine_pow_commit_optimized` touches: the
disposition of SIGINT and the file-level flag `mining_interrupted` of
`pow_optimized.c` (line 16). -/
structure signal_state where
  sigint : sighandler
  mining_interrupted : Bool
deriving DecidableEq, Repr

/-- `sigaction(SIGINT, &act, &oldact)`: installs `act` and reports the
disposition it replaces. The pair is (state after the call, `oldact`). -/
def sigaction (act : sighandler) (s : signal_state) : signal_state × sighandler :=
  ({ s with sigint := act }, s.sigint)

/-- Delivery of one SIGINT: `handle_interrupt` (`pow_optimized.c` lines
19-23) sets the flag; what another disposition does is outside this file. -/
def deliver_sigint (s : signal_state) : signal_state :=
  match s.sigint with
  | sighandler.handle_interrupt => { s with mining_interrupted := true }
  | _ => s

/-- Modelled from the spec: `commit_tree_extended` is defined in `commit.c`,
which is not among the sources. With no signature and no extra headers it
lays the commit out as section 4.2 gives it (`tree`, one `parent` line per
parent, `author`, `committer`, an empty line, the message) and hands the
bytes to the store write once. The triple is (return value, `*ret`, the
objects handed to the store write). -/
def commit_tree_extended (repo : Repo) (msg : List Char) (tree : List Nat)
    (parents : List (List Nat)) (author committer : List Char) :
    Int × List Nat × List (object_type × List Char) :=
  let buffer : List Char := "tree ".toList ++ oid_to_hex tree ++ "\n".toList
  let buffer := parents.foldl
    (fun b p => b ++ ("parent ".toList ++ oid_to_hex p ++ "\n".toList)) buffer
  let buffer := buffer ++ ("author ".toList ++ author ++ "\n".toList)
  let buffer := buffer ++ ("committer ".toList ++ committer ++ "\n".toList)
  let buffer := buffer ++ ['\n'] ++ msg
  let w := write_object_file repo object_type.OBJ_COMMIT buffer
  (w.1, w.2, [(object_type.OBJ_COMMIT, buffer)])

/-- The statement through which a call of `mine_pow_commit_optimized` reaches
`cleanup`: the `goto` of line 254 after a stored hit, of line 137 after the
flag was seen, and of line 239 after `commit_tree_extended` failed. (The
`goto` of line 128 is never taken: `build_commit_for_mining` returns 0.) -/
inductive optimized_exit where
  | found
  | cancelled
  | store_failed
deriving DecidableEq, Repr

/-- What a call of `mine_pow_commit_optimized` leaves behind: the outcome of
the call, the way it left the loop, and the signal state after the call. -/
structure optimized_result where
  result : mine_result
  exit_path : optimized_exit
  signals : signal_state
deriving DecidableEq, Repr

/-- The message `mine_pow_commit_optimized` passes to `commit_tree_extended`
(`pow_optimized.c` lines 220-229). -/
def mine_pow_commit_optimized_final_message (message : List Char) (type : commit_type)
    (difficulty parent_cumulative_work nonce : Nat) : List Char :=
  let final_message : List Char := []
  let final_message :=
    if type = commit_type.COMMIT_TYPE_FREEZE then final_message ++ "[FREEZE] ".toList
    else if type = commit_type.COMMIT_TYPE_CLEAN then final_message ++ "[CLEAN] ".toList
    else final_message
  let final_message := final_message ++ message
  let final_message :=
    final_message ++ ("\n\nPoW-Nonce: ".toList ++ fmt_dec nonce ++ "\n".toList)
  let final_message :=
    final_message ++ ("PoW-Difficulty: ".toList ++ fmt_dec difficulty ++ "\n".toList)
  final_message ++ ("PoW-Parent-Work: ".toList ++ fmt_dec parent_cumulative_work)

/-- The mining loop of `mine_pow_commit_optimized` (`pow_optimized.c` lines
132-260) from the head of pass number `pass` on, with the current `nonce`,
`commit_buf.buf`, signal state and `*result_oid`. `sigint k` tells whether a
SIGINT is delivered before the flag is tested in pass `k`;
`lookup_commit_node oid` whether `lookup_commit` returns a commit for `oid`.
`none` when `fuel` passes neither found a nonce nor saw the flag. -/
def mine_pow_commit_optimized_loop (repo : Repo) (lookup_commit_node : List Nat → Bool)
    (sigint : Nat → Bool) (tree_oid : List Nat) (parent_oid : Option (List Nat))
    (author committer message : List Char) (type : commit_type)
    (difficulty parent_cumulative_work nonce_offset : Nat) (pow_out : Option pow_data) :
    Nat → Nat → Nat → List Char → signal_state → List Nat →
      Option (mine_result × optimized_exit × signal_state)
  | 0, _, _, _, _, _ => none
  | fuel + 1, pass, nonce, commit_buf, s, result_oid =>
    let s := if sigint pass then deliver_sigint s else s
    if s.mining_interrupted then
      some ({ ret := -1, result_oid := result_oid, pow_out := pow_out, written := [] },
        optimized_exit.cancelled, s)
    else
      let p := mine_pow_commit_optimized_pass commit_buf nonce_offset difficulty
        parent_cumulative_work nonce
      let result_oid := repo.hash_object_file object_type.OBJ_COMMIT p.1
      let hex := oid_to_hex result_oid
      if check_pow_difficulty hex difficulty then
        let this_work := calculate_hash_work hex
        let total_work := (parent_cumulative_work + this_work) % 2 ^ 64
        let parents : List (List Nat) :=
          match parent_oid with
          | some parent => if lookup_commit_node parent then [parent] else []
          | none => []
        let final_message := mine_pow_commit_optimized_final_message message type difficulty
          parent_cumulative_work nonce
        let c := commit_tree_extended repo final_message tree_oid parents author committer
        if c.1 < 0 then
          some ({ ret := -1, result_oid := c.2.1, pow_out := pow_out, written := c.2.2 },
            optimized_exit.store_failed, s)
        else
          some ({ ret := 0, result_oid := c.2.1,
                  pow_out := pow_out.map fun _ =>
                    { nonce := nonce, difficulty := difficulty, work := this_work,
                      cumulative_work := total_work },
                  written := c.2.2 },
            optimized_exit.found, s)
      else
        mine_pow_commit_optimized_loop repo lookup_commit_node sigint tree_oid parent_oid
          author committer message type difficulty parent_cumulative_work nonce_offset pow_out
          fuel (pass + 1) ((nonce + 1) % 2 ^ 64) p.2 s result_oid

/-- `mine_pow_commit_optimized` of `pow_optimized.c` (lines 83-267).
`signals` is the signal state when the call starts and `result_oid` the
caller's value of `*result_oid`; `wfuel` bounds the parent-work walk and
`fuel` the number of passes, `none` when either runs out. -/
def mine_pow_commit_optimized (repo : Repo) (lookup_commit_node : List Nat → Bool)
    (sigint : Nat → Bool) (wfuel fuel : Nat) (signals : signal_state)
    (tree_oid : List Nat) (parent_oid : Option (List Nat))
    (author committer message : List Char) (type : commit_type) (difficulty : Nat)
    (result_oid : List Nat) (pow_out : Option pow_data) : Option optimized_result :=
  let s : signal_state := { signals with mining_interrupted := false }
  let sa := sigaction sighandler.handle_interrupt s
  let s := sa.1
  let old_sa := sa.2
  let parent_work : Option Nat :=
    match parent_oid with
    | some p => calculate_total_work repo wfuel p
    | none => some 0
  match parent_work with
  | none => none
  | some parent_cumulative_work =>
    let t := build_commit_for_mining tree_oid parent_oid author committer message type
      difficulty parent_cumulative_work
    match mine_pow_commit_optimized_loop repo lookup_commit_node sigint tree_oid parent_oid
        author committer message type difficulty parent_cumulative_work t.2 pow_out
        fuel 0 0 t.1 s result_oid with
    | none => none
    | some (res, e, s) =>
      some { result := res, exit_path := e, signals := (sigaction old_sa s).1 }

/-! ## First-parent chains that break off -/

/-- A first-parent chain that breaks off: the last identifier of the list
cannot be looked up in the store; every identifier before it is a commit of
the store whose first parent is the next one of the list. -/
def BrokenFirstParentChain (repo : Repo) : List (List Nat) → Prop
  | [] => False
  | [missing] => repo.lookup_commit missing = none
  | c :: c1 :: rest =>
    (∃ cm, repo.lookup_commit c = some cm ∧ cm.parents.head? = some c1) ∧
      BrokenFirstParentChain repo (c1 :: rest)

/-! ## Worked examples: missing commits, the result record, the floor -/

/-- A store that holds the merge `example_c2` and its first parent
`example_c1`, but not `example_c0`, the parent `example_c1` names. -/
def example_broken_repo : Repo :=
  { hash_object_file := fun _ _ => zero_digest
    store_accepts := fun _ _ => true
    lookup_commit := fun oid =>
      if oid = example_c2 then some { parents := [example_c1, example_side] }
      else if oid = example_c1 then some { parents := [example_c0] }
      else none }

/-- A store that holds `example_c2` and `example_c1`, the latter as a root
commit. -/
def example_cut_repo : Repo :=
  { hash_object_file := fun _ _ => zero_digest
    store_accepts := fun _ _ => true
    lookup_commit := fun oid =>
      if oid = example_c2 then some { parents := [example_c1, example_side] }
      else if oid = example_c1 then some { parents := [] }
      else none }

/-- An identifier with 64 leading zero bits. -/
def example_wide : List Nat := List.replicate 8 0 ++ 0x80 :: List.replicate 23 1

/-- A repository that gives every object the identifier `example_wide`. -/
def example_wide_repo : Repo :=
  { hash_object_file := fun _ _ => example_wide
    store_accepts := fun _ _ => true
    lookup_commit := fun _ => none }

/-- An identifier with 63 leading zero bits. -/
def example_heavy : List Nat := List.replicate 7 0 ++ 0x01 :: List.replicate 24 1

/-- A repository that gives every object the identifier `example_heavy` and
holds one root commit of that identifier. -/
def example_heavy_repo : Repo :=
  { hash_object_file := fun _ _ => example_heavy
    store_accepts := fun _ _ => true
    lookup_commit := fun oid => if oid = example_heavy then some { parents := [] } else none }

/-- The checksum repository holding the chain `example_c0 ← example_c1`. -/
def example_mining_repo : Repo :=
  { checksum_repo with
    lookup_commit := fun oid =>
      if oid = example_c1 then some { parents := [example_c0] }
      else if oid = example_c0 then some { parents := [] }
      else none }

/-- The checksum repository with a store that refuses every write. -/
def readonly_checksum_repo : Repo :=
  { checksum_repo with store_accepts := fun _ _ => false }

/-- A repository whose identifiers have 31 leading zero bits for an object
whose characters sum to a multiple of 4, and 12 otherwise. -/
def coarse_repo : Repo :=
  { hash_object_file := fun _ buf =>
      if (buf.map Char.toNat).sum % 4 = 0 then checksum_hit else example_c1
    store_accepts := fun _ _ => true
    lookup_commit := fun _ => none }

/-- The SHA3-256 repository with a store that refuses every write. -/
def readonly_sha3_repo : Repo :=
  { sha3_repo with store_accepts := fun _ _ => false }

/-- Tagger line of the worked example. -/
def example_tagger : List Char := "T Agger <tagger@example.com> 1700000000 +0000".toList

/-- The tag of the worked example with nonce 0. -/
def example_tag : List Char :=
  ("object 30211ed485c912e5bc285bd0bd8959ddbfb5875cafb0ae28e0abfa1077b2b214\n" ++
   "type tree\ntag v1\n" ++
   "tagger T Agger <tagger@example.com> 1700000000 +0000\n" ++
   "\nrelease 83417\n\nPoW-Nonce: 0").toList

/-- The identifier of `example_tag` as a tag object in the SHA3-256
repository: `00000146f7f2...`, 23 leading zero bits. -/
def example_tag_oid : List Nat := [
  0x00, 0x00, 0x01, 0x46, 0xf7, 0xf2, 0xdd, 0x75, 0x8f, 0x33, 0x40, 0x89, 0x44, 0xb8, 0x63, 0xe5,
  0x95, 0xce, 0xc8, 0x6a, 0x8b, 0xe9, 0x8a, 0x10, 0x48, 0x1c, 0xd7, 0xcb, 0xe2, 0x9d, 0x44, 0x83]

/-- The commit `hello 30` on the empty tree, mined at difficulty 8, with
nonce 0. -/
def example_easy_commit : List Char :=
  ("tree 30211ed485c912e5bc285bd0bd8959ddbfb5875cafb0ae28e0abfa1077b2b214\n" ++
   "author A U Thor <author@example.com> 1700000000 +0000\n" ++
   "committer C O Mitter <committer@example.com> 1700000000 +0000\n" ++
   "\nhello 30\n\n" ++
   "PoW-Nonce: 0\nPoW-Difficulty: 8\nPoW-Parent-Work: 0").toList

/-- The identifier of `example_easy_commit` as a commit object in the SHA3-256
repository: `00386937d7c1...`, 10 leading zero bits. -/
def example_easy_oid : List Nat := [
  0x00, 0x38, 0x69, 0x37, 0xd7, 0xc1, 0x29, 0x09, 0x3c, 0x46, 0x0e, 0x95, 0x48, 0x8a, 0x24, 0x35,
  0xfa, 0x5a, 0x8e, 0x4c, 0xb4, 0x26, 0xd0, 0x62, 0xac, 0xc9, 0x51, 0x3b, 0x4b, 0x55, 0xae, 0xf5]

/-- The outcome of mining a NORMAL commit `hello` on the empty tree with
parent `example_c1` on `example_mining_repo` at difficulty 24: the parent's
cumulative work is `4096 + 32`. -/
def example_child_result : mine_result :=
  { ret := 0
    result_oid := checksum_hit
    pow_out := some { nonce := 2, difficulty := 24, work := 2 ^ 31,
                      cumulative_work := 4128 + 2 ^ 31 }
    written := [(object_type.OBJ_COMMIT,
      ("tree 30211ed485c912e5bc285bd0bd8959ddbfb5875cafb0ae28e0abfa1077b2b214\n" ++
       "parent 000f010101010101010101010101010101010101010101010101010101010101\n" ++
       "author a\ncommitter c\n\nhello\n\n" ++
       "PoW-Nonce: 2\nPoW-Difficulty: 24\nPoW-Parent-Work: 4128").toList)] }

/-- The outcome of mining the tag `v1` of the empty tree, message
`release 83417`, on the SHA3-256 repository at difficulty 20, with a record
whose fields were all 0 before the call. -/
def example_sha3_tag_result : mine_result :=
  { ret := 0
    result_oid := example_tag_oid
    pow_out := some { nonce := 0, difficulty := 20, work := 0, cumulative_work := 2 ^ 23 }
    written := [(object_type.OBJ_TAG, example_tag)] }

/-- The outcome of mining the commit `hello 30` on the empty tree on the
SHA3-256 repository at difficulty 8. -/
def example_easy_result : mine_result :=
  { ret := 0
    result_oid := example_easy_oid
    pow_out := some { nonce := 0, difficulty := 8, work := 2 ^ 10, cumulative_work := 2 ^ 10 }
    written := [(object_type.OBJ_COMMIT, example_easy_commit)] }

/-- The commit `hello 333` on the empty tree, mined at difficulty 8, with
nonce 0. -/
def example_low_commit : List Char :=
  ("tree 30211ed485c912e5bc285bd0bd8959ddbfb5875cafb0ae28e0abfa1077b2b214\n" ++
   "author A U Thor <author@example.com> 1700000000 +0000\n" ++
   "committer C O Mitter <committer@example.com> 1700000000 +0000\n" ++
   "\nhello 333\n\n" ++
   "PoW-Nonce: 0\nPoW-Difficulty: 8\nPoW-Parent-Work: 0").toList

/-- The outcome of mining `hello 333` at difficulty 8 on `coarse_repo`, which
gives `example_low_commit` the identifier `example_c1` of 12 leading zero bits. -/
def example_low_result : mine_result :=
  { ret := 0
    result_oid := example_c1
    pow_out := some { nonce := 0, difficulty := 8, work := 2 ^ 12, cumulative_work := 2 ^ 12 }
    written := [(object_type.OBJ_COMMIT, example_low_commit)] }

/-- The outcome of `mine_pow_commit_optimized` for the same template, with
SIGINT at its default disposition and no signal delivered. -/
def example_low_optimized_result : optimized_result :=
  { result := example_low_result
    exit_path := optimized_exit.found
    signals := { sigint := sighandler.SIG_DFL, mining_interrupted := false } }

/-- The digest `sha3_256_avx2` computes for `example_low_commit`:
`007f1503a602...`, 9 leading zero bits. -/
def example_low_tested : List Nat := [
  0x00, 0x7f, 0x15, 0x03, 0xa6, 0x02, 0x72, 0xe6, 0x86, 0xf5, 0xf5, 0x48, 0x0e, 0x11, 0x5b, 0x97,
  0xed, 0x84, 0x49, 0x77, 0xe3, 0x80, 0x4e, 0xf1, 0x6f, 0x59, 0xce, 0x2b, 0xb1, 0x21, 0x10, 0x09]

/-- The outcome of `mine_pow_commit_avx2` for the same template when thread 0
runs first. -/
def example_low_avx2_result : avx2_result :=
  { result :=
      { ret := 0
        result_oid := example_c1
        pow_out := some { nonce := 0, difficulty := 8, work := 2 ^ 9, cumulative_work := 2 ^ 9 }
        written := [(object_type.OBJ_COMMIT, example_low_commit)] }
    joined := some { found := true, result_nonce := 0, result_hash := example_low_tested,
                     mining_interrupted := false }
    mining_interrupted := false }

/-- The outcome of mining a tag `v1` of category `release` on `coarse_repo`
with difficulty 5 requested and a record whose fields were all 7. -/
def example_coarse_tag_result : mine_result :=
  { ret := 0
    result_oid := checksum_hit
    pow_out := some { nonce := 3, difficulty := 20, work := 7, cumulative_work := 2 ^ 31 }
    written := [(object_type.OBJ_TAG,
      ("object 000f010101010101010101010101010101010101010101010101010101010101\n" ++
       "type commit\ntag v1\ntagger t\ntagtype release\n\nmsg\n\nPoW-Nonce: 3").toList)] }

/-- The outcome of mining the tag of `example_sha3_tag_result` when the store
refuses the write and no record is requested. -/
def example_refused_tag_result : mine_result :=
  { ret := 0
    result_oid := example_tag_oid
    pow_out := none
    written := [(object_type.OBJ_TAG, example_tag)] }

/-! ## Worked examples: runs of `mine_pow_commit_optimized`, cancelled runs -/

/-- The outcome of `mine_pow_commit_optimized` for the template of
`example_root_result` on the checksum repository at difficulty 24, entered
with SIGINT at its default disposition and the flag still set from an earlier
call, no signal delivered: found at nonce 1. -/
def example_found_optimized_result : optimized_result :=
  { result := example_root_result
    exit_path := optimized_exit.found
    signals := { sigint := sighandler.SIG_DFL, mining_interrupted := false } }

/-- The outcome of the same call entered with the host's handler number 7
installed, when a SIGINT arrives during the first pass: the flag is seen at
the head of the second pass, `*result_oid` holds the identifier tested for
nonce 0, nothing is written. -/
def example_cancelled_optimized_result : optimized_result :=
  { result :=
      { ret := -1
        result_oid := [0, 0, 3] ++ List.replicate 29 1
        pow_out := some { nonce := 0, difficulty := 0, work := 0, cumulative_work := 0 }
        written := [] }
    exit_path := optimized_exit.cancelled
    signals := { sigint := sighandler.installed 7, mining_interrupted := true } }

/-- The outcome of the same call on `readonly_checksum_repo`, entered with
SIGINT ignored and no signal delivered: the nonce is found and the write of
the commit fails. -/
def example_refused_optimized_result : optimized_result :=
  { result :=
      { ret := -1
        result_oid := checksum_hit
        pow_out := some { nonce := 0, difficulty := 0, work := 0, cumulative_work := 0 }
        written := example_root_result.written }
    exit_path := optimized_exit.store_failed
    signals := { sigint := sighandler.SIG_IGN, mining_interrupted := false } }

/-- The outcome of `mine_pow_commit_avx2` for the same template when a SIGINT
is delivered before any thread runs: every worker leaves its loop at once and
nothing is written. -/
def example_cancelled_avx2_result : avx2_result :=
  { result :=
      { ret := -1
        result_oid := zero_digest
        pow_out := some { nonce := 0, difficulty := 0, work := 0, cumulative_work := 0 }
        written := [] }
    joined := some { found := false, result_nonce := 0, result_hash := List.replicate 32 0,
                     mining_interrupted := true }
    mining_interrupted := true }

/-! ## Known answers -/

/-- `empty_blob_oid_sha3` of `hash.c` (lines 16-25), commented there as the
"SHA3-256 hash of empty string". -/
def empty_blob_oid_sha3 : List Nat := [
  0xa7, 0xff, 0xc6, 0xf8, 0xbf, 0x1e, 0xd7, 0x66, 0x51, 0xc1,
  0x47, 0x56, 0xa0, 0x61, 0xd6, 0x62, 0xf5, 0x80, 0xff, 0x4d,
  0xe4, 0x3b, 0x49, 0xfa, 0x82, 0xd8, 0x0a, 0x4b, 0x80, 0xf8,
  0x43, 0x4a]

/-- The known answer of the spec (seed suite, scenario 1) for the empty
input, in hex. -/
def spec_oneshot_empty : List Char :=
  "a7ffc6f8bf1ed76651c14756a061d662f580ff4de43b49fa82d80a4b80f8434a".toList

/-- The known answer of the spec (seed suite, scenario 1) for the three bytes
`abc`, in hex. -/
def spec_oneshot_abc : List Char :=
  "3a985da74fe225b2045c172d6bd390bd855f086e3e9d525b46bfe24511431532".toList

/-! ## Collaborators: configuration store and current branch -/

/-- Modelled from the spec: the configuration collaborator of section 6,
`config.get_int(key) -> int | missing` and
`config.set(key, value-or-remove) -> ok | error`; `config.c` is not among the
sources. `get_int key` is the integer the store holds under `key`, and
`set_status key value` the result code of an attempt to set `key` to `value`
(`none` removes the key): 0 for ok, another value for an error. -/
structure Config where
  get_int : List Char → Option Int
  set_status : List Char → Option (List Char) → Int

/-- What `printf`-style `%d` prints for an `int`. -/
def fmt_int (n : Int) : List Char :=
  if n < 0 then '-' :: fmt_dec (-n).toNat else fmt_dec n.toNat

/-- The value of one decimal digit character. -/
def digit_value (c : Char) : Option Nat :=
  if '0'.toNat ≤ c.toNat ∧ c.toNat ≤ '9'.toNat then some (c.toNat - '0'.toNat) else none

/-- The natural number a non-empty string of decimal digits denotes. -/
def parse_digits : List Char → Option Nat
  | [] => none
  | s => s.foldl (fun acc c => acc.bind fun n => (digit_value c).map fun d => 10 * n + d)
      (some 0)

/-- Modelled from the spec: the integer a configuration value denotes to
`config.get_int`, for values written in decimal with an optional minus sign. -/
def parse_int : List Char → Option Int
  | '-' :: s => (parse_digits s).map fun n => -(n : Int)
  | s => (parse_digits s).map fun n => (n : Int)

/-- `git_config_get_int(key, &dest)`: the return value (0 when the key is
found) and `dest` after the call, which is left alone when the key is missing. -/
def git_config_get_int (cfg : Config) (key : List Char) (dest : Int) : Int × Int :=
  match cfg.get_int key with
  | some v => (0, v)
  | none => (1, dest)

/-- `git_config_set_gently(key, value)`: the result code and the store after
the call. An attempt that is not ok leaves the store as it was; one that is ok
makes `key` hold the integer `value` denotes and leaves every other key alone. -/
def git_config_set_gently (cfg : Config) (key : List Char) (value : Option (List Char)) :
    Int × Config :=
  if cfg.set_status key value = 0 then
    (0, { cfg with get_int := fun k => if k = key then value.bind parse_int else cfg.get_int k })
  else (cfg.set_status key value, cfg)

/-- `starts_with(str, prefix)` of `strbuf.c`. -/
def starts_with (str pfx : List Char) : Bool :=
  pfx.isPrefixOf str

/-! ## `pow-config.c`: the policy resolver -/

/-- `POW_DIFFICULTY_DEV` of `pow-config.c`. -/
def POW_DIFFICULTY_DEV : Int := 8

/-- `POW_DIFFICULTY_FEATURE` of `pow-config.c`. -/
def POW_DIFFICULTY_FEATURE : Int := 10

/-- `POW_DIFFICULTY_MAIN` of `pow-config.c`. -/
def POW_DIFFICULTY_MAIN : Int := 12

/-- `POW_DIFFICULTY_RELEASE` of `pow-config.c`. -/
def POW_DIFFICULTY_RELEASE : Int := 16

/-- `get_branch_pattern_difficulty` of `pow-config.c` (lines 17-91). -/
def get_branch_pattern_difficulty (cfg : Config) (branch : List Char) : Int :=
  let difficulty : Int := -1
  let key := "branch.".toList ++ branch ++ ".powdifficulty".toList
  let difficulty := (git_config_get_int cfg key difficulty).2
  if difficulty > 0 then difficulty
  else if starts_with branch "dev/".toList || starts_with branch "develop/".toList then
    let g := git_config_get_int cfg "pow.difficulty.dev".toList difficulty
    if g.1 = 0 ∧ g.2 > 0 then g.2 else POW_DIFFICULTY_DEV
  else if starts_with branch "feature/".toList || starts_with branch "feat/".toList then
    let g := git_config_get_int cfg "pow.difficulty.feature".toList difficulty
    if g.1 = 0 ∧ g.2 > 0 then g.2 else POW_DIFFICULTY_FEATURE
  else if starts_with branch "release/".toList || starts_with branch "v".toList then
    let g := git_config_get_int cfg "pow.difficulty.release".toList difficulty
    if g.1 = 0 ∧ g.2 > 0 then g.2 else POW_DIFFICULTY_RELEASE
  else if branch = "main".toList ∨ branch = "master".toList then
    let g := git_config_get_int cfg "pow.difficulty.main".toList difficulty
    if g.1 = 0 ∧ g.2 > 0 then g.2 else POW_DIFFICULTY_MAIN
  else
    let g := git_config_get_int cfg "pow.difficulty.default".toList difficulty
    if g.1 = 0 ∧ g.2 > 0 then g.2 else POW_DIFFICULTY_FEATURE

/-- `get_pow_difficulty_for_branch` of `pow-config.c` (lines 94-117). `head`
is what `refs_resolve_ref_unsafe` returns for `HEAD`: `none` for NULL, the name
of the ref HEAD points to otherwise (`HEAD` itself when detached). -/
def get_pow_difficulty_for_branch (cfg : Config) (head : Option (List Char)) : Int :=
  match head with
  | none => GIT3_MIN_DIFFICULTY
  | some head =>
    if ¬ starts_with head "refs/heads/".toList then GIT3_MIN_DIFFICULTY
    else
      let branch := head.drop "refs/heads/".length
      let difficulty := get_branch_pattern_difficulty cfg branch
      if difficulty < GIT3_MIN_DIFFICULTY then GIT3_MIN_DIFFICULTY else difficulty

/-- What a call that may write the configuration leaves behind: its return
value, the store after the call, and the calls of `git_config_set_gently` it
made, as (key, value) pairs in order. -/
structure config_result where
  ret : Int
  config : Config
  writes : List (List Char × Option (List Char))

/-- `set_pow_difficulty_config` of `pow-config.c` (lines 120-136). -/
def set_pow_difficulty_config (cfg : Config) (pattern : List Char) (difficulty : Int) :
    config_result :=
  if difficulty < 1 ∨ difficulty > 256 then
    { ret := -1, config := cfg, writes := [] }
  else
    let key := "pow.difficulty.".toList ++ pattern
    let value_str := fmt_int difficulty
    let r := git_config_set_gently cfg key (some value_str)
    { ret := r.1, config := r.2, writes := [(key, some value_str)] }

/-! ## `builtin/pow-config.c`: policy administration -/

/-- `set_branch_difficulty` of `builtin/pow-config.c` (lines 53-81). -/
def set_branch_difficulty (cfg : Config) (branch : List Char) (difficulty : Int) :
    config_result :=
  if difficulty < GIT3_MIN_DIFFICULTY then
    { ret := -1, config := cfg, writes := [] }
  else if difficulty > 32 then
    { ret := -1, config := cfg, writes := [] }
  else
    let key := "branch.".toList ++ branch ++ ".powdifficulty".toList
    let value := fmt_int difficulty
    let r := git_config_set_gently cfg key (some value)
    { ret := r.1, config := r.2, writes := [(key, some value)] }

/-- `unset_branch_difficulty` of `builtin/pow-config.c` (lines 83-99). -/
def unset_branch_difficulty (cfg : Config) (branch : List Char) : config_result :=
  let key := "branch.".toList ++ branch ++ ".powdifficulty".toList
  let r := git_config_set_gently cfg key none
  { ret := r.1, config := r.2, writes := [(key, none)] }

/-- The pattern names of the policy table (section 3). -/
inductive pow_pattern where
  | dev
  | feature
  | release
  | main
  | default
deriving DecidableEq, Repr

/-- The pattern a branch name falls under, first match in the order of
section 4.5: `dev/` or `develop/`, then `feature/` or `feat/`, then `release/`
or a leading `v`, then the exact names `main` and `master`, else the default. -/
def spec_pattern_of (name : List Char) : pow_pattern :=
  if "dev/".toList <+: name ∨ "develop/".toList <+: name then pow_pattern.dev
  else if "feature/".toList <+: name ∨ "feat/".toList <+: name then pow_pattern.feature
  else if "release/".toList <+: name ∨ "v".toList <+: name then pow_pattern.release
  else if name = "main".toList ∨ name = "master".toList then pow_pattern.main
  else pow_pattern.default

/-- The built-in value of a pattern (section 4.5): 8, 10, 16, 12, and 10 as the
hard fallback. -/
def spec_pattern_default : pow_pattern → Int
  | pow_pattern.dev => 8
  | pow_pattern.feature => 10
  | pow_pattern.release => 16
  | pow_pattern.main => 12
  | pow_pattern.default => 10

/-- The configuration key of a pattern (section 6). -/
def spec_pattern_key : pow_pattern → List Char
  | pow_pattern.dev => "pow.difficulty.dev".toList
  | pow_pattern.feature => "pow.difficulty.feature".toList
  | pow_pattern.release => "pow.difficulty.release".toList
  | pow_pattern.main => "pow.difficulty.main".toList
  | pow_pattern.default => "pow.difficulty.default".toList

/-- A configuration store that holds no key and accepts every write. -/
def empty_config : Config :=
  { get_int := fun _ => none, set_status := fun _ _ => 0 }

/-- A configuration store that holds no key and refuses every write with the
code -1 (the configuration file cannot be locked). -/
def locked_config : Config :=
  { get_int := fun _ => none, set_status := fun _ _ => -1 }

/-- A configuration store in which the release pattern is set to 18, the
main pattern to 30 and the default to 0; it accepts every write. -/
def example_config : Config :=
  { get_int := fun key =>
      if key = "pow.difficulty.release".toList then some 18
      else if key = "pow.difficulty.main".toList then some 30
      else if key = "pow.difficulty.default".toList then some 0
      else none
    set_status := fun _ _ => 0 }

/-! ## One pass of the loop of `sha3_256_avx2_update` -/

/-- The value of `to_copy` in a pass of the loop of `sha3_256_avx2_update`
(`sha3_avx2.c` lines 126-129). -/
def sha3_256_avx2_update_to_copy (ctx : sha3_256_avx2_ctx) (data : List Nat) : Nat :=
  if 136 - ctx.buffer_len > data.length then data.length else 136 - ctx.buffer_len

/-- The context after one pass of the loop of `sha3_256_avx2_update`
(`sha3_avx2.c` lines 126-145) over the pending `data`. -/
def sha3_256_avx2_update_pass (ctx : sha3_256_avx2_ctx) (data : List Nat) :
    sha3_256_avx2_ctx :=
  let to_copy := sha3_256_avx2_update_to_copy ctx data
  let buffer := store_bytes ctx.buffer ctx.buffer_len (data.take to_copy)
  let buffer_len := ctx.buffer_len + to_copy
  if buffer_len = 136 then
    { state := keccak_f_1600_avx2 (xor_buffer_into_state ctx.state buffer),
      buffer := buffer, buffer_len := 0 }
  else
    { ctx with buffer := buffer, buffer_len := buffer_len }

/-- A context between calls: the buffer has its 136 bytes and is not full. -/
def sha3_ctx_ok (ctx : sha3_256_avx2_ctx) : Prop :=
  ctx.buffer.length = 136 ∧ ctx.buffer_len < 136

/-! ## `pow.c`: `format_work`

`format_work` divides in `double` and prints with `%.1f`. A finite positive
`double` is held here as a fraction of naturals; conversion and division
round to the nearest `double` (53 significant bits, ties to even), and `%.1f`
prints the tenth nearest to the exact binary value (ties to even), as the C
library does in the default rounding mode. -/

/-- The integer nearest to `n / d`, ties to even. -/
def round_half_even (n d : Nat) : Nat :=
  let q := n / d
  let r := n % d
  if 2 * r < d then q
  else if d < 2 * r then q + 1
  else if q % 2 = 0 then q
  else q + 1

/-- The exponent `s` with `2 ^ s ≤ n < 2 ^ (s + 1)` for `0 < n < 2 ^ fuel`. -/
def binary_exponent : Nat → Nat → Nat
  | 0, _ => 0
  | fuel + 1, n => if n < 2 then 0 else binary_exponent fuel (n / 2) + 1

/-- The `double` nearest to `n / d` for `n ≥ d > 0` below `2 ^ 128`, as a
fraction (numerator, denominator): the quotient is scaled to 53 significant
bits and rounded, ties to even. -/
def to_double (n d : Nat) : Nat × Nat :=
  let s := binary_exponent 128 (n / d)
  if 52 ≤ s then
    (round_half_even n (d * 2 ^ (s - 52)) * 2 ^ (s - 52), 1)
  else
    (round_half_even (n * 2 ^ (52 - s)) d, 2 ^ (52 - s))

/-- What `%.1f` prints for a `double` given as a fraction: its value rounded to
tenths, ties to even, as integer part, point and one digit. -/
def fmt_f1 (x : Nat × Nat) : List Char :=
  let tenths := round_half_even (10 * x.1) x.2
  fmt_dec (tenths / 10) ++ ['.'] ++ fmt_dec (tenths % 10)

/-- The quotient `work / divisor` of `format_work`, for `work ≥ divisor`:
`work` is converted to `double`, then divided by the `double` constant, which
is a power of ten below `2 ^ 53` and so exact. -/
def format_work_quotient (work divisor : Nat) : Nat × Nat :=
  let x := to_double work 1
  to_double x.1 (x.2 * divisor)

/-- What `snprintf(buffer, size, ...)` leaves in `buffer`: the text cut to
`size - 1` characters. -/
def snprintf_result (size : Nat) (text : List Char) : List Char :=
  text.take (size - 1)

/-- `format_work` of `pow.c` (lines 68-81): the string left in `buffer`. -/
def format_work (work size : Nat) : List Char :=
  if work < 1000 then
    snprintf_result size (fmt_dec work)
  else if work < 1000000 then
    snprintf_result size (fmt_f1 (format_work_quotient work 1000) ++ ['K'])
  else if work < 1000000000 then
    snprintf_result size (fmt_f1 (format_work_quotient work 1000000) ++ ['M'])
  else if work < 1000000000000 then
    snprintf_result size (fmt_f1 (format_work_quotient work 1000000000) ++ ['B'])
  else
    snprintf_result size (fmt_f1 (format_work_quotient work 1000000000000) ++ ['T'])

/-- The unit of the spec's human formatting for a work of at least 1000: the
power of ten it divides by and the suffix, by the thresholds `10^6`, `10^9`
and `10^12`. -/
def spec_work_unit (w : Nat) : Nat × Char :=
  if w < 10 ^ 6 then (3, 'K')
  else if w < 10 ^ 9 then (6, 'M')
  else if w < 10 ^ 12 then (9, 'B')
  else (12, 'T')

/-! ## Worked examples: templates with a newline in a header field -/

/-- The outcome of mining on the checksum repository at difficulty 24 a commit
whose author line is `a`, a newline, then `committer x`: the object stored
has two `committer` lines. -/
def example_split_commit_result : mine_result :=
  { ret := 0
    result_oid := checksum_hit
    pow_out := some { nonce := 3, difficulty := 24, work := 2 ^ 31, cumulative_work := 2 ^ 31 }
    written := [(object_type.OBJ_COMMIT,
      ("tree 30211ed485c912e5bc285bd0bd8959ddbfb5875cafb0ae28e0abfa1077b2b214\n" ++
       "author a\ncommitter x\ncommitter c\n\nhello\n\n" ++
       "PoW-Nonce: 3\nPoW-Difficulty: 24\nPoW-Parent-Work: 0").toList)] }

/-- The outcome of mining on the checksum repository at difficulty 24 a tag
whose name is `v1`, a newline, then `tagger x`: the object stored has two
`tagger` lines. -/
def example_split_tag_result : mine_result :=
  { ret := 0
    result_oid := checksum_hit
    pow_out := some { nonce := 0, difficulty := 24, work := 7, cumulative_work := 2 ^ 31 }
    written := [(object_type.OBJ_TAG,
      ("object 000f010101010101010101010101010101010101010101010101010101010101\n" ++
       "type commit\ntag v1\ntagger x\ntagger t\n\nmsg\n\nPoW-Nonce: 0").toList)] }

/-! ## Further definitions: the padding of `sha3_256_avx2_final`, the
achieved-bits scan of `mine_pow_commit`, and the signal state around
`mine_pow_commit_avx2` -/

/-- The indices the zero-padding loop of `sha3_256_avx2_final` stores a zero
at (`sha3_avx2.c` lines 158-160), in order, from the current `buffer_len`. -/
def sha3_zero_pad_writes : Nat → Nat → List Nat
  | 0, _ => []
  | fuel + 1, buffer_len =>
    if buffer_len < 135 then buffer_len :: sha3_zero_pad_writes fuel (buffer_len + 1)
    else []

/-- The stores to `ctx->buffer` made by `sha3_256_avx2_final` (`sha3_avx2.c`
lines 155-163), in order, as (index, value): the domain separator, the zeros,
the final padding bit. -/
def sha3_256_avx2_final_writes (ctx : sha3_256_avx2_ctx) : List (Nat × Nat) :=
  let buffer := ctx.buffer.set ctx.buffer_len 0x06
  let buffer_len := ctx.buffer_len + 1
  let padded := sha3_zero_pad 136 buffer buffer_len
  [(ctx.buffer_len, 0x06)] ++
    (sha3_zero_pad_writes 136 buffer_len).map (fun i => (i, 0)) ++ [(padded.2, 0x80)]

/-- The 136 bytes of `ctx->buffer` that `sha3_256_avx2_final` XORs into the
state (`sha3_avx2.c` lines 155-168): the buffer after the three padding steps.
A store at index 136 is outside these bytes. -/
def sha3_256_avx2_final_block (ctx : sha3_256_avx2_ctx) : List Nat :=
  let buffer := ctx.buffer.set ctx.buffer_len 0x06
  let buffer_len := ctx.buffer_len + 1
  let padded := sha3_zero_pad 136 buffer buffer_len
  padded.1.set padded.2 0x80

/-- The scan for `actual_bits` inside the mining loop of `mine_pow_commit`
(`pow.c` lines 203-221): the value of `actual_bits` when the loop ends. -/
def mine_pow_commit_actual_bits_loop : List Char → Nat → Nat
  | [], actual_bits => actual_bits
  | c :: rest, actual_bits =>
    if c = '0' then mine_pow_commit_actual_bits_loop rest ((actual_bits + 4) % 2 ^ 32)
    else if c = '1' then (actual_bits + 3) % 2 ^ 32
    else if '2' ≤ c ∧ c ≤ '3' then (actual_bits + 2) % 2 ^ 32
    else if '4' ≤ c ∧ c ≤ '7' then (actual_bits + 1) % 2 ^ 32
    else actual_bits

/-- The number `mine_pow_commit` prints as the achieved difficulty of `hex`
(`pow.c` lines 203-225), `actual_bits` starting from 0. -/
def mine_pow_commit_actual_bits (hex : List Char) : Nat :=
  mine_pow_commit_actual_bits_loop hex 0

/-- A string of 64 lowercase hexadecimal digits, the form `oid_to_hex` gives. -/
def IsLowerHex (h : List Char) : Prop :=
  h.length = 64 ∧ ∀ c ∈ h, c ∈ "0123456789abcdef".toList

instance (h : List Char) : Decidable (IsLowerHex h) := by
  unfold IsLowerHex; infer_instance

/-- `mine_pow_commit_avx2` together with the process-wide state it touches:
the disposition of SIGINT and the file-level flag `mining_interrupted` of
`pow_avx2.c` (line 42); `sighandler.handle_interrupt` stands here for the
`handle_interrupt` of `pow_avx2.c` (lines 45-49). On the fallback path (lines
138-142) neither is touched. Otherwise `sigaction(SIGINT, &sa, NULL)` (line
154) installs the handler and asks for no old disposition; the function has no
second call of `sigaction` and no assignment to the flag, which only the
handler writes. -/
def mine_pow_commit_avx2_signals (repo : Repo) (sha3_avx2_available : Bool) (wfuel fuel : Nat)
    (schedule : List sched_event) (signals : signal_state)
    (tree_oid : List Nat) (parent_oid : Option (List Nat))
    (author committer message : List Char) (type : commit_type) (difficulty : Nat)
    (result_oid : List Nat) (pow_out : Option pow_data) :
    Option (avx2_result × signal_state) :=
  match mine_pow_commit_avx2 repo sha3_avx2_available wfuel fuel schedule
      signals.mining_interrupted tree_oid parent_oid author committer message type difficulty
      result_oid pow_out with
  | none => none
  | some res =>
    if ¬ sha3_avx2_available then some (res, signals)
    else
      let s := (sigaction sighandler.handle_interrupt signals).1
      some (res, { s with mining_interrupted := res.mining_interrupted })

/-- A configuration store whose only key is `pow.difficulty.default`, set
to 50; it accepts every write. -/
def example_default_config : Config :=
  { get_int := fun key => if key = "pow.difficulty.default".toList then some 50 else none
    set_status := fun _ _ => 0 }

/-! ## Worked examples: least nonces, a 135-byte message, an interrupted AVX2 run -/

/-- The template `build_commit_for_mining` makes for a NORMAL commit `hello`
on the empty tree, without parent, at difficulty 24 and parent work 0. -/
def example_template : List Char × Nat :=
  build_commit_for_mining empty_tree_oid_sha3 none "a".toList "c".toList "hello".toList
    commit_type.COMMIT_TYPE_NORMAL 24 0

/-- A message of 135 bytes `a`: one byte short of the rate, so that a single
byte of the block is left for the padding. -/
def example_full_tail : List Nat := List.replicate 135 0x61

/-- A state whose lane 1 is 1 and whose other lanes are 0. -/
def example_lane_state : List Nat := [0, 1] ++ List.replicate 23 0

/-- The state `sha3_256_avx2` and SHA3-256 hand to the permutation for the
empty input: the all-zero state XORed with the padded empty block, `0x06` in
the first byte and `0x80` in byte 135. -/
def example_empty_state : List Nat :=
  [0x06] ++ List.replicate 15 0 ++ [0x8000000000000000] ++ List.replicate 8 0

/-! # Theorems -/

/-! ## The evaluation-order helpers are identities -/

theorem strict_nat_eq {α : Type} (x : Nat) (k : Nat → α) : strict_nat x k = k x := by
  cases x <;> rfl

theorem strict_lanes_eq {α : Type} (l : List Nat) :
    ∀ k : List Nat → α, strict_lanes l k = k l := by
  induction l with
  | nil => intro k; rfl
  | cons x xs ih =>
    intro k
    simp only [strict_lanes, strict_nat_eq, ih]

/-- The round loop is the plain iteration of `keccak_round` over the rounds. -/
theorem keccak_round_loop_eq_foldl (fuel : Nat) :
    ∀ (round : Nat) (state : List Nat),
      keccak_round_loop fuel round state =
        (List.range' round fuel).foldl keccak_round state := by
  induction fuel with
  | zero => intro round state; rfl
  | succ fuel ih =>
    intro round state
    simp only [keccak_round_loop, strict_lanes_eq, ih, List.range', List.foldl_cons]

theorem keccak_f_1600_avx2_eq_foldl (state : List Nat) :
    keccak_f_1600_avx2 state = (List.range 24).foldl keccak_round state := by
  unfold keccak_f_1600_avx2
  rw [keccak_round_loop_eq_foldl, List.range_eq_range']

/-! ## `floor_log2` is the floor of the binary logarithm -/

theorem floor_log2_spec (n : Nat) (hn : 0 < n) :
    2 ^ floor_log2 n ≤ n ∧ n < 2 ^ (floor_log2 n + 1) := by
  unfold floor_log2
  constructor
  · exact Nat.findGreatest_spec (P := fun k => 2 ^ k ≤ n) (Nat.zero_le n) (by simpa using hn)
  · by_contra hlt
    push_neg at hlt
    have hle : Nat.findGreatest (fun k => 2 ^ k ≤ n) n + 1 ≤ n := by
      have h2 : Nat.findGreatest (fun k => 2 ^ k ≤ n) n + 1 <
          2 ^ (Nat.findGreatest (fun k => 2 ^ k ≤ n) n + 1) := Nat.lt_two_pow _
      omega
    have := Nat.le_findGreatest (P := fun k => 2 ^ k ≤ n) hle hlt
    omega



/-! ## Leading zero bits: hex scan, byte scan and reference count -/

theorem hexchar_loop (n : Nat) (hn : n < 16) (rest : List Char) (zb : Nat)
    (hz : zb + 4 < 2 ^ 32) :
    check_pow_difficulty_loop (hexchar n :: rest) zb =
      if n = 0 then check_pow_difficulty_loop rest (zb + 4)
      else some (zb + (3 - floor_log2 n)) := by
  have e1 : (zb + 1) % 4294967296 = zb + 1 := by omega
  have e2 : (zb + 2) % 4294967296 = zb + 2 := by omega
  have e3 : (zb + 3) % 4294967296 = zb + 3 := by omega
  have e4 : (zb + 4) % 4294967296 = zb + 4 := by omega
  interval_cases n <;>
    simp [check_pow_difficulty_loop, hexchar, floor_log2, Nat.findGreatest, e1, e2, e3, e4]

set_option maxRecDepth 8000 in
/-- The count of leading zero bits of a byte, from its two nibbles. -/
theorem floor_log2_byte (b : Nat) (hb : b < 256) :
    (if b / 16 % 16 = 0 then (if b % 16 = 0 then 8 else 4 + (3 - floor_log2 (b % 16)))
      else 3 - floor_log2 (b / 16 % 16)) = if b = 0 then 8 else 7 - floor_log2 b := by
  interval_cases b <;> decide

theorem hex_byte_loop (b : Nat) (hb : b < 256) (rest : List Char) (zb : Nat)
    (hz : zb + 8 < 2 ^ 32) :
    check_pow_difficulty_loop (hex_byte b ++ rest) zb =
      if b = 0 then check_pow_difficulty_loop rest (zb + 8)
      else some (zb + (7 - floor_log2 b)) := by
  have hhi : b / 16 % 16 < 16 := Nat.mod_lt _ (by norm_num)
  have hlo : b % 16 < 16 := Nat.mod_lt _ (by norm_num)
  have key := floor_log2_byte b hb
  simp only [hex_byte, List.cons_append, List.nil_append]
  rw [hexchar_loop _ hhi _ _ (by omega)]
  by_cases h1 : b / 16 % 16 = 0
  · rw [if_pos h1, hexchar_loop _ hlo _ _ (by omega)]
    rw [if_pos h1] at key
    by_cases h2 : b % 16 = 0
    · have hb0 : b = 0 := by omega
      simp [hb0]
    · have hb0 : b ≠ 0 := by omega
      rw [if_neg h2] at key ⊢
      rw [if_neg hb0] at key ⊢
      congr 1; omega
  · have hb0 : b ≠ 0 := by omega
    rw [if_neg h1] at key ⊢
    rw [if_neg hb0] at key ⊢
    rw [key]


theorem leading_zero_bits_le (d : List Nat) : leading_zero_bits d ≤ 8 * d.length := by
  induction d with
  | nil => simp [leading_zero_bits]
  | cons b rest ih =>
    simp only [leading_zero_bits, List.length_cons]
    split <;> omega

theorem check_pow_difficulty_loop_hex (d : List Nat) :
    ∀ zb : Nat, (∀ b ∈ d, b < 256) → zb + 8 * d.length < 2 ^ 32 →
      check_pow_difficulty_loop (oid_to_hex d) zb = some (zb + leading_zero_bits d) := by
  induction d with
  | nil => intro zb _ _; simp [oid_to_hex, check_pow_difficulty_loop, leading_zero_bits]
  | cons b rest ih =>
    intro zb hb hz
    simp only [List.length_cons] at hz
    have hb256 : b < 256 := hb b (List.mem_cons_self _ _)
    have hrest : ∀ x ∈ rest, x < 256 := fun x hx => hb x (List.mem_cons_of_mem _ hx)
    simp only [oid_to_hex, leading_zero_bits]
    rw [hex_byte_loop b hb256 _ _ (by omega)]
    by_cases h0 : b = 0
    · rw [if_pos h0, if_pos h0, ih (zb + 8) hrest (by omega)]
      congr 1; omega
    · rw [if_neg h0, if_neg h0]

theorem check_pow_difficulty_hex (d : List Nat) (hd : IsDigest d) (k : Nat) :
    check_pow_difficulty (oid_to_hex d) k = decide (k ≤ leading_zero_bits d) := by
  have h := check_pow_difficulty_loop_hex d 0 hd.2 (by rw [hd.1]; norm_num)
  simp only [check_pow_difficulty, h, Nat.zero_add, ge_iff_le]

theorem check_difficulty_avx2_loop_iff (k : Nat) (d : List Nat) :
    ∀ zb : Nat, (∀ b ∈ d, b < 256) → zb + 8 * d.length < 2 ^ 32 →
      (k ≤ check_difficulty_avx2_loop k d zb ↔ k ≤ zb + leading_zero_bits d) := by
  induction d with
  | nil => intro zb _ _; simp [check_difficulty_avx2_loop, leading_zero_bits]
  | cons b rest ih =>
    intro zb hb hz
    simp only [List.length_cons] at hz
    have hrest : ∀ x ∈ rest, x < 256 := fun x hx => hb x (List.mem_cons_of_mem _ hx)
    simp only [check_difficulty_avx2_loop, leading_zero_bits]
    by_cases hlt : zb < k
    · rw [if_pos hlt]
      by_cases h0 : b = 0
      · rw [if_pos h0, if_pos h0]
        have e : (zb + 8) % 2 ^ 32 = zb + 8 := Nat.mod_eq_of_lt (by omega)
        rw [e, ih (zb + 8) hrest (by omega)]
        omega
      · rw [if_neg h0, if_neg h0]
        have e : (zb + (builtin_clz b - 24)) % 2 ^ 32 = zb + (7 - floor_log2 b) := by
          unfold builtin_clz
          rw [Nat.mod_eq_of_lt (by omega)]
          omega
        rw [e]
    · rw [if_neg hlt]
      omega

theorem check_difficulty_avx2_eq (d : List Nat) (hd : IsDigest d) (k : Nat) :
    check_difficulty_avx2 d k = decide (k ≤ leading_zero_bits d) := by
  have ht : d.take 32 = d := List.take_of_length_le (by rw [hd.1])
  have h := check_difficulty_avx2_loop_iff k d 0 hd.2 (by rw [hd.1]; norm_num)
  simp only [check_difficulty_avx2, ht, ge_iff_le, Nat.zero_add] at h ⊢
  exact decide_eq_decide.mpr h


theorem hexchar_work_loop (n : Nat) (hn : n < 16) (rest : List Char) (zb : Nat)
    (hz : zb + 4 < 2 ^ 32) :
    calculate_hash_work_loop (hexchar n :: rest) zb =
      if n = 0 then calculate_hash_work_loop rest (zb + 4)
      else zb + (3 - floor_log2 n) := by
  have e1 : (zb + 1) % 4294967296 = zb + 1 := by omega
  have e2 : (zb + 2) % 4294967296 = zb + 2 := by omega
  have e3 : (zb + 3) % 4294967296 = zb + 3 := by omega
  have e4 : (zb + 4) % 4294967296 = zb + 4 := by omega
  interval_cases n <;>
    simp [calculate_hash_work_loop, hexchar, floor_log2, Nat.findGreatest, e1, e2, e3, e4]


theorem hex_byte_work_loop (b : Nat) (hb : b < 256) (rest : List Char) (zb : Nat)
    (hz : zb + 8 < 2 ^ 32) :
    calculate_hash_work_loop (hex_byte b ++ rest) zb =
      if b = 0 then calculate_hash_work_loop rest (zb + 8)
      else zb + (7 - floor_log2 b) := by
  have hhi : b / 16 % 16 < 16 := Nat.mod_lt _ (by norm_num)
  have hlo : b % 16 < 16 := Nat.mod_lt _ (by norm_num)
  have key := floor_log2_byte b hb
  simp only [hex_byte, List.cons_append, List.nil_append]
  rw [hexchar_work_loop _ hhi _ _ (by omega)]
  by_cases h1 : b / 16 % 16 = 0
  · rw [if_pos h1, hexchar_work_loop _ hlo _ _ (by omega)]
    rw [if_pos h1] at key
    by_cases h2 : b % 16 = 0
    · have hb0 : b = 0 := by omega
      simp [hb0]
    · have hb0 : b ≠ 0 := by omega
      rw [if_neg h2] at key ⊢
      rw [if_neg hb0] at key ⊢
      omega
  · have hb0 : b ≠ 0 := by omega
    rw [if_neg h1] at key ⊢
    rw [if_neg hb0] at key ⊢
    rw [key]

theorem calculate_hash_work_loop_hex (d : List Nat) :
    ∀ zb : Nat, (∀ b ∈ d, b < 256) → zb + 8 * d.length < 2 ^ 32 →
      calculate_hash_work_loop (oid_to_hex d) zb = zb + leading_zero_bits d := by
  induction d with
  | nil => intro zb _ _; simp [oid_to_hex, calculate_hash_work_loop, leading_zero_bits]
  | cons b rest ih =>
    intro zb hb hz
    simp only [List.length_cons] at hz
    have hb256 : b < 256 := hb b (List.mem_cons_self _ _)
    have hrest : ∀ x ∈ rest, x < 256 := fun x hx => hb x (List.mem_cons_of_mem _ hx)
    simp only [oid_to_hex, leading_zero_bits]
    rw [hex_byte_work_loop b hb256 _ _ (by omega)]
    by_cases h0 : b = 0
    · rw [if_pos h0, if_pos h0, ih (zb + 8) hrest (by omega)]
      omega
    · rw [if_neg h0, if_neg h0]

theorem calculate_hash_work_hex (d : List Nat) (hd : IsDigest d)
    (hz : leading_zero_bits d < 64) :
    calculate_hash_work (oid_to_hex d) = 2 ^ leading_zero_bits d := by
  have h := calculate_hash_work_loop_hex d 0 hd.2 (by rw [hd.1]; norm_num)
  rw [Nat.zero_add] at h
  simp only [calculate_hash_work, h, shl64]
  split
  · next h0 => rw [h0]; rfl
  · rw [Nat.mod_eq_of_lt hz, Nat.one_shiftLeft]
    exact Nat.mod_eq_of_lt (Nat.pow_lt_pow_right (by norm_num) hz)


/-! ## Cumulative work along the first-parent chain -/

theorem shl64_lt (x s : Nat) : shl64 x s < 2 ^ 64 :=
  Nat.mod_lt _ (by norm_num)

theorem calculate_hash_work_lt (hash_hex : List Char) :
    calculate_hash_work hash_hex < 2 ^ 64 := by
  unfold calculate_hash_work
  simp only
  split
  · norm_num
  · exact shl64_lt _ _

theorem calculate_total_work_chain (repo : Repo) :
    ∀ (chain : List (List Nat)) (fuel : Nat), FirstParentChain repo chain →
      chain.length ≤ fuel →
      calculate_total_work repo fuel (chain.headD []) =
        some ((chain.map fun c => calculate_hash_work (oid_to_hex c)).sum % 2 ^ 64) := by
  intro chain
  induction chain with
  | nil => intro fuel h; exact absurd h (by simp [FirstParentChain])
  | cons c rest ih =>
    intro fuel h hf
    cases fuel with
    | zero => simp at hf
    | succ fuel =>
      cases rest with
      | nil =>
        obtain ⟨cm, hl, hp⟩ := h
        have hw := calculate_hash_work_lt (oid_to_hex c)
        simp only [List.headD_cons, calculate_total_work, hl, hp, List.map_cons, List.map_nil,
          List.sum_cons, List.sum_nil, Nat.add_zero]
        rw [Nat.mod_eq_of_lt hw]
      | cons c1 rest =>
        obtain ⟨⟨cm, hl, hp⟩, hrest⟩ := h
        have hlen : (c1 :: rest).length ≤ fuel := by
          simp only [List.length_cons] at hf ⊢; omega
        have hrec := ih fuel hrest hlen
        simp only [List.headD_cons] at hrec
        obtain ⟨ps, hps⟩ : ∃ ps, cm.parents = c1 :: ps := by
          cases hcp : cm.parents with
          | nil => rw [hcp] at hp; simp at hp
          | cons p ps =>
            rw [hcp] at hp
            simp only [List.head?_cons, Option.some.injEq] at hp
            exact ⟨ps, by rw [hp]⟩
        simp only [List.headD_cons, calculate_total_work, hl, hps, hrec]
        simp only [List.map_cons, List.sum_cons, Nat.add_mod_mod]

/-! ## The mining loops of `pow.c` -/

/-- What a successful run of the commit mining loop returns. -/
theorem mine_pow_commit_loop_success (repo : Repo) (header_buf message : List Char)
    (type : commit_type) (difficulty pcw : Nat) (pow_out : Option pow_data) :
    ∀ (fuel nonce : Nat) (res : mine_result), nonce < 2 ^ 64 →
      mine_pow_commit_loop repo header_buf message type difficulty pcw pow_out fuel nonce
        = some res →
      res.ret = 0 →
      ∃ n, n < 2 ^ 64 ∧
        res.result_oid = repo.hash_object_file object_type.OBJ_COMMIT
          (mine_pow_commit_buf header_buf message type difficulty pcw n) ∧
        res.written = [(object_type.OBJ_COMMIT,
          mine_pow_commit_buf header_buf message type difficulty pcw n)] ∧
        repo.store_accepts object_type.OBJ_COMMIT
          (mine_pow_commit_buf header_buf message type difficulty pcw n) = true ∧
        check_pow_difficulty (oid_to_hex res.result_oid) difficulty = true ∧
        res.pow_out = pow_out.map (fun _ =>
          { nonce := n, difficulty := difficulty,
            work := calculate_hash_work (oid_to_hex res.result_oid),
            cumulative_work :=
              (pcw + calculate_hash_work (oid_to_hex res.result_oid)) % 2 ^ 64 }) := by
  intro fuel
  induction fuel with
  | zero => intro nonce res _ h; simp [mine_pow_commit_loop] at h
  | succ fuel ih =>
    intro nonce res hn h hret
    simp only [mine_pow_commit_loop] at h
    by_cases hc : check_pow_difficulty (oid_to_hex (repo.hash_object_file
        object_type.OBJ_COMMIT
        (mine_pow_commit_buf header_buf message type difficulty pcw nonce))) difficulty = true
    · rw [if_pos hc] at h
      by_cases hw : repo.store_accepts object_type.OBJ_COMMIT
          (mine_pow_commit_buf header_buf message type difficulty pcw nonce) = true
      · simp only [write_object_file, hw, if_true, lt_self_iff_false, if_false,
          Option.some.injEq] at h
        subst h
        exact ⟨nonce, hn, rfl, rfl, hw, hc, rfl⟩
      · simp only [write_object_file, hw, if_false, Option.some.injEq] at h
        rw [if_pos (by decide)] at h
        simp only [Option.some.injEq] at h
        subst h
        simp at hret
    · rw [if_neg hc] at h
      exact ih _ res (Nat.mod_lt _ (by norm_num)) h hret

/-- What a run of the tag mining loop returns. -/
theorem mine_pow_tag_loop_result (repo : Repo) (object_oid : List Nat) (type tag : List Char)
    (tagger : Option (List Char)) (message : List Char) (tag_type : Option (List Char))
    (difficulty : Nat) (pow_out : Option pow_data) :
    ∀ (fuel nonce : Nat) (res : mine_result), nonce < 2 ^ 64 →
      mine_pow_tag_loop repo object_oid type tag tagger message tag_type difficulty pow_out
        fuel nonce = some res →
      res.ret = 0 ∧
      ∃ n, n < 2 ^ 64 ∧
        res.result_oid = repo.hash_object_file object_type.OBJ_TAG
          (mine_pow_tag_buf object_oid type tag tagger message tag_type n) ∧
        res.written = [(object_type.OBJ_TAG,
          mine_pow_tag_buf object_oid type tag tagger message tag_type n)] ∧
        check_pow_difficulty (oid_to_hex res.result_oid) difficulty = true ∧
        res.pow_out = pow_out.map (fun p =>
          { p with nonce := n, difficulty := difficulty,
                   cumulative_work := calculate_hash_work (oid_to_hex res.result_oid) }) := by
  intro fuel
  induction fuel with
  | zero => intro nonce res _ h; simp [mine_pow_tag_loop] at h
  | succ fuel ih =>
    intro nonce res hn h
    simp only [mine_pow_tag_loop] at h
    by_cases hc : check_pow_difficulty (oid_to_hex (repo.hash_object_file
        object_type.OBJ_TAG
        (mine_pow_tag_buf object_oid type tag tagger message tag_type nonce))) difficulty = true
    · rw [if_pos hc] at h
      simp only [write_object_file, Option.some.injEq] at h
      subst h
      exact ⟨rfl, nonce, hn, rfl, rfl, hc, rfl⟩
    · rw [if_neg hc] at h
      exact ih _ res (Nat.mod_lt _ (by norm_num)) h

/-! ## Serializations -/

theorem mine_pow_commit_buf_eq (tree_oid : List Nat) (parent_oid : Option (List Nat))
    (author committer message : List Char) (type : commit_type)
    (difficulty pcw nonce : Nat) :
    mine_pow_commit_buf (mine_pow_commit_header tree_oid parent_oid author committer)
        message type difficulty pcw nonce =
      commit_serialization (oid_to_hex tree_oid) (parent_oid.map oid_to_hex) author committer
        message type nonce difficulty pcw := by
  cases parent_oid <;> cases type <;>
    simp [mine_pow_commit_buf, mine_pow_commit_header, commit_serialization]

theorem mine_pow_tag_buf_eq (object_oid : List Nat) (type tag : List Char)
    (tagger : Option (List Char)) (message : List Char) (tag_type : Option (List Char))
    (nonce : Nat) :
    mine_pow_tag_buf object_oid type tag tagger message tag_type nonce =
      tag_serialization (oid_to_hex object_oid) type tag tagger message tag_type nonce := by
  cases tagger <;> cases tag_type <;>
    simp [mine_pow_tag_buf, tag_serialization]
  all_goals split <;> simp_all

/-! ## Decimal digits -/

theorem digitChar_ne_nul (d : Nat) (hd : d < 10) : Nat.digitChar d ≠ Char.ofNat 0 := by
  interval_cases d <;> decide

theorem toDigitsCore_ne_nul :
    ∀ (f n : Nat) (acc : List Char), (∀ c ∈ acc, c ≠ Char.ofNat 0) →
      ∀ c ∈ Nat.toDigitsCore 10 f n acc, c ≠ Char.ofNat 0 := by
  intro f
  induction f with
  | zero => intro n acc h; simpa [Nat.toDigitsCore] using h
  | succ f ih =>
    intro n acc h
    have hacc : ∀ c ∈ Nat.digitChar (n % 10) :: acc, c ≠ Char.ofNat 0 := by
      intro c hc
      rcases List.mem_cons.mp hc with rfl | hc
      · exact digitChar_ne_nul _ (Nat.mod_lt _ (by norm_num))
      · exact h c hc
    simp only [Nat.toDigitsCore]
    split
    · exact hacc
    · exact ih _ _ hacc

theorem fmt_dec_cstring (n : Nat) : IsCString (fmt_dec n) :=
  toDigitsCore_ne_nul _ _ [] (by simp)

theorem fmt_dec_length_u64 (n : Nat) (hn : n < 2 ^ 64) : (fmt_dec n).length ≤ 20 :=
  Nat.toDigitsCore_length 10 (by decide) (n + 1) n 20
    (lt_of_lt_of_le hn (by norm_num)) (by norm_num)

theorem fmt_dec_length_u32 (n : Nat) (hn : n < 2 ^ 32) : (fmt_dec n).length ≤ 10 :=
  Nat.toDigitsCore_length 10 (by decide) (n + 1) n 10
    (lt_of_lt_of_le hn (by norm_num)) (by norm_num)

/-! ## Hex strings hold no NUL -/

theorem hexchar_ne_nul (n : Nat) (hn : n < 16) : hexchar n ≠ Char.ofNat 0 := by
  interval_cases n <;> decide

theorem oid_to_hex_cstring (d : List Nat) : IsCString (oid_to_hex d) := by
  induction d with
  | nil => intro c hc; simp [oid_to_hex] at hc
  | cons b rest ih =>
    intro c hc
    simp only [oid_to_hex, hex_byte, List.cons_append, List.nil_append, List.mem_cons] at hc
    rcases hc with rfl | rfl | hc
    · exact hexchar_ne_nul _ (Nat.mod_lt _ (by norm_num))
    · exact hexchar_ne_nul _ (Nat.mod_lt _ (by norm_num))
    · exact ih c hc

theorem IsCString.append {s t : List Char} (hs : IsCString s) (ht : IsCString t) :
    IsCString (s ++ t) := by
  intro c hc
  rcases List.mem_append.mp hc with h | h
  · exact hs c h
  · exact ht c h

theorem commit_front_cstring (tree_oid : List Nat) (parent_oid : Option (List Nat))
    (author committer message : List Char) (type : commit_type)
    (ha : IsCString author) (hc : IsCString committer) (hm : IsCString message) :
    IsCString (commit_front tree_oid parent_oid author committer message type) := by
  unfold commit_front
  have hp : IsCString (match parent_oid with
      | some p => "parent ".toList ++ oid_to_hex p ++ "\n".toList
      | none => []) := by
    cases parent_oid with
    | none => intro c h; simp at h
    | some p =>
      exact ((show IsCString "parent ".toList by decide).append (oid_to_hex_cstring p)).append
        (by decide)
  have ht : IsCString (match type with
      | commit_type.COMMIT_TYPE_NORMAL => []
      | commit_type.COMMIT_TYPE_FREEZE => "[FREEZE] ".toList
      | commit_type.COMMIT_TYPE_CLEAN => "[CLEAN] ".toList) := by
    cases type <;> decide
  have h1 : IsCString "tree ".toList := by decide
  have h2 : IsCString "\n".toList := by decide
  have h3 : IsCString "author ".toList := by decide
  have h4 : IsCString "committer ".toList := by decide
  have h5 : IsCString "\n\nPoW-Nonce: ".toList := by decide
  exact (((((((((((h1.append (oid_to_hex_cstring tree_oid)).append h2).append hp).append
    h3).append ha).append h2).append h4).append hc).append h2).append h2).append ht).append
    hm |>.append h5

/-! ## The three serializations, by front, nonce and back -/

theorem mine_pow_commit_buf_split (tree_oid : List Nat) (parent_oid : Option (List Nat))
    (author committer message : List Char) (type : commit_type)
    (difficulty pcw nonce : Nat) :
    mine_pow_commit_buf (mine_pow_commit_header tree_oid parent_oid author committer)
        message type difficulty pcw nonce =
      commit_front tree_oid parent_oid author committer message type ++ fmt_dec nonce ++
        commit_back difficulty pcw := by
  cases parent_oid <;> cases type <;>
    simp [mine_pow_commit_buf, mine_pow_commit_header, commit_front, commit_back]

theorem build_commit_for_mining_split (tree_oid : List Nat) (parent_oid : Option (List Nat))
    (author committer message : List Char) (type : commit_type)
    (difficulty pcw : Nat) :
    build_commit_for_mining tree_oid parent_oid author committer message type difficulty pcw =
      (commit_front tree_oid parent_oid author committer message type ++
          "00000000000000000000".toList ++ commit_back difficulty pcw,
        (commit_front tree_oid parent_oid author committer message type).length) := by
  cases parent_oid <;> cases type <;>
    simp [build_commit_for_mining, commit_front, commit_back]

theorem mine_pow_commit_avx2_base_split (tree_oid : List Nat) (parent_oid : Option (List Nat))
    (author committer message : List Char) (type : commit_type)
    (difficulty pcw : Nat) :
    mine_pow_commit_avx2_base tree_oid parent_oid author committer message type difficulty
        pcw =
      (commit_front tree_oid parent_oid author committer message type ++
          "NONCE_PLACEHOLDER".toList ++ commit_back difficulty pcw,
        (commit_front tree_oid parent_oid author committer message type).length) := by
  cases parent_oid <;> cases type <;>
    simp [mine_pow_commit_avx2_base, commit_front, commit_back]

/-! ## The in-place nonce update of `mine_pow_commit_optimized` -/

theorem set_getD_at_length (A T : List Char) (x y : Char) :
    (A ++ x :: T).getD A.length y = x ∧
    (A ++ x :: T).set A.length y = A ++ y :: T := by
  induction A with
  | nil => simp
  | cons a A ih =>
    simp only [List.cons_append, List.length_cons, List.getD_cons_succ, List.set_cons_succ]
    exact ⟨ih.1, by rw [ih.2]⟩

theorem takeWhile_append_stop (p : Char → Bool) (A T : List Char) (x : Char)
    (hA : ∀ a ∈ A, p a = true) (hx : p x = false) :
    List.takeWhile p (A ++ x :: T) = A := by
  induction A with
  | nil => simp [List.takeWhile_cons, hx]
  | cons a A ih =>
    have ha : p a = true := hA a (List.mem_cons_self _ _)
    have hA2 : ∀ b ∈ A, p b = true := fun c hc => hA c (List.mem_cons_of_mem _ hc)
    simp [List.takeWhile_cons, ha, ih hA2]

theorem c_string_of_append_nul (A T : List Char) (hA : IsCString A) :
    c_string_of (A ++ Char.ofNat 0 :: T) = A := by
  unfold c_string_of
  apply takeWhile_append_stop
  · intro a ha
    simpa using hA a ha
  · simp

theorem commit_back_length (difficulty pcw : Nat) (hd : difficulty < 2 ^ 32)
    (hp : pcw < 2 ^ 64) : (commit_back difficulty pcw).length ≤ 255 := by
  have h1 := fmt_dec_length_u32 difficulty hd
  have h2 := fmt_dec_length_u64 pcw hp
  have e1 : "\nPoW-Difficulty: ".toList.length = 17 := by decide
  have e2 : "\nPoW-Parent-Work: ".toList.length = 18 := by decide
  simp only [commit_back, List.length_append, e1, e2]
  omega

theorem commit_back_cons (difficulty pcw : Nat) :
    ∃ T, commit_back difficulty pcw = '\n' :: T := by
  refine ⟨"PoW-Difficulty: ".toList ++ fmt_dec difficulty ++
    "\nPoW-Parent-Work: ".toList ++ fmt_dec pcw, ?_⟩
  simp [commit_back]

/-- One pass on a buffer of the shape front, 20 reserved characters, back. -/
theorem mine_pow_commit_optimized_pass_eq (F X : List Char) (difficulty pcw n : Nat)
    (hF : IsCString F) (hX : X.length = 20) (hn : n < 2 ^ 64) (hd : difficulty < 2 ^ 32)
    (hp : pcw < 2 ^ 64) :
    mine_pow_commit_optimized_pass (F ++ X ++ commit_back difficulty pcw) F.length difficulty
        pcw n =
      (F ++ fmt_dec n ++ commit_back difficulty pcw,
        F ++ (fmt_dec n ++ X.drop (fmt_dec n).length) ++ commit_back difficulty pcw) := by
  have hlen := fmt_dec_length_u64 n hn
  have hD : IsCString (fmt_dec n) := fmt_dec_cstring n
  obtain ⟨T, hT⟩ := commit_back_cons difficulty pcw
  have htake : (fmt_dec n).take 20 = fmt_dec n := List.take_of_length_le hlen
  have htemp : ("\nPoW-Difficulty: ".toList ++ fmt_dec difficulty ++
      "\nPoW-Parent-Work: ".toList ++ fmt_dec pcw).take 255 = commit_back difficulty pcw :=
    List.take_of_length_le (commit_back_length difficulty pcw hd hp)
  have hmem : memcpy_at (F ++ X ++ commit_back difficulty pcw) F.length (fmt_dec n)
      (fmt_dec n).length =
      (F ++ fmt_dec n) ++ (X.drop (fmt_dec n).length ++ commit_back difficulty pcw) := by
    unfold memcpy_at
    have h1 : (F ++ X ++ commit_back difficulty pcw).take F.length = F := by
      rw [List.append_assoc, List.take_left']
      rfl
    have h2 : (fmt_dec n).take (fmt_dec n).length = fmt_dec n := List.take_length _
    have h3 : (F ++ X ++ commit_back difficulty pcw).drop (F.length + (fmt_dec n).length) =
        X.drop (fmt_dec n).length ++ commit_back difficulty pcw := by
      rw [List.append_assoc, ← List.drop_drop, List.drop_left']
      · rw [List.drop_append_of_le_length (by omega)]
      · rfl
    rw [h1, h2, h3]
  obtain ⟨x, T2, hxT⟩ : ∃ x T2, X.drop (fmt_dec n).length ++ commit_back difficulty pcw
      = x :: T2 := by
    rw [hT]
    cases hX2 : X.drop (fmt_dec n).length with
    | nil => exact ⟨_, _, rfl⟩
    | cons a t => exact ⟨_, _, rfl⟩
  have hlenA : F.length + (fmt_dec n).length = (F ++ fmt_dec n).length := by simp
  unfold mine_pow_commit_optimized_pass
  simp only [htake, htemp, hmem, hxT, hlenA, List.nil_append]
  have hs := set_getD_at_length (F ++ fmt_dec n) T2 x (Char.ofNat 0)
  rw [hs.1, hs.2]
  rw [c_string_of_append_nul _ _ (hF.append hD)]
  rw [(set_getD_at_length (F ++ fmt_dec n) T2 (Char.ofNat 0) x).2]
  rw [← hxT]
  simp

theorem mine_pow_commit_optimized_buf_at_shape (F : List Char) (difficulty pcw : Nat)
    (hF : IsCString F) (hd : difficulty < 2 ^ 32) (hp : pcw < 2 ^ 64) :
    ∀ n, n ≤ 2 ^ 64 →
      ∃ X, X.length = 20 ∧
        mine_pow_commit_optimized_buf_at
          (F ++ "00000000000000000000".toList ++ commit_back difficulty pcw) F.length
          difficulty pcw n = F ++ X ++ commit_back difficulty pcw := by
  intro n
  induction n with
  | zero => intro _; exact ⟨"00000000000000000000".toList, by decide, rfl⟩
  | succ n ih =>
    intro hn
    obtain ⟨X, hX, hbuf⟩ := ih (by omega)
    have hlen := fmt_dec_length_u64 n (by omega)
    refine ⟨fmt_dec n ++ X.drop (fmt_dec n).length, ?_, ?_⟩
    · simp only [List.length_append, List.length_drop]; omega
    · simp only [mine_pow_commit_optimized_buf_at]
      rw [hbuf, mine_pow_commit_optimized_pass_eq F X difficulty pcw n hF hX (by omega) hd hp]

theorem mine_pow_commit_optimized_hashed_eq (tree_oid : List Nat)
    (parent_oid : Option (List Nat)) (author committer message : List Char)
    (type : commit_type) (difficulty pcw n : Nat)
    (ha : IsCString author) (hc : IsCString committer) (hm : IsCString message)
    (hn : n < 2 ^ 64) (hd : difficulty < 2 ^ 32) (hp : pcw < 2 ^ 64) :
    mine_pow_commit_optimized_hashed tree_oid parent_oid author committer message type
        difficulty pcw n =
      commit_front tree_oid parent_oid author committer message type ++ fmt_dec n ++
        commit_back difficulty pcw := by
  have hF := commit_front_cstring tree_oid parent_oid author committer message type ha hc hm
  obtain ⟨X, hX, hbuf⟩ := mine_pow_commit_optimized_buf_at_shape _ difficulty pcw hF hd hp n
    (by omega)
  unfold mine_pow_commit_optimized_hashed
  simp only [build_commit_for_mining_split]
  rw [hbuf, mine_pow_commit_optimized_pass_eq _ X difficulty pcw n hF hX hn hd hp]

/-! ## The commits of the AVX2 miner -/

theorem placeholder_splice (F B D : List Char) :
    F ++ D ++
      ((F ++ "NONCE_PLACEHOLDER".toList ++ B).drop
        (F.length + "NONCE_PLACEHOLDER".length)).take
        ((F ++ "NONCE_PLACEHOLDER".toList ++ B).length - F.length -
          "NONCE_PLACEHOLDER".length) = F ++ D ++ B ∧
    (F ++ "NONCE_PLACEHOLDER".toList ++ B).take F.length = F := by
  have e : "NONCE_PLACEHOLDER".length = 17 := by decide
  have e2 : "NONCE_PLACEHOLDER".toList.length = 17 := by decide
  constructor
  · have h3 : (F ++ "NONCE_PLACEHOLDER".toList ++ B).drop (F.length + 17) = B := by
      rw [← List.drop_drop, List.append_assoc, List.drop_left']
      · rw [List.drop_left']
        exact e2
      · rfl
    rw [e, h3]
    rw [List.take_of_length_le]
    simp only [List.length_append, e2]
    omega
  · rw [List.append_assoc, List.take_left']
    rfl

theorem mining_worker_avx2_buf_eq (F B : List Char) (data : mining_thread_data) (n : Nat)
    (hn : n < 2 ^ 64)
    (hb : data.base_data = F ++ "NONCE_PLACEHOLDER".toList ++ B)
    (hl : data.base_len = (F ++ "NONCE_PLACEHOLDER".toList ++ B).length)
    (ho : data.nonce_offset = F.length) :
    mining_worker_avx2_buf data n = F ++ fmt_dec n ++ B := by
  have hlen := fmt_dec_length_u64 n hn
  have htake : (fmt_dec n).take 31 = fmt_dec n := List.take_of_length_le (by omega)
  unfold mining_worker_avx2_buf
  simp only [hb, hl, ho, htake, List.nil_append]
  rw [(placeholder_splice F B (fmt_dec n)).2]
  exact (placeholder_splice F B (fmt_dec n)).1

theorem mine_pow_commit_avx2_final_buf_eq (F B : List Char) (n : Nat) :
    mine_pow_commit_avx2_final_buf (F ++ "NONCE_PLACEHOLDER".toList ++ B) F.length n =
      F ++ fmt_dec n ++ B := by
  unfold mine_pow_commit_avx2_final_buf
  simp only [List.nil_append]
  rw [(placeholder_splice F B (fmt_dec n)).2]
  exact (placeholder_splice F B (fmt_dec n)).1

theorem mine_pow_commit_avx2_thread_data_mem (base_buf : List Char)
    (nonce_offset difficulty : Nat) (data : mining_thread_data)
    (h : data ∈ mine_pow_commit_avx2_thread_data base_buf nonce_offset difficulty) :
    data.base_data = base_buf ∧ data.base_len = base_buf.length ∧
    data.nonce_offset = nonce_offset ∧ data.difficulty = difficulty := by
  unfold mine_pow_commit_avx2_thread_data at h
  simp only [List.mem_map] at h
  obtain ⟨i, _, rfl⟩ := h
  exact ⟨rfl, rfl, rfl, rfl⟩

/-! ## The threads of the AVX2 miner -/

theorem getD_set_some (l : List (Option Nat)) (i j : Nat) (v : Option Nat) (x : Nat)
    (h : (l.set i v).getD j none = some x) :
    v = some x ∨ l.getD j none = some x := by
  by_cases hij : i = j
  · subst hij
    by_cases hlt : i < l.length
    · left
      simpa [List.getD_eq_getElem?_getD, List.getElem?_set_self, hlt] using h
    · right
      rw [List.set_eq_of_length_le (by omega)] at h
      exact h
  · right
    simpa [List.getD_eq_getElem?_getD, List.getElem?_set_ne hij] using h

theorem mining_threads_step_inv (repo : Repo) (avail : Bool)
    (thread_data : List mining_thread_data) (st : mining_threads) (ev : sched_event)
    (h : mining_threads_inv repo avail thread_data st) :
    mining_threads_inv repo avail thread_data
      (mining_threads_step repo avail thread_data st ev) := by
  cases ev with
  | sigint => exact h
  | run i =>
    simp only [mining_threads_step]
    cases hd : thread_data.get? i with
    | none => exact h
    | some data =>
      cases hn : st.nonces.getD i none with
      | none => exact h
      | some nonce =>
        have hmem : data ∈ thread_data := List.get?_mem hd
        have hnonce : nonce < 2 ^ 64 := h.1 i nonce hn
        simp only [mining_worker_avx2_pass]
        by_cases hcond : nonce < data.end_nonce ∧ ¬ st.shared.found = true ∧
            ¬ st.shared.mining_interrupted = true
        · rw [if_pos hcond]
          by_cases hchk : check_difficulty_avx2
              (mining_worker_avx2_hash repo avail (mining_worker_avx2_buf data nonce))
              data.difficulty = true
          · rw [if_pos hchk, if_pos hcond.2.1]
            refine ⟨?_, ?_⟩
            · intro j x hx
              rcases getD_set_some _ _ _ _ _ hx with h1 | h1
              · exact absurd h1 (by simp)
              · exact h.1 j x h1
            · intro _
              exact ⟨hnonce, data, hmem, rfl, hchk⟩
          · rw [if_neg hchk]
            refine ⟨?_, h.2⟩
            intro j x hx
            rcases getD_set_some _ _ _ _ _ hx with h1 | h1
            · simp only [Option.some.injEq] at h1
              rw [← h1]
              exact Nat.mod_lt _ (by norm_num)
            · exact h.1 j x h1
        · rw [if_neg hcond]
          refine ⟨?_, h.2⟩
          intro j x hx
          rcases getD_set_some _ _ _ _ _ hx with h1 | h1
          · exact absurd h1 (by simp)
          · exact h.1 j x h1

theorem mining_threads_run_inv (repo : Repo) (avail : Bool)
    (thread_data : List mining_thread_data) (schedule : List sched_event) :
    ∀ st : mining_threads, mining_threads_inv repo avail thread_data st →
      mining_threads_inv repo avail thread_data
        (mining_threads_run repo avail thread_data st schedule) := by
  induction schedule with
  | nil => intro st h; exact h
  | cons ev rest ih =>
    intro st h
    exact ih _ (mining_threads_step_inv repo avail thread_data st ev h)

/-- What a successful run of `mine_pow_commit_avx2` on the AVX2 path returns:
the identifier in `*result_oid` is the repository's hash of the final commit,
the single object written, while the digest that was tested against the
difficulty is `sha3_256_avx2` of the bytes of that commit. -/
theorem mine_pow_commit_avx2_success (repo : Repo) (wfuel fuel : Nat)
    (schedule : List sched_event) (interrupted : Bool) (tree_oid : List Nat)
    (parent_oid : Option (List Nat)) (author committer message : List Char)
    (type : commit_type) (difficulty : Nat) (result_oid : List Nat)
    (pow_out : Option pow_data) (res : avx2_result)
    (hrun : mine_pow_commit_avx2 repo true wfuel fuel schedule interrupted tree_oid parent_oid
      author committer message type difficulty result_oid pow_out = some res)
    (hret : res.result.ret = 0) :
    ∃ sh pw, res.joined = some sh ∧ sh.found = true ∧ sh.mining_interrupted = false ∧
      sh.result_nonce < 2 ^ 64 ∧
      (match parent_oid with
        | some p => calculate_total_work repo wfuel p
        | none => some 0) = some pw ∧
      res.result.written = [(object_type.OBJ_COMMIT,
        commit_front tree_oid parent_oid author committer message type ++
          fmt_dec sh.result_nonce ++ commit_back difficulty pw)] ∧
      res.result.result_oid = repo.hash_object_file object_type.OBJ_COMMIT
        (commit_front tree_oid parent_oid author committer message type ++
          fmt_dec sh.result_nonce ++ commit_back difficulty pw) ∧
      sh.result_hash = sha3_256_avx2 (bytes_of
        (commit_front tree_oid parent_oid author committer message type ++
          fmt_dec sh.result_nonce ++ commit_back difficulty pw)) ∧
      check_difficulty_avx2 sh.result_hash difficulty = true ∧
      res.result.pow_out = pow_out.map (fun _ =>
        { nonce := sh.result_nonce, difficulty := difficulty,
          work := calculate_hash_work (oid_to_hex (sh.result_hash.take 32)),
          cumulative_work :=
            (pw + calculate_hash_work (oid_to_hex (sh.result_hash.take 32))) % 2 ^ 64 }) := by
  unfold mine_pow_commit_avx2 at hrun
  simp only [not_true_eq_false, if_false] at hrun
  cases hpw : (match parent_oid with
      | some p => calculate_total_work repo wfuel p
      | none => some 0) with
  | none => rw [hpw] at hrun; simp at hrun
  | some pw =>
    rw [hpw] at hrun
    simp only [mine_pow_commit_avx2_base_split] at hrun
    split at hrun
    · next hall =>
      simp only [Option.some.injEq] at hrun
      subst hrun
      have hinv := mining_threads_run_inv repo true
        (mine_pow_commit_avx2_thread_data
          (commit_front tree_oid parent_oid author committer message type ++
            "NONCE_PLACEHOLDER".toList ++ commit_back difficulty pw)
          (commit_front tree_oid parent_oid author committer message type).length difficulty)
        schedule
        { shared := { found := false, result_nonce := 0, result_hash := List.replicate 32 0,
                      mining_interrupted := interrupted },
          nonces := (mine_pow_commit_avx2_thread_data
            (commit_front tree_oid parent_oid author committer message type ++
              "NONCE_PLACEHOLDER".toList ++ commit_back difficulty pw)
            (commit_front tree_oid parent_oid author committer message type).length
            difficulty).map fun d => some d.start_nonce }
        (by
          refine ⟨?_, by simp⟩
          intro i nonce hi
          simp only [mine_pow_commit_avx2_thread_data, List.map_map,
            List.getD_eq_getElem?_getD, List.getElem?_map] at hi
          cases hr : (List.range 4)[i]? with
          | none => rw [hr] at hi; simp at hi
          | some k =>
            rw [hr] at hi
            simp only [Option.map_some', Option.getD_some, Function.comp_apply,
              Option.some.injEq] at hi
            rw [← hi]
            exact Nat.mod_lt _ (by norm_num))
      generalize hst : mining_threads_run repo true _ _ schedule = st at hinv hret ⊢
      simp only [mine_pow_commit_avx2_finish] at hret ⊢
      by_cases hf : st.shared.found = true ∧ ¬ st.shared.mining_interrupted = true
      · rw [if_pos hf] at hret ⊢
        obtain ⟨hlt, data, hdata, hhash, hchk⟩ := hinv.2 hf.1
        obtain ⟨h1, h2, h3, h4⟩ := mine_pow_commit_avx2_thread_data_mem _ _ _ data hdata
        have hbuf := mining_worker_avx2_buf_eq
          (commit_front tree_oid parent_oid author committer message type)
          (commit_back difficulty pw) data st.shared.result_nonce hlt h1 h2 h3
        rw [hbuf] at hhash
        simp only [mining_worker_avx2_hash, if_true] at hhash
        rw [h4] at hchk
        rw [mine_pow_commit_avx2_final_buf_eq] at hret ⊢
        by_cases hw : repo.store_accepts object_type.OBJ_COMMIT
            (commit_front tree_oid parent_oid author committer message type ++
              fmt_dec st.shared.result_nonce ++ commit_back difficulty pw) = true
        · simp only [write_object_file, hw, if_true, lt_self_iff_false, if_false]
          exact ⟨st.shared, pw, rfl, hf.1, by simpa using hf.2, hlt, rfl, rfl, rfl, hhash,
            hchk, rfl⟩
        · simp only [write_object_file, hw] at hret
          simp at hret
      · rw [if_neg hf] at hret
        simp at hret
    · simp at hrun

/-! ## The cumulative-work walk: range and missing commits -/

theorem calculate_total_work_lt (repo : Repo) :
    ∀ (fuel : Nat) (oid : List Nat) (w : Nat),
      calculate_total_work repo fuel oid = some w → w < 2 ^ 64 := by
  intro fuel
  induction fuel with
  | zero => intro oid w h; simp [calculate_total_work] at h
  | succ fuel ih =>
    intro oid w h
    simp only [calculate_total_work] at h
    cases hl : repo.lookup_commit oid with
    | none => rw [hl] at h; simp only [Option.some.injEq] at h; omega
    | some cm =>
      rw [hl] at h
      simp only at h
      cases hp : cm.parents with
      | nil =>
        rw [hp] at h
        simp only [Option.some.injEq] at h
        rw [← h]
        exact calculate_hash_work_lt _
      | cons p ps =>
        rw [hp] at h
        simp only at h
        cases hr : calculate_total_work repo fuel p with
        | none => rw [hr] at h; simp at h
        | some pw =>
          rw [hr] at h
          simp only [Option.some.injEq] at h
          rw [← h]
          exact Nat.mod_lt _ (by norm_num)

theorem parent_work_lt (repo : Repo) (wfuel : Nat) (parent_oid : Option (List Nat)) (pw : Nat)
    (h : (match parent_oid with
      | some p => calculate_total_work repo wfuel p
      | none => some 0) = some pw) : pw < 2 ^ 64 := by
  cases parent_oid with
  | none => simp only [Option.some.injEq] at h; omega
  | some p => exact calculate_total_work_lt repo wfuel p pw h

theorem calculate_total_work_broken_chain (repo : Repo) :
    ∀ (chain : List (List Nat)) (fuel : Nat), BrokenFirstParentChain repo chain →
      chain.length ≤ fuel →
      calculate_total_work repo fuel (chain.headD []) =
        some ((chain.dropLast.map fun c => calculate_hash_work (oid_to_hex c)).sum % 2 ^ 64) := by
  intro chain
  induction chain with
  | nil => intro fuel h; exact absurd h (by simp [BrokenFirstParentChain])
  | cons c rest ih =>
    intro fuel h hf
    cases fuel with
    | zero => simp at hf
    | succ fuel =>
      cases rest with
      | nil =>
        simp only [BrokenFirstParentChain] at h
        simp [calculate_total_work, h]
      | cons c1 rest =>
        obtain ⟨⟨cm, hl, hp⟩, hrest⟩ := h
        have hlen : (c1 :: rest).length ≤ fuel := by
          simp only [List.length_cons] at hf ⊢; omega
        have hrec := ih fuel hrest hlen
        simp only [List.headD_cons] at hrec
        obtain ⟨ps, hps⟩ : ∃ ps, cm.parents = c1 :: ps := by
          cases hcp : cm.parents with
          | nil => rw [hcp] at hp; simp at hp
          | cons p ps =>
            rw [hcp] at hp
            simp only [List.head?_cons, Option.some.injEq] at hp
            exact ⟨ps, by rw [hp]⟩
        simp only [List.headD_cons, calculate_total_work, hl, hps, hrec]
        simp only [List.dropLast_cons₂, List.map_cons, List.sum_cons, Nat.add_mod_mod]

/-! ## The loop of `mine_pow_commit_optimized` -/

theorem deliver_sigint_sigint (s : signal_state) : (deliver_sigint s).sigint = s.sigint := by
  unfold deliver_sigint
  split <;> rfl

theorem commit_tree_extended_written (repo : Repo) (msg : List Char) (tree : List Nat)
    (parents : List (List Nat)) (author committer : List Char) :
    (commit_tree_extended repo msg tree parents author committer).2.2.length = 1 := by
  simp [commit_tree_extended]

theorem mine_pow_commit_optimized_loop_spec (repo : Repo) (lookup_commit_node : List Nat → Bool)
    (sigint : Nat → Bool) (tree_oid : List Nat) (parent_oid : Option (List Nat))
    (author committer message : List Char) (type : commit_type) (difficulty pcw : Nat)
    (pow_out : Option pow_data) (F : List Char) (hF : IsCString F)
    (hd : difficulty < 2 ^ 32) (hp : pcw < 2 ^ 64) :
    ∀ (fuel pass nonce : Nat) (X : List Char) (s : signal_state) (result_oid : List Nat)
      (out : mine_result × optimized_exit × signal_state),
      X.length = 20 → nonce < 2 ^ 64 →
      mine_pow_commit_optimized_loop repo lookup_commit_node sigint tree_oid parent_oid author
        committer message type difficulty pcw F.length pow_out fuel pass nonce
        (F ++ X ++ commit_back difficulty pcw) s result_oid = some out →
      out.2.2.sigint = s.sigint ∧
      (out.2.1 = optimized_exit.cancelled →
        out.1.ret = -1 ∧ out.1.written = [] ∧ out.1.pow_out = pow_out ∧
        out.2.2.mining_interrupted = true) ∧
      (out.2.1 ≠ optimized_exit.cancelled →
        out.1.written.length = 1 ∧
        ∃ n, n < 2 ^ 64 ∧
          check_pow_difficulty (oid_to_hex (repo.hash_object_file object_type.OBJ_COMMIT
            (F ++ fmt_dec n ++ commit_back difficulty pcw))) difficulty = true ∧
          (out.2.1 = optimized_exit.store_failed → out.1.ret = -1 ∧ out.1.pow_out = pow_out) ∧
          (out.2.1 = optimized_exit.found →
            out.1.ret = 0 ∧
            out.1.pow_out = pow_out.map (fun _ =>
              { nonce := n, difficulty := difficulty,
                work := calculate_hash_work (oid_to_hex
                  (repo.hash_object_file object_type.OBJ_COMMIT
                    (F ++ fmt_dec n ++ commit_back difficulty pcw))),
                cumulative_work := (pcw + calculate_hash_work (oid_to_hex
                  (repo.hash_object_file object_type.OBJ_COMMIT
                    (F ++ fmt_dec n ++ commit_back difficulty pcw)))) % 2 ^ 64 }))) := by
  intro fuel
  induction fuel with
  | zero => intro pass nonce X s result_oid out _ _ h; simp [mine_pow_commit_optimized_loop] at h
  | succ fuel ih =>
    intro pass nonce X s result_oid out hX hn h
    simp only [mine_pow_commit_optimized_loop] at h
    have hsig : (if sigint pass = true then deliver_sigint s else s).sigint = s.sigint := by
      split
      · exact deliver_sigint_sigint s
      · rfl
    generalize (if sigint pass = true then deliver_sigint s else s) = s1 at h hsig
    by_cases hi : s1.mining_interrupted = true
    · rw [if_pos hi] at h
      simp only [Option.some.injEq] at h
      subst h
      exact ⟨hsig, fun _ => ⟨rfl, rfl, rfl, hi⟩, fun hne => absurd rfl hne⟩
    · rw [if_neg hi] at h
      rw [mine_pow_commit_optimized_pass_eq F X difficulty pcw nonce hF hX hn hd hp] at h
      simp only at h
      by_cases hc : check_pow_difficulty (oid_to_hex
          (repo.hash_object_file object_type.OBJ_COMMIT
            (F ++ fmt_dec nonce ++ commit_back difficulty pcw))) difficulty = true
      · rw [if_pos hc] at h
        split at h
        · simp only [Option.some.injEq] at h
          subst h
          refine ⟨hsig, fun hx => by simp at hx, fun _ =>
            ⟨by simp [commit_tree_extended], nonce, hn, hc,
              fun _ => ⟨rfl, rfl⟩, fun hx => by simp at hx⟩⟩
        · simp only [Option.some.injEq] at h
          subst h
          refine ⟨hsig, fun hx => by simp at hx, fun _ =>
            ⟨by simp [commit_tree_extended], nonce, hn, hc,
              fun hx => by simp at hx, fun _ => ⟨rfl, rfl⟩⟩⟩
      · rw [if_neg hc] at h
        have hX2 : (fmt_dec nonce ++ X.drop (fmt_dec nonce).length).length = 20 := by
          have := fmt_dec_length_u64 nonce hn
          simp only [List.length_append, List.length_drop]
          omega
        obtain ⟨h1, h2, h3⟩ := ih (pass + 1) ((nonce + 1) % 2 ^ 64) _ s1 _ out hX2
          (Nat.mod_lt _ (by norm_num)) h
        exact ⟨h1.trans hsig, h2, h3⟩

theorem mine_pow_commit_optimized_spec (repo : Repo) (lookup_commit_node : List Nat → Bool)
    (sigint : Nat → Bool) (wfuel fuel : Nat) (signals : signal_state)
    (tree_oid : List Nat) (parent_oid : Option (List Nat))
    (author committer message : List Char) (type : commit_type) (difficulty : Nat)
    (result_oid : List Nat) (pow_out : Option pow_data) (res : optimized_result)
    (ha : IsCString author) (hc : IsCString committer) (hm : IsCString message)
    (hd : difficulty < 2 ^ 32)
    (hrun : mine_pow_commit_optimized repo lookup_commit_node sigint wfuel fuel signals tree_oid
      parent_oid author committer message type difficulty result_oid pow_out = some res) :
    res.signals.sigint = signals.sigint ∧
    ∃ pw, (match parent_oid with
        | some p => calculate_total_work repo wfuel p
        | none => some 0) = some pw ∧
      (res.exit_path = optimized_exit.cancelled →
        res.result.ret = -1 ∧ res.result.written = [] ∧ res.result.pow_out = pow_out) ∧
      (res.exit_path ≠ optimized_exit.cancelled →
        res.result.written.length = 1 ∧
        ∃ n, n < 2 ^ 64 ∧
          check_pow_difficulty (oid_to_hex (repo.hash_object_file object_type.OBJ_COMMIT
            (commit_front tree_oid parent_oid author committer message type ++ fmt_dec n ++
              commit_back difficulty pw))) difficulty = true ∧
          (res.exit_path = optimized_exit.store_failed →
            res.result.ret = -1 ∧ res.result.pow_out = pow_out) ∧
          (res.exit_path = optimized_exit.found →
            res.result.ret = 0 ∧
            res.result.pow_out = pow_out.map (fun _ =>
              { nonce := n, difficulty := difficulty,
                work := calculate_hash_work (oid_to_hex
                  (repo.hash_object_file object_type.OBJ_COMMIT
                    (commit_front tree_oid parent_oid author committer message type ++
                      fmt_dec n ++ commit_back difficulty pw))),
                cumulative_work := (pw + calculate_hash_work (oid_to_hex
                  (repo.hash_object_file object_type.OBJ_COMMIT
                    (commit_front tree_oid parent_oid author committer message type ++
                      fmt_dec n ++ commit_back difficulty pw)))) % 2 ^ 64 }))) := by
  unfold mine_pow_commit_optimized at hrun
  simp only at hrun
  split at hrun
  · simp at hrun
  · next pw hpw0 =>
    simp only [build_commit_for_mining_split] at hrun
    have hpw_lt := parent_work_lt repo wfuel parent_oid pw (by cases parent_oid <;> exact hpw0)
    have hF := commit_front_cstring tree_oid parent_oid author committer message type ha hc hm
    split at hrun
    · simp at hrun
    · next r e s hloop =>
      simp only [Option.some.injEq] at hrun
      subst hrun
      obtain ⟨h1, h2, h3⟩ := mine_pow_commit_optimized_loop_spec repo lookup_commit_node sigint
        tree_oid parent_oid author committer message type difficulty pw pow_out _ hF hd hpw_lt
        fuel 0 0 "00000000000000000000".toList _ result_oid (r, e, s) (by decide)
        (by norm_num) hloop
      refine ⟨?_, pw, ?_, ?_, h3⟩
      · simp [sigaction]
      · cases parent_oid <;> exact hpw0
      · intro hx
        obtain ⟨a, b, c, _⟩ := h2 hx
        exact ⟨a, b, c⟩

/-! ## What the miners hand to the store -/

theorem mine_pow_commit_loop_written (repo : Repo) (header_buf message : List Char)
    (type : commit_type) (difficulty pcw : Nat) (pow_out : Option pow_data) :
    ∀ (fuel nonce : Nat) (res : mine_result), nonce < 2 ^ 64 →
      mine_pow_commit_loop repo header_buf message type difficulty pcw pow_out fuel nonce
        = some res →
      ∃ n, n < 2 ^ 64 ∧
        res.written = [(object_type.OBJ_COMMIT,
          mine_pow_commit_buf header_buf message type difficulty pcw n)] ∧
        check_pow_difficulty (oid_to_hex (repo.hash_object_file object_type.OBJ_COMMIT
          (mine_pow_commit_buf header_buf message type difficulty pcw n))) difficulty = true := by
  intro fuel
  induction fuel with
  | zero => intro nonce res _ h; simp [mine_pow_commit_loop] at h
  | succ fuel ih =>
    intro nonce res hn h
    simp only [mine_pow_commit_loop] at h
    by_cases hc : check_pow_difficulty (oid_to_hex
        (repo.hash_object_file object_type.OBJ_COMMIT
          (mine_pow_commit_buf header_buf message type difficulty pcw nonce))) difficulty = true
    · rw [if_pos hc] at h
      split at h <;>
        (simp only [Option.some.injEq] at h; subst h; exact ⟨nonce, hn, rfl, hc⟩)
    · rw [if_neg hc] at h
      exact ih _ res (Nat.mod_lt _ (by norm_num)) h

theorem mine_pow_commit_avx2_joined (repo : Repo) (wfuel fuel : Nat)
    (schedule : List sched_event) (interrupted : Bool) (tree_oid : List Nat)
    (parent_oid : Option (List Nat)) (author committer message : List Char)
    (type : commit_type) (difficulty : Nat) (result_oid : List Nat)
    (pow_out : Option pow_data) (res : avx2_result)
    (hrun : mine_pow_commit_avx2 repo true wfuel fuel schedule interrupted tree_oid parent_oid
      author committer message type difficulty result_oid pow_out = some res) :
    ∃ sh pw, res.joined = some sh ∧ res.mining_interrupted = sh.mining_interrupted ∧
      (match parent_oid with
        | some p => calculate_total_work repo wfuel p
        | none => some 0) = some pw ∧
      (¬ (sh.found = true ∧ sh.mining_interrupted = false) →
        res.result.written = [] ∧ res.result.ret = -1 ∧ res.result.pow_out = pow_out) ∧
      (sh.found = true ∧ sh.mining_interrupted = false →
        sh.result_nonce < 2 ^ 64 ∧
        res.result.written = [(object_type.OBJ_COMMIT,
          commit_front tree_oid parent_oid author committer message type ++
            fmt_dec sh.result_nonce ++ commit_back difficulty pw)] ∧
        sh.result_hash = sha3_256_avx2 (bytes_of
          (commit_front tree_oid parent_oid author committer message type ++
            fmt_dec sh.result_nonce ++ commit_back difficulty pw)) ∧
        check_difficulty_avx2 sh.result_hash difficulty = true ∧
        (res.result.ret = 0 →
          res.result.pow_out = pow_out.map (fun _ =>
            { nonce := sh.result_nonce, difficulty := difficulty,
              work := calculate_hash_work (oid_to_hex (sh.result_hash.take 32)),
              cumulative_work :=
                (pw + calculate_hash_work (oid_to_hex (sh.result_hash.take 32))) % 2 ^ 64 }))) := by
  unfold mine_pow_commit_avx2 at hrun
  simp only [not_true_eq_false, if_false] at hrun
  split at hrun
  · simp at hrun
  · next pw hpw0 =>
    simp only [mine_pow_commit_avx2_base_split] at hrun
    split at hrun
    · next hall =>
      simp only [Option.some.injEq] at hrun
      subst hrun
      have hinv := mining_threads_run_inv repo true
        (mine_pow_commit_avx2_thread_data
          (commit_front tree_oid parent_oid author committer message type ++
            "NONCE_PLACEHOLDER".toList ++ commit_back difficulty pw)
          (commit_front tree_oid parent_oid author committer message type).length difficulty)
        schedule
        { shared := { found := false, result_nonce := 0, result_hash := List.replicate 32 0,
                      mining_interrupted := interrupted },
          nonces := (mine_pow_commit_avx2_thread_data
            (commit_front tree_oid parent_oid author committer message type ++
              "NONCE_PLACEHOLDER".toList ++ commit_back difficulty pw)
            (commit_front tree_oid parent_oid author committer message type).length
            difficulty).map fun d => some d.start_nonce }
        (by
          refine ⟨?_, by simp⟩
          intro i nonce hi
          simp only [mine_pow_commit_avx2_thread_data, List.map_map,
            List.getD_eq_getElem?_getD, List.getElem?_map] at hi
          cases hr : (List.range 4)[i]? with
          | none => rw [hr] at hi; simp at hi
          | some k =>
            rw [hr] at hi
            simp only [Option.map_some', Option.getD_some, Function.comp_apply,
              Option.some.injEq] at hi
            rw [← hi]
            exact Nat.mod_lt _ (by norm_num))
      generalize hst : mining_threads_run repo true _ _ schedule = st at hinv ⊢
      refine ⟨st.shared, pw, rfl, rfl, by cases parent_oid <;> exact hpw0, ?_, ?_⟩
      · intro hf
        have hf2 : ¬ (st.shared.found = true ∧ ¬ st.shared.mining_interrupted = true) := by
          simpa using hf
        simp only [mine_pow_commit_avx2_finish]
        rw [if_neg hf2]
        exact ⟨rfl, rfl, rfl⟩
      · intro hf
        have hf2 : st.shared.found = true ∧ ¬ st.shared.mining_interrupted = true := by
          simpa using hf
        obtain ⟨hlt, data, hdata, hhash, hchk⟩ := hinv.2 hf.1
        obtain ⟨h1, h2, h3, h4⟩ := mine_pow_commit_avx2_thread_data_mem _ _ _ data hdata
        have hbuf := mining_worker_avx2_buf_eq
          (commit_front tree_oid parent_oid author committer message type)
          (commit_back difficulty pw) data st.shared.result_nonce hlt h1 h2 h3
        rw [hbuf] at hhash
        simp only [mining_worker_avx2_hash, if_true] at hhash
        rw [h4] at hchk
        simp only [mine_pow_commit_avx2_finish]
        rw [if_pos hf2, mine_pow_commit_avx2_final_buf_eq]
        refine ⟨hlt, ?_, hhash, hchk, ?_⟩
        · split <;> rfl
        · intro hret
          by_cases hw : (write_object_file repo object_type.OBJ_COMMIT
              (commit_front tree_oid parent_oid author committer message type ++
                fmt_dec st.shared.result_nonce ++ commit_back difficulty pw)).1 < 0
          · rw [if_pos hw] at hret
            simp at hret
          · rw [if_neg hw]
    · simp at hrun

/-! ## Exit paths of `mine_pow_commit_optimized` -/

theorem mine_pow_commit_optimized_loop_exit (repo : Repo) (lookup_commit_node : List Nat → Bool)
    (sigint : Nat → Bool) (tree_oid : List Nat) (parent_oid : Option (List Nat))
    (author committer message : List Char) (type : commit_type)
    (difficulty pcw nonce_offset : Nat) (pow_out : Option pow_data) :
    ∀ (fuel pass nonce : Nat) (commit_buf : List Char) (s : signal_state)
      (result_oid : List Nat) (out : mine_result × optimized_exit × signal_state),
      mine_pow_commit_optimized_loop repo lookup_commit_node sigint tree_oid parent_oid author
        committer message type difficulty pcw nonce_offset pow_out fuel pass nonce commit_buf s
        result_oid = some out →
      out.2.2.sigint = s.sigint ∧
      (out.2.1 = optimized_exit.cancelled → out.1.ret = -1 ∧ out.1.written = []) ∧
      (out.2.1 = optimized_exit.store_failed → out.1.ret = -1 ∧ out.1.written.length = 1) ∧
      (out.2.1 = optimized_exit.found → out.1.ret = 0 ∧ out.1.written.length = 1) := by
  intro fuel
  induction fuel with
  | zero =>
    intro pass nonce commit_buf s result_oid out h
    simp [mine_pow_commit_optimized_loop] at h
  | succ fuel ih =>
    intro pass nonce commit_buf s result_oid out h
    simp only [mine_pow_commit_optimized_loop] at h
    have hsig : (if sigint pass = true then deliver_sigint s else s).sigint = s.sigint := by
      split
      · exact deliver_sigint_sigint s
      · rfl
    generalize (if sigint pass = true then deliver_sigint s else s) = s1 at h hsig
    split at h
    · simp only [Option.some.injEq] at h
      subst h
      exact ⟨hsig, fun _ => ⟨rfl, rfl⟩, fun hx => by simp at hx, fun hx => by simp at hx⟩
    · split at h
      · split at h
        · simp only [Option.some.injEq] at h
          subst h
          exact ⟨hsig, fun hx => by simp at hx,
            fun _ => ⟨rfl, by simp [commit_tree_extended]⟩, fun hx => by simp at hx⟩
        · simp only [Option.some.injEq] at h
          subst h
          exact ⟨hsig, fun hx => by simp at hx, fun hx => by simp at hx,
            fun _ => ⟨rfl, by simp [commit_tree_extended]⟩⟩
      · obtain ⟨h1, h2⟩ := ih _ _ _ s1 _ out h
        exact ⟨h1.trans hsig, h2⟩

theorem mine_pow_commit_optimized_exit (repo : Repo) (lookup_commit_node : List Nat → Bool)
    (sigint : Nat → Bool) (wfuel fuel : Nat) (signals : signal_state)
    (tree_oid : List Nat) (parent_oid : Option (List Nat))
    (author committer message : List Char) (type : commit_type) (difficulty : Nat)
    (result_oid : List Nat) (pow_out : Option pow_data) (res : optimized_result)
    (hrun : mine_pow_commit_optimized repo lookup_commit_node sigint wfuel fuel signals tree_oid
      parent_oid author committer message type difficulty result_oid pow_out = some res) :
    res.signals.sigint = signals.sigint ∧
    (res.exit_path = optimized_exit.cancelled →
      res.result.ret = -1 ∧ res.result.written = []) ∧
    (res.exit_path = optimized_exit.store_failed →
      res.result.ret = -1 ∧ res.result.written.length = 1) ∧
    (res.exit_path = optimized_exit.found →
      res.result.ret = 0 ∧ res.result.written.length = 1) := by
  unfold mine_pow_commit_optimized at hrun
  simp only at hrun
  split at hrun
  · simp at hrun
  · split at hrun
    · simp at hrun
    · next r e s hloop =>
      simp only [Option.some.injEq] at hrun
      subst hrun
      obtain ⟨h1, h2⟩ := mine_pow_commit_optimized_loop_exit _ _ _ _ _ _ _ _ _ _ _ _ _
        _ _ _ _ _ _ (r, e, s) hloop
      exact ⟨by simp [sigaction], h2⟩

/-! ## The policy resolver and the configuration store -/

theorem git_config_get_int_eq (cfg : Config) (key : List Char) (dest : Int) :
    git_config_get_int cfg key dest =
      match cfg.get_int key with
      | some v => (0, v)
      | none => (1, dest) := rfl

theorem pattern_lookup_eq (cfg : Config) (key : List Char) (dest fallback : Int) :
    (if (git_config_get_int cfg key dest).1 = 0 ∧ (git_config_get_int cfg key dest).2 > 0
      then (git_config_get_int cfg key dest).2 else fallback) =
    (match cfg.get_int key with
      | some v => if 0 < v then v else fallback
      | none => fallback) := by
  unfold git_config_get_int
  cases h : cfg.get_int key with
  | none => simp
  | some v => simp

theorem get_branch_pattern_difficulty_table (cfg : Config) (branch : List Char)
    (hb : ∀ v, cfg.get_int ("branch.".toList ++ branch ++ ".powdifficulty".toList) = some v →
      v ≤ 0) :
    get_branch_pattern_difficulty cfg branch =
      match cfg.get_int (spec_pattern_key (spec_pattern_of branch)) with
      | some v => if 0 < v then v else spec_pattern_default (spec_pattern_of branch)
      | none => spec_pattern_default (spec_pattern_of branch) := by
  have h1 : ¬ (git_config_get_int cfg ("branch.".toList ++ branch ++ ".powdifficulty".toList)
      (-1)).2 > 0 := by
    unfold git_config_get_int
    cases h : cfg.get_int ("branch.".toList ++ branch ++ ".powdifficulty".toList) with
    | none => simp
    | some v => have := hb v h; simp; omega
  unfold get_branch_pattern_difficulty
  simp only [h1, if_false, pattern_lookup_eq]
  unfold spec_pattern_of starts_with
  simp only [Bool.or_eq_true, List.isPrefixOf_iff_prefix]
  split_ifs <;> rfl

theorem get_branch_pattern_difficulty_override (cfg : Config) (branch : List Char) (v : Int)
    (h : cfg.get_int ("branch.".toList ++ branch ++ ".powdifficulty".toList) = some v)
    (hv : 0 < v) : get_branch_pattern_difficulty cfg branch = v := by
  have hg : (git_config_get_int cfg ("branch.".toList ++ branch ++ ".powdifficulty".toList)
      (-1)).2 = v := by
    unfold git_config_get_int
    rw [h]
  unfold get_branch_pattern_difficulty
  simp only [hg, gt_iff_lt, hv, if_true]

theorem get_pow_difficulty_for_branch_on_branch (cfg : Config) (branch : List Char) :
    get_pow_difficulty_for_branch cfg (some ("refs/heads/".toList ++ branch)) =
      max (get_branch_pattern_difficulty cfg branch) 20 := by
  have hs : starts_with ("refs/heads/".toList ++ branch) "refs/heads/".toList = true := by
    simp [starts_with]
  have hd : ("refs/heads/".toList ++ branch).drop "refs/heads/".length = branch := by
    have hl : "refs/heads/".length = "refs/heads/".toList.length := by decide
    rw [hl, List.drop_left]
  unfold get_pow_difficulty_for_branch
  simp only [hs, not_true_eq_false, if_false, hd, GIT3_MIN_DIFFICULTY]
  split <;> omega

theorem parse_int_fmt_int_small (k : Int) (h1 : 1 ≤ k) (h2 : k ≤ 256) :
    parse_int (fmt_int k) = some k := by
  obtain ⟨n, rfl⟩ : ∃ n : Nat, k = (n : Int) := ⟨k.toNat, by omega⟩
  have hn1 : 1 ≤ n := by omega
  have hn2 : n ≤ 256 := by omega
  interval_cases n <;> decide

/-! ## Incremental hashing with `sha3_256_avx2_update` -/

theorem sha3_256_avx2_update_loop_nil (fuel : Nat) (ctx : sha3_256_avx2_ctx) :
    sha3_256_avx2_update_loop fuel ctx [] = ctx := by
  cases fuel <;> simp [sha3_256_avx2_update_loop]

theorem sha3_256_avx2_update_loop_succ (fuel : Nat) (ctx : sha3_256_avx2_ctx)
    (data : List Nat) (hd : data ≠ []) :
    sha3_256_avx2_update_loop (fuel + 1) ctx data =
      sha3_256_avx2_update_loop fuel (sha3_256_avx2_update_pass ctx data)
        (data.drop (sha3_256_avx2_update_to_copy ctx data)) := by
  have hl : data.length > 0 := List.length_pos.mpr hd
  simp only [sha3_256_avx2_update_loop, hl, if_true, sha3_256_avx2_update_pass,
    sha3_256_avx2_update_to_copy]
  split <;> split <;> rfl

theorem store_bytes_length (buffer data : List Nat) (off : Nat)
    (h : off + data.length ≤ buffer.length) :
    (store_bytes buffer off data).length = buffer.length := by
  simp only [store_bytes, List.length_append, List.length_take, List.length_drop]
  omega

theorem store_bytes_append (buffer x y : List Nat) (off : Nat)
    (h : off + x.length ≤ buffer.length) :
    store_bytes (store_bytes buffer off x) (off + x.length) y =
      store_bytes buffer off (x ++ y) := by
  have hlen : (buffer.take off ++ x).length = off + x.length := by
    simp only [List.length_append, List.length_take]
    omega
  have e1 : (buffer.take off ++ x ++ buffer.drop (off + x.length)).take (off + x.length) =
      buffer.take off ++ x := by
    rw [← hlen, List.take_left]
  have e2 : (buffer.take off ++ x ++ buffer.drop (off + x.length)).drop
      (off + x.length + y.length) = buffer.drop (off + (x ++ y).length) := by
    have : off + x.length + y.length = (buffer.take off ++ x).length + y.length := by
      rw [hlen]
    rw [this, List.drop_append, List.drop_drop, List.length_append]
    congr 1
    omega
  simp only [store_bytes]
  rw [e1, e2]
  simp only [List.append_assoc]

theorem sha3_256_avx2_update_to_copy_bounds (ctx : sha3_256_avx2_ctx) (data : List Nat)
    (hok : sha3_ctx_ok ctx) (hd : data ≠ []) :
    1 ≤ sha3_256_avx2_update_to_copy ctx data ∧
    sha3_256_avx2_update_to_copy ctx data ≤ data.length ∧
    ctx.buffer_len + sha3_256_avx2_update_to_copy ctx data ≤ 136 := by
  have hl : data.length > 0 := List.length_pos.mpr hd
  obtain ⟨_, h2⟩ := hok
  unfold sha3_256_avx2_update_to_copy
  split <;> omega

theorem sha3_256_avx2_update_pass_ok (ctx : sha3_256_avx2_ctx) (data : List Nat)
    (hok : sha3_ctx_ok ctx) : sha3_ctx_ok (sha3_256_avx2_update_pass ctx data) := by
  obtain ⟨h1, h2⟩ := hok
  have ht : ctx.buffer_len + sha3_256_avx2_update_to_copy ctx data ≤ 136 := by
    unfold sha3_256_avx2_update_to_copy
    split <;> omega
  have hlen : (store_bytes ctx.buffer ctx.buffer_len
      (data.take (sha3_256_avx2_update_to_copy ctx data))).length = 136 := by
    rw [store_bytes_length, h1]
    rw [List.length_take, h1]
    omega
  unfold sha3_256_avx2_update_pass
  simp only
  split
  · exact ⟨hlen, by norm_num⟩
  · next hne => exact ⟨hlen, by simp only; omega⟩

theorem sha3_256_avx2_update_pass_long (ctx : sha3_256_avx2_ctx) (a b : List Nat)
    (ha : 136 - ctx.buffer_len ≤ a.length) :
    sha3_256_avx2_update_to_copy ctx (a ++ b) = sha3_256_avx2_update_to_copy ctx a ∧
    sha3_256_avx2_update_pass ctx (a ++ b) = sha3_256_avx2_update_pass ctx a ∧
    (a ++ b).drop (sha3_256_avx2_update_to_copy ctx (a ++ b)) =
      a.drop (sha3_256_avx2_update_to_copy ctx a) ++ b := by
  have ht1 : sha3_256_avx2_update_to_copy ctx (a ++ b) = 136 - ctx.buffer_len := by
    unfold sha3_256_avx2_update_to_copy
    rw [List.length_append]
    split <;> omega
  have ht2 : sha3_256_avx2_update_to_copy ctx a = 136 - ctx.buffer_len := by
    unfold sha3_256_avx2_update_to_copy
    split <;> omega
  refine ⟨by rw [ht1, ht2], ?_, ?_⟩
  · unfold sha3_256_avx2_update_pass
    simp only [ht1, ht2]
    rw [List.take_append_of_le_length ha]
  · rw [ht1, ht2, List.drop_append_of_le_length ha]

theorem sha3_256_avx2_update_pass_short (ctx : sha3_256_avx2_ctx) (a b : List Nat)
    (hok : sha3_ctx_ok ctx) (ha : a.length < 136 - ctx.buffer_len) :
    sha3_256_avx2_update_to_copy ctx a = a.length ∧
    sha3_256_avx2_update_pass ctx a =
      { ctx with buffer := store_bytes ctx.buffer ctx.buffer_len a,
                 buffer_len := ctx.buffer_len + a.length } ∧
    sha3_256_avx2_update_pass ctx (a ++ b) =
      sha3_256_avx2_update_pass
        { ctx with buffer := store_bytes ctx.buffer ctx.buffer_len a,
                   buffer_len := ctx.buffer_len + a.length } b ∧
    (a ++ b).drop (sha3_256_avx2_update_to_copy ctx (a ++ b)) =
      b.drop (sha3_256_avx2_update_to_copy
        { ctx with buffer := store_bytes ctx.buffer ctx.buffer_len a,
                   buffer_len := ctx.buffer_len + a.length } b) := by
  obtain ⟨h1, h2⟩ := hok
  have ht : sha3_256_avx2_update_to_copy ctx a = a.length := by
    unfold sha3_256_avx2_update_to_copy
    split <;> omega
  have htt : sha3_256_avx2_update_to_copy ctx (a ++ b) = a.length +
      sha3_256_avx2_update_to_copy
        { ctx with buffer := store_bytes ctx.buffer ctx.buffer_len a,
                   buffer_len := ctx.buffer_len + a.length } b := by
    unfold sha3_256_avx2_update_to_copy
    simp only [List.length_append]
    split <;> split <;> omega
  refine ⟨ht, ?_, ?_, ?_⟩
  · unfold sha3_256_avx2_update_pass
    simp only [ht, List.take_length]
    rw [if_neg (by omega)]
  · generalize hc : sha3_256_avx2_update_to_copy
        { ctx with buffer := store_bytes ctx.buffer ctx.buffer_len a,
                   buffer_len := ctx.buffer_len + a.length } b = c at htt
    unfold sha3_256_avx2_update_pass
    simp only [htt, hc, List.take_append]
    rw [store_bytes_append _ _ _ _ (by omega)]
    have e : ctx.buffer_len + (a.length + c) = ctx.buffer_len + a.length + c := by omega
    rw [e]
  · rw [htt, List.drop_append]

theorem sha3_256_avx2_update_loop_split :
    ∀ (n : Nat) (a b : List Nat) (ctx : sha3_256_avx2_ctx) (f1 f2 f3 : Nat),
      a.length + b.length ≤ n → sha3_ctx_ok ctx →
      a.length + b.length ≤ f1 → a.length ≤ f2 → b.length ≤ f3 →
      sha3_256_avx2_update_loop f1 ctx (a ++ b) =
        sha3_256_avx2_update_loop f3 (sha3_256_avx2_update_loop f2 ctx a) b := by
  intro n
  induction n with
  | zero =>
    intro a b ctx f1 f2 f3 hn _ _ _ _
    have ha : a = [] := List.length_eq_zero.mp (by omega)
    have hb : b = [] := List.length_eq_zero.mp (by omega)
    subst ha hb
    simp [sha3_256_avx2_update_loop_nil]
  | succ n ih =>
    intro a b ctx f1 f2 f3 hn hok h1 h2 h3
    by_cases ha : a = []
    · subst ha
      simp only [List.nil_append, sha3_256_avx2_update_loop_nil]
      by_cases hb : b = []
      · subst hb
        simp [sha3_256_avx2_update_loop_nil]
      · have hbl : 0 < b.length := List.length_pos.mpr hb
        obtain ⟨g1, rfl⟩ : ∃ g, f1 = g + 1 := ⟨f1 - 1, by simp at h1; omega⟩
        obtain ⟨g3, rfl⟩ : ∃ g, f3 = g + 1 := ⟨f3 - 1, by omega⟩
        obtain ⟨t1, t2, _⟩ := sha3_256_avx2_update_to_copy_bounds ctx b hok hb
        rw [sha3_256_avx2_update_loop_succ _ _ _ hb, sha3_256_avx2_update_loop_succ _ _ _ hb]
        have hlen : (b.drop (sha3_256_avx2_update_to_copy ctx b)).length < b.length := by
          rw [List.length_drop]; omega
        have key := ih [] (b.drop (sha3_256_avx2_update_to_copy ctx b))
          (sha3_256_avx2_update_pass ctx b) g1 0 g3
          (by simp only [List.length_nil, Nat.zero_add] at hn ⊢; omega)
          (sha3_256_avx2_update_pass_ok ctx b hok)
          (by simp only [List.length_nil, Nat.zero_add] at h1 ⊢; omega)
          (by simp) (by omega)
        simpa [sha3_256_avx2_update_loop_nil] using key
    · have hal : 0 < a.length := List.length_pos.mpr ha
      have hab : a ++ b ≠ [] := by simp [ha]
      obtain ⟨g1, rfl⟩ : ∃ g, f1 = g + 1 := ⟨f1 - 1, by omega⟩
      obtain ⟨g2, rfl⟩ : ∃ g, f2 = g + 1 := ⟨f2 - 1, by omega⟩
      rw [sha3_256_avx2_update_loop_succ _ _ _ hab, sha3_256_avx2_update_loop_succ _ _ _ ha]
      by_cases hlong : 136 - ctx.buffer_len ≤ a.length
      · obtain ⟨_, e2, e3⟩ := sha3_256_avx2_update_pass_long ctx a b hlong
        obtain ⟨t1, t2, _⟩ := sha3_256_avx2_update_to_copy_bounds ctx a hok ha
        rw [e2, e3]
        have hlen : (a.drop (sha3_256_avx2_update_to_copy ctx a)).length < a.length := by
          rw [List.length_drop]; omega
        exact ih _ b _ g1 g2 f3 (by omega) (sha3_256_avx2_update_pass_ok ctx a hok) (by omega)
          (by omega) h3
      · have hshort : a.length < 136 - ctx.buffer_len := by omega
        obtain ⟨e1, e2, e3, e4⟩ := sha3_256_avx2_update_pass_short ctx a b hok hshort
        have hoka : sha3_ctx_ok
            { ctx with buffer := store_bytes ctx.buffer ctx.buffer_len a,
                       buffer_len := ctx.buffer_len + a.length } := by
          refine ⟨?_, by simp only; omega⟩
          simp only
          rw [store_bytes_length _ _ _ (by have := hok.1; omega)]
          exact hok.1
        rw [e3, e4, e2, e1, List.drop_length, sha3_256_avx2_update_loop_nil]
        by_cases hb : b = []
        · subst hb
          obtain ⟨_, e2', _, _⟩ := sha3_256_avx2_update_pass_short _ [] []
            hoka (by simp only [List.length_nil]; omega)
          simp only [List.drop_nil, sha3_256_avx2_update_loop_nil]
          rw [e2']
          simp [store_bytes]
        · have hbl : 0 < b.length := List.length_pos.mpr hb
          obtain ⟨g3, rfl⟩ : ∃ g, f3 = g + 1 := ⟨f3 - 1, by omega⟩
          obtain ⟨t1, t2, _⟩ := sha3_256_avx2_update_to_copy_bounds _ b hoka hb
          rw [sha3_256_avx2_update_loop_succ _ _ _ hb]
          generalize hc : sha3_256_avx2_update_to_copy
            { ctx with buffer := store_bytes ctx.buffer ctx.buffer_len a,
                       buffer_len := ctx.buffer_len + a.length } b = c at t1 t2 ⊢
          have hlen : (b.drop c).length < b.length := by
            rw [List.length_drop]; omega
          have key := ih [] (b.drop c) (sha3_256_avx2_update_pass _ b) g1 0 g3
            (by simp only [List.length_nil, Nat.zero_add]; omega)
            (sha3_256_avx2_update_pass_ok _ b hoka)
            (by simp only [List.length_nil, Nat.zero_add]; omega)
            (by simp) (by omega)
          simpa [sha3_256_avx2_update_loop_nil] using key

theorem sha3_256_avx2_update_append (ctx : sha3_256_avx2_ctx) (a b : List Nat)
    (hok : sha3_ctx_ok ctx) :
    sha3_256_avx2_update (sha3_256_avx2_update ctx a) b = sha3_256_avx2_update ctx (a ++ b) := by
  unfold sha3_256_avx2_update
  rw [List.length_append]
  exact (sha3_256_avx2_update_loop_split (a.length + b.length) a b ctx _ _ _ (le_refl _) hok
    (le_refl _) (le_refl _) (le_refl _)).symm

theorem sha3_256_avx2_update_ok :
    ∀ (fuel : Nat) (data : List Nat) (c : sha3_256_avx2_ctx), sha3_ctx_ok c →
      sha3_ctx_ok (sha3_256_avx2_update_loop fuel c data) := by
  intro fuel
  induction fuel with
  | zero => intro data c hc; simpa [sha3_256_avx2_update_loop] using hc
  | succ fuel ih =>
    intro data c hc
    by_cases hd : data = []
    · subst hd
      rw [sha3_256_avx2_update_loop_nil]
      exact hc
    · rw [sha3_256_avx2_update_loop_succ _ _ _ hd]
      exact ih _ _ (sha3_256_avx2_update_pass_ok c data hc)

/-! ## Rounding in `format_work` -/

theorem round_half_even_bounds (n d : Nat) :
    n / d ≤ round_half_even n d ∧ round_half_even n d ≤ n / d + 1 := by
  unfold round_half_even
  simp only
  split_ifs <;> omega

theorem round_half_even_error (n d : Nat) (hd : 0 < d) :
    |((round_half_even n d : Nat) : ℚ) - (n : ℚ) / d| ≤ 1 / 2 := by
  have hdq : (0 : ℚ) < d := by exact_mod_cast hd
  have hn : (n : ℚ) = (d : ℚ) * ((n / d : Nat) : ℚ) + ((n % d : Nat) : ℚ) := by
    exact_mod_cast (Nat.div_add_mod n d).symm
  have hr : n % d < d := Nat.mod_lt n hd
  have hrq : ((n % d : Nat) : ℚ) < d := by exact_mod_cast hr
  have hr0 : (0 : ℚ) ≤ ((n % d : Nat) : ℚ) := by positivity
  have hdiv : (n : ℚ) / d = ((n / d : Nat) : ℚ) + ((n % d : Nat) : ℚ) / d := by
    rw [hn]
    field_simp
    ring
  rw [hdiv, abs_le]
  unfold round_half_even
  simp only
  split_ifs with h1 h2 h3
  · have h1q : 2 * ((n % d : Nat) : ℚ) < d := by exact_mod_cast h1
    have : ((n % d : Nat) : ℚ) / d ≤ 1 / 2 := by
      rw [div_le_iff₀ hdq]; linarith
    have : 0 ≤ ((n % d : Nat) : ℚ) / d := by positivity
    constructor <;> linarith
  · have h2q : (d : ℚ) < 2 * ((n % d : Nat) : ℚ) := by exact_mod_cast h2
    have hlo : 1 / 2 ≤ ((n % d : Nat) : ℚ) / d := by
      rw [le_div_iff₀ hdq]; linarith
    have hhi : ((n % d : Nat) : ℚ) / d ≤ 1 := by
      rw [div_le_iff₀ hdq]; linarith
    push_cast
    constructor <;> linarith
  · have he : 2 * (n % d) = d := by omega
    have heq : 2 * ((n % d : Nat) : ℚ) = d := by exact_mod_cast he
    have : ((n % d : Nat) : ℚ) / d = 1 / 2 := by
      rw [div_eq_iff (ne_of_gt hdq)]; linarith
    constructor <;> linarith
  · have he : 2 * (n % d) = d := by omega
    have heq : 2 * ((n % d : Nat) : ℚ) = d := by exact_mod_cast he
    have : ((n % d : Nat) : ℚ) / d = 1 / 2 := by
      rw [div_eq_iff (ne_of_gt hdq)]; linarith
    push_cast
    constructor <;> linarith

theorem binary_exponent_spec :
    ∀ (fuel n : Nat), 0 < n → n < 2 ^ fuel →
      2 ^ binary_exponent fuel n ≤ n ∧ n < 2 ^ (binary_exponent fuel n + 1) := by
  intro fuel
  induction fuel with
  | zero => intro n h0 h1; simp at h1; omega
  | succ fuel ih =>
    intro n h0 h1
    unfold binary_exponent
    split
    · simp only [pow_zero, zero_add, pow_one]
      omega
    · next h2 =>
      have hhalf : n / 2 < 2 ^ fuel := by
        rw [pow_succ] at h1
        omega
      obtain ⟨a, b⟩ := ih (n / 2) (by omega) hhalf
      rw [pow_succ, pow_succ]
      constructor <;> omega

theorem to_double_error (n d : Nat) (hd : 0 < d) (hnd : d ≤ n) (hq : n / d < 2 ^ 128) :
    0 < (to_double n d).2 ∧
    |((to_double n d).1 : ℚ) / ((to_double n d).2 : ℚ) - (n : ℚ) / d| ≤
      (n : ℚ) / d / 2 ^ 53 := by
  have hQ : 0 < n / d := Nat.div_pos hnd hd
  obtain ⟨hs, _⟩ := binary_exponent_spec 128 (n / d) hQ hq
  have hdq : (0 : ℚ) < d := by exact_mod_cast hd
  have hfl : ((n / d : Nat) : ℚ) ≤ (n : ℚ) / d := by
    rw [le_div_iff₀ hdq]
    exact_mod_cast Nat.div_mul_le_self n d
  have hsq : (2 : ℚ) ^ binary_exponent 128 (n / d) ≤ (n : ℚ) / d := by
    have : ((2 ^ binary_exponent 128 (n / d) : Nat) : ℚ) ≤ ((n / d : Nat) : ℚ) := by
      exact_mod_cast hs
    push_cast at this
    linarith
  unfold to_double
  simp only
  generalize binary_exponent 128 (n / d) = s at hsq ⊢
  split
  · next h52 =>
    refine ⟨by norm_num, ?_⟩
    obtain ⟨e, rfl⟩ : ∃ e, s = 52 + e := ⟨s - 52, by omega⟩
    simp only [Nat.add_sub_cancel_left]
    have hpe : (0 : ℚ) < 2 ^ e := by positivity
    have herr := round_half_even_error n (d * 2 ^ e) (by positivity)
    push_cast at herr ⊢
    have hsplit : (n : ℚ) / ((d : ℚ) * 2 ^ e) = (n : ℚ) / d / 2 ^ e := by
      rw [div_div]
    rw [hsplit] at herr
    have hmul : |(round_half_even n (d * 2 ^ e) : ℚ) * 2 ^ e - (n : ℚ) / d| =
        |(round_half_even n (d * 2 ^ e) : ℚ) - (n : ℚ) / d / 2 ^ e| * 2 ^ e := by
      rw [← abs_of_pos hpe, ← abs_mul, abs_of_pos hpe]
      congr 1
      field_simp
      ring
    rw [div_one, hmul]
    have hpow : (2 : ℚ) ^ (52 + e) = 2 ^ 52 * 2 ^ e := by rw [pow_add]
    rw [hpow] at hsq
    have h1 : |(round_half_even n (d * 2 ^ e) : ℚ) - (n : ℚ) / d / 2 ^ e| * 2 ^ e ≤
        1 / 2 * 2 ^ e := by
      exact mul_le_mul_of_nonneg_right herr (le_of_lt hpe)
    have h2 : (1 : ℚ) / 2 * 2 ^ e ≤ (n : ℚ) / d / 2 ^ 53 := by
      rw [le_div_iff₀ (by positivity)]
      norm_num at hsq ⊢
      linarith
    linarith
  · next h52 =>
    refine ⟨by positivity, ?_⟩
    obtain ⟨e, he⟩ : ∃ e, 52 = s + e := ⟨52 - s, by omega⟩
    have hes : 52 - s = e := by omega
    rw [hes]
    have hpe : (0 : ℚ) < 2 ^ e := by positivity
    have herr := round_half_even_error (n * 2 ^ e) d hd
    push_cast at herr ⊢
    have hmul : |(round_half_even (n * 2 ^ e) d : ℚ) / 2 ^ e - (n : ℚ) / d| =
        |(round_half_even (n * 2 ^ e) d : ℚ) - (n : ℚ) * 2 ^ e / d| / 2 ^ e := by
      rw [← abs_of_pos hpe, ← abs_div, abs_of_pos hpe]
      congr 1
      field_simp
      ring
    rw [hmul]
    have hpow : (2 : ℚ) ^ 52 = 2 ^ s * 2 ^ e := by rw [← pow_add, ← he]
    have h1 : |(round_half_even (n * 2 ^ e) d : ℚ) - (n : ℚ) * 2 ^ e / d| / 2 ^ e ≤
        1 / 2 / 2 ^ e := by
      exact div_le_div_of_nonneg_right herr (le_of_lt hpe)
    have h2 : (1 : ℚ) / 2 / 2 ^ e ≤ (n : ℚ) / d / 2 ^ 53 := by
      have h53 : (2 : ℚ) ^ 53 = 2 * (2 ^ s * 2 ^ e) := by rw [← hpow]; norm_num
      rw [h53]
      have hps : (0 : ℚ) < 2 ^ s := by positivity
      have hden : (0 : ℚ) < 2 * (2 ^ s * 2 ^ e) := by positivity
      have hge : (2 : ℚ) ^ s / (2 * (2 ^ s * 2 ^ e)) ≤ (n : ℚ) / d / (2 * (2 ^ s * 2 ^ e)) :=
        div_le_div_of_nonneg_right hsq (le_of_lt hden)
      have heq : (2 : ℚ) ^ s / (2 * (2 ^ s * 2 ^ e)) = 1 / 2 / 2 ^ e := by
        field_simp
        ring
      rw [heq] at hge
      exact hge
    linarith

/-! ## The quotient printed by `format_work` -/

theorem round_half_even_one (n : Nat) : round_half_even n 1 = n := by
  unfold round_half_even
  simp [Nat.mod_one]

theorem to_double_of_nat (w D : Nat) (hw0 : 0 < w) (hw : w < 2 ^ 64) (hDw : D ≤ w)
    (hD : D ≤ 2 ^ 52) :
    (to_double w 1).2 * D ≤ (to_double w 1).1 ∧
    (to_double w 1).1 ≤ 2 * w * (to_double w 1).2 := by
  have hq : w / 1 < 2 ^ 128 := by
    rw [Nat.div_one]
    exact lt_trans hw (by norm_num)
  obtain ⟨hs, _⟩ := binary_exponent_spec 128 (w / 1) (by rw [Nat.div_one]; exact hw0) hq
  rw [Nat.div_one] at hs
  unfold to_double
  simp only [Nat.div_one, one_mul]
  generalize binary_exponent 128 w = s at hs ⊢
  split
  · next h52 =>
    obtain ⟨e, rfl⟩ : ∃ e, s = 52 + e := ⟨s - 52, by omega⟩
    simp only [Nat.add_sub_cancel_left, mul_one, one_mul]
    obtain ⟨hlo, hhi⟩ := round_half_even_bounds w (2 ^ e)
    have hpe : 0 < 2 ^ e := by positivity
    rw [pow_add] at hs
    have h52' : 2 ^ 52 ≤ w / 2 ^ e := by
      rw [Nat.le_div_iff_mul_le hpe]
      exact hs
    have hle : 2 ^ e ≤ w := by
      calc 2 ^ e = 1 * 2 ^ e := by ring
        _ ≤ 2 ^ 52 * 2 ^ e := Nat.mul_le_mul_right _ (by norm_num)
        _ ≤ w := hs
    constructor
    · calc D ≤ 2 ^ 52 := hD
        _ ≤ 2 ^ 52 * 2 ^ e := Nat.le_mul_of_pos_right _ hpe
        _ ≤ w / 2 ^ e * 2 ^ e := Nat.mul_le_mul_right _ h52'
        _ ≤ round_half_even w (2 ^ e) * 2 ^ e := Nat.mul_le_mul_right _ hlo
    · calc round_half_even w (2 ^ e) * 2 ^ e ≤ (w / 2 ^ e + 1) * 2 ^ e :=
            Nat.mul_le_mul_right _ hhi
        _ = w / 2 ^ e * 2 ^ e + 2 ^ e := by ring
        _ ≤ w + 2 ^ e := Nat.add_le_add_right (Nat.div_mul_le_self w (2 ^ e)) _
        _ ≤ 2 * w := by omega
  · next h52 =>
    simp only [round_half_even_one]
    constructor
    · rw [Nat.mul_comm]
      exact Nat.mul_le_mul_right _ hDw
    · have : w * 2 ^ (52 - s) ≤ 2 * (w * 2 ^ (52 - s)) := by omega
      calc w * 2 ^ (52 - s) ≤ 2 * (w * 2 ^ (52 - s)) := this
        _ = 2 * w * 2 ^ (52 - s) := by ring

theorem format_work_quotient_error (w D : Nat) (hD0 : 0 < D) (hDw : D ≤ w) (hw : w < 2 ^ 64)
    (hD : D ≤ 2 ^ 52) :
    0 < (format_work_quotient w D).2 ∧
    |((format_work_quotient w D).1 : ℚ) / ((format_work_quotient w D).2 : ℚ) - (w : ℚ) / D| ≤
      (w : ℚ) / D * (3 / 2 ^ 53) := by
  have hw0 : 0 < w := lt_of_lt_of_le hD0 hDw
  obtain ⟨hx2, hxe⟩ := to_double_error w 1 (by norm_num) hw0
    (by rw [Nat.div_one]; exact lt_trans hw (by norm_num))
  obtain ⟨hge, hle⟩ := to_double_of_nat w D hw0 hw hDw hD
  unfold format_work_quotient
  simp only
  generalize to_double w 1 = x at hx2 hxe hge hle ⊢
  have hd2 : 0 < x.2 * D := Nat.mul_pos hx2 hD0
  have hq2 : x.1 / (x.2 * D) < 2 ^ 128 := by
    have h1 : x.1 / (x.2 * D) ≤ x.1 / x.2 := by
      rw [← Nat.div_div_eq_div_mul]
      exact Nat.div_le_self _ _
    have h2 : x.1 / x.2 ≤ 2 * w := by
      apply Nat.div_le_of_le_mul
      calc x.1 ≤ 2 * w * x.2 := hle
        _ = x.2 * (2 * w) := by ring
    have h3 : 2 * w < 2 ^ 128 := by
      have : (2 : Nat) ^ 64 * 2 ≤ 2 ^ 128 := by norm_num
      omega
    omega
  obtain ⟨hy2, hye⟩ := to_double_error x.1 (x.2 * D) hd2 hge hq2
  refine ⟨hy2, ?_⟩
  generalize to_double x.1 (x.2 * D) = y at hy2 hye ⊢
  have hx2q : (0 : ℚ) < x.2 := by exact_mod_cast hx2
  have hDq : (0 : ℚ) < D := by exact_mod_cast hD0
  have hwq : (0 : ℚ) ≤ w := by positivity
  simp only [Nat.cast_one, div_one] at hxe
  push_cast at hye
  have hsplit : (x.1 : ℚ) / ((x.2 : ℚ) * D) = (x.1 : ℚ) / x.2 / D := by rw [div_div]
  rw [hsplit] at hye
  generalize (x.1 : ℚ) / x.2 = X at hxe hye
  generalize (y.1 : ℚ) / y.2 = Y at hye ⊢
  have hδ : (0 : ℚ) < 1 / 2 ^ 53 := by positivity
  have hX : X ≤ w + w / 2 ^ 53 := by
    have := (abs_le.mp hxe).2
    linarith
  have hX0 : 0 ≤ X := by
    have := (abs_le.mp hxe).1
    have h53 : (w : ℚ) / 2 ^ 53 ≤ w := div_le_self hwq (by norm_num)
    linarith
  have h1 : |X / D - (w : ℚ) / D| ≤ (w : ℚ) / D / 2 ^ 53 := by
    rw [← sub_div, abs_div, abs_of_pos hDq]
    calc |X - (w : ℚ)| / D ≤ (w : ℚ) / 2 ^ 53 / D := div_le_div_of_nonneg_right hxe (le_of_lt hDq)
      _ = (w : ℚ) / D / 2 ^ 53 := by ring
  have h2 : X / D / 2 ^ 53 ≤ (w : ℚ) / D * (2 / 2 ^ 53) := by
    have hXD : X / D ≤ ((w : ℚ) + w / 2 ^ 53) / D := div_le_div_of_nonneg_right hX (le_of_lt hDq)
    have hW2 : ((w : ℚ) + w / 2 ^ 53) / D ≤ 2 * ((w : ℚ) / D) := by
      have h53 : (w : ℚ) / 2 ^ 53 ≤ w := div_le_self hwq (by norm_num)
      have : ((w : ℚ) + w / 2 ^ 53) / D ≤ ((w : ℚ) + w) / D :=
        div_le_div_of_nonneg_right (by linarith) (le_of_lt hDq)
      calc ((w : ℚ) + w / 2 ^ 53) / D ≤ ((w : ℚ) + w) / D := this
        _ = 2 * ((w : ℚ) / D) := by ring
    calc X / D / 2 ^ 53 ≤ 2 * ((w : ℚ) / D) / 2 ^ 53 :=
          div_le_div_of_nonneg_right (le_trans hXD hW2) (by positivity)
      _ = (w : ℚ) / D * (2 / 2 ^ 53) := by ring
  calc |Y - (w : ℚ) / D| = |(Y - X / D) + (X / D - (w : ℚ) / D)| := by ring_nf
    _ ≤ |Y - X / D| + |X / D - (w : ℚ) / D| := abs_add _ _
    _ ≤ X / D / 2 ^ 53 + (w : ℚ) / D / 2 ^ 53 := add_le_add hye h1
    _ ≤ (w : ℚ) / D * (2 / 2 ^ 53) + (w : ℚ) / D / 2 ^ 53 := add_le_add_right h2 _
    _ = (w : ℚ) / D * (3 / 2 ^ 53) := by ring

/-! ## What `format_work` prints -/

theorem fmt_dec_digit_length (d : Nat) (hd : d < 10) : (fmt_dec d).length = 1 := by
  interval_cases d <;> rfl

theorem snprintf_result_fits (size : Nat) (text : List Char) (h : text.length + 1 ≤ size) :
    snprintf_result size text = text := by
  unfold snprintf_result
  exact List.take_of_length_le (by omega)

theorem format_work_tenths (w k : Nat) (hk12 : k ≤ 12) (hlo : 10 ^ k ≤ w)
    (hhi : w ≤ 2 * 10 ^ 7 * 10 ^ k) (hw : w < 2 ^ 64) :
    |((round_half_even (10 * (format_work_quotient w (10 ^ k)).1)
        (format_work_quotient w (10 ^ k)).2 : Nat) : ℚ) / 10 - (w : ℚ) / 10 ^ k| ≤
      1 / 20 + (w : ℚ) / 10 ^ k * (3 / 2 ^ 53) ∧
    (w : ℚ) / 10 ^ k * (3 / 2 ^ 53) ≤ 1 / 10 ^ 8 := by
  have hD0 : 0 < 10 ^ k := by positivity
  have hD52 : 10 ^ k ≤ 2 ^ 52 := by
    calc 10 ^ k ≤ 10 ^ 12 := Nat.pow_le_pow_right (by norm_num) hk12
      _ ≤ 2 ^ 52 := by norm_num
  obtain ⟨hy2, hye⟩ := format_work_quotient_error w (10 ^ k) hD0 hlo hw hD52
  generalize format_work_quotient w (10 ^ k) = y at hy2 hye ⊢
  have herr := round_half_even_error (10 * y.1) y.2 hy2
  have hy2q : (0 : ℚ) < y.2 := by exact_mod_cast hy2
  push_cast at herr hye
  have hDq : (0 : ℚ) < 10 ^ k := by positivity
  have hmul : (10 : ℚ) * y.1 / y.2 = 10 * ((y.1 : ℚ) / y.2) := by ring
  rw [hmul] at herr
  generalize (y.1 : ℚ) / y.2 = Y at herr hye
  generalize ((round_half_even (10 * y.1) y.2 : Nat) : ℚ) = T at herr ⊢
  have h10 : |T / 10 - Y| ≤ 1 / 20 := by
    have e : T / 10 - Y = (T - 10 * Y) / 10 := by ring
    rw [e, abs_div, abs_of_pos (by norm_num : (0 : ℚ) < 10)]
    calc |T - 10 * Y| / 10 ≤ 1 / 2 / 10 := div_le_div_of_nonneg_right herr (by norm_num)
      _ = 1 / 20 := by norm_num
  constructor
  · calc |T / 10 - (w : ℚ) / 10 ^ k| = |(T / 10 - Y) + (Y - (w : ℚ) / 10 ^ k)| := by ring_nf
      _ ≤ |T / 10 - Y| + |Y - (w : ℚ) / 10 ^ k| := abs_add _ _
      _ ≤ 1 / 20 + (w : ℚ) / 10 ^ k * (3 / 2 ^ 53) := add_le_add h10 hye
  · have hq : (w : ℚ) / 10 ^ k ≤ 2 * 10 ^ 7 := by
      rw [div_le_iff₀ hDq]
      exact_mod_cast hhi
    calc (w : ℚ) / 10 ^ k * (3 / 2 ^ 53) ≤ 2 * 10 ^ 7 * (3 / 2 ^ 53) :=
          mul_le_mul_of_nonneg_right hq (by positivity)
      _ ≤ 1 / 10 ^ 8 := by norm_num

theorem format_work_unit_text (w k size : Nat) (c : Char) (hk3 : 3 ≤ k) (hk12 : k ≤ 12)
    (hlo : 10 ^ k ≤ w) (hhi : w ≤ 2 * 10 ^ 7 * 10 ^ k) (hw : w < 2 ^ 64)
    (hsize : 32 ≤ size) :
    ∃ t : Nat,
      snprintf_result size (fmt_f1 (format_work_quotient w (10 ^ k)) ++ [c]) =
        fmt_dec (t / 10) ++ ['.'] ++ fmt_dec (t % 10) ++ [c] ∧
      |(t : ℚ) / 10 - (w : ℚ) / 10 ^ k| ≤ 1 / 20 + 1 / 10 ^ 8 ∧
      (w < 10 ^ 12 →
        2 * t * 10 ^ (k - 1) ≤ 2 * w + 10 ^ (k - 1) ∧
        2 * w ≤ 2 * t * 10 ^ (k - 1) + 10 ^ (k - 1)) := by
  obtain ⟨h1, h2⟩ := format_work_tenths w k hk12 hlo hhi hw
  refine ⟨round_half_even (10 * (format_work_quotient w (10 ^ k)).1)
    (format_work_quotient w (10 ^ k)).2, ?_, by linarith, ?_⟩
  · unfold fmt_f1
    simp only
    generalize round_half_even (10 * (format_work_quotient w (10 ^ k)).1)
      (format_work_quotient w (10 ^ k)).2 = t at h1 ⊢
    have hDq : (0 : ℚ) < 10 ^ k := by positivity
    have hq : (w : ℚ) / 10 ^ k ≤ 2 * 10 ^ 7 := by
      rw [div_le_iff₀ hDq]
      exact_mod_cast hhi
    have ht : (t : ℚ) ≤ 3 * 10 ^ 8 := by
      have := (abs_le.mp h1).2
      linarith
    have htn : t ≤ 3 * 10 ^ 8 := by exact_mod_cast ht
    have hl1 : (fmt_dec (t / 10)).length ≤ 20 :=
      fmt_dec_length_u64 _ (by
        have : t / 10 ≤ t := Nat.div_le_self _ _
        have : 3 * 10 ^ 8 < 2 ^ 64 := by norm_num
        omega)
    have hl2 : (fmt_dec (t % 10)).length = 1 :=
      fmt_dec_digit_length _ (Nat.mod_lt _ (by norm_num))
    apply snprintf_result_fits
    simp only [List.length_append, List.length_singleton, hl2]
    omega
  · intro h12
    generalize round_half_even (10 * (format_work_quotient w (10 ^ k)).1)
      (format_work_quotient w (10 ^ k)).2 = t at h1
    obtain ⟨j, rfl⟩ : ∃ j, k = j + 1 := ⟨k - 1, by omega⟩
    simp only [Nat.add_sub_cancel]
    have hPq : (0 : ℚ) < 10 ^ j := by positivity
    have hsmall : (w : ℚ) / 10 ^ (j + 1) * (3 / 2 ^ 53) * (2 * 10 ^ (j + 1)) < 1 := by
      have hwq : (w : ℚ) < 10 ^ 12 := by exact_mod_cast h12
      have e : (w : ℚ) / 10 ^ (j + 1) * (3 / 2 ^ 53) * (2 * 10 ^ (j + 1)) =
          (w : ℚ) * (6 / 2 ^ 53) := by
        field_simp
        ring
      rw [e]
      calc (w : ℚ) * (6 / 2 ^ 53) ≤ 10 ^ 12 * (6 / 2 ^ 53) :=
            mul_le_mul_of_nonneg_right (le_of_lt hwq) (by positivity)
        _ < 1 := by norm_num
    have hscale : |(t : ℚ) / 10 - (w : ℚ) / 10 ^ (j + 1)| * (2 * 10 ^ (j + 1)) =
        |2 * (t : ℚ) * 10 ^ j - 2 * w| := by
      have hpos : (0 : ℚ) < 2 * 10 ^ (j + 1) := by positivity
      rw [← abs_of_pos hpos, ← abs_mul]
      congr 1
      rw [pow_succ]
      field_simp
      ring
    have hb : |2 * (t : ℚ) * 10 ^ j - 2 * w| < 10 ^ j + 1 := by
      rw [← hscale]
      have hpos : (0 : ℚ) < 2 * 10 ^ (j + 1) := by positivity
      have := mul_le_mul_of_nonneg_right h1 (le_of_lt hpos)
      have e20 : (1 / 20 : ℚ) * (2 * 10 ^ (j + 1)) = 10 ^ j := by
        rw [pow_succ]; ring
      rw [add_mul, e20] at this
      linarith
    obtain ⟨hb1, hb2⟩ := abs_lt.mp hb
    constructor
    · have : (2 * t * 10 ^ j : ℚ) < 2 * w + 10 ^ j + 1 := by linarith
      have hn : 2 * t * 10 ^ j < 2 * w + 10 ^ j + 1 := by exact_mod_cast this
      omega
    · have : (2 * w : ℚ) < 2 * t * 10 ^ j + 10 ^ j + 1 := by linarith
      have hn : 2 * w < 2 * t * 10 ^ j + 10 ^ j + 1 := by exact_mod_cast this
      omega

/-! ### The recursion depth of `calculate_total_work` -/

theorem calculate_total_work_chain_short (repo : Repo) :
    ∀ (chain : List (List Nat)) (fuel : Nat),
      FirstParentChain repo chain ∨ BrokenFirstParentChain repo chain →
      fuel < chain.length → calculate_total_work repo fuel (chain.headD []) = none := by
  intro chain
  induction chain with
  | nil => intro fuel _ hf; simp at hf
  | cons c rest ih =>
    intro fuel h hf
    cases fuel with
    | zero => rfl
    | succ fuel =>
      cases rest with
      | nil => simp at hf
      | cons c1 rest2 =>
        have hnode : ∃ cm, repo.lookup_commit c = some cm ∧ cm.parents.head? = some c1 := by
          rcases h with h | h
          · exact h.1
          · exact h.1
        have htail : FirstParentChain repo (c1 :: rest2) ∨
            BrokenFirstParentChain repo (c1 :: rest2) := by
          rcases h with h | h
          · exact Or.inl h.2
          · exact Or.inr h.2
        obtain ⟨cm, hcm, hp⟩ := hnode
        have hrec := ih fuel htail (by simpa using hf)
        simp only [List.headD_cons] at hrec ⊢
        simp only [calculate_total_work, hcm]
        cases hps : cm.parents with
        | nil => rw [hps] at hp; simp at hp
        | cons p ps =>
          rw [hps] at hp
          simp only [List.head?_cons, Option.some.injEq] at hp
          subst hp
          simp only [hrec]

theorem mine_pow_commit_actual_bits_loop_eq :
    ∀ (h : List Char) (zb : Nat),
      mine_pow_commit_actual_bits_loop h zb = calculate_hash_work_loop h zb := by
  intro h
  induction h with
  | nil => intro zb; rfl
  | cons c rest ih =>
    intro zb
    simp only [mine_pow_commit_actual_bits_loop, calculate_hash_work_loop, ih]

theorem check_pow_difficulty_loop_lower_hex :
    ∀ (h : List Char) (zb : Nat), (∀ c ∈ h, c ∈ "0123456789abcdef".toList) →
      check_pow_difficulty_loop h zb = some (calculate_hash_work_loop h zb) := by
  intro h
  induction h with
  | nil => intro zb _; rfl
  | cons c rest ih =>
    intro zb hc
    have hrest : ∀ c ∈ rest, c ∈ "0123456789abcdef".toList :=
      fun x hx => hc x (List.mem_cons_of_mem _ hx)
    have hmem := hc c (List.mem_cons_self _ _)
    simp only [String.toList, List.mem_cons, List.mem_singleton, List.not_mem_nil,
      or_false] at hmem
    rcases hmem with rfl | rfl | rfl | rfl | rfl | rfl | rfl | rfl | rfl | rfl | rfl | rfl |
      rfl | rfl | rfl | rfl
    · simp only [check_pow_difficulty_loop, calculate_hash_work_loop]
      exact ih _ hrest
    all_goals rfl

theorem calculate_hash_work_loop_bound :
    ∀ (h : List Char) (zb : Nat), zb + 4 * h.length < 2 ^ 32 →
      zb ≤ calculate_hash_work_loop h zb ∧
      calculate_hash_work_loop h zb ≤ zb + 4 * h.length := by
  intro h
  induction h with
  | nil => intro zb _; simp [calculate_hash_work_loop]
  | cons c rest ih =>
    intro zb hb
    simp only [List.length_cons] at hb
    simp only [calculate_hash_work_loop, List.length_cons]
    have e4 : (zb + 4) % 2 ^ 32 = zb + 4 := Nat.mod_eq_of_lt (by omega)
    have e3 : (zb + 3) % 2 ^ 32 = zb + 3 := Nat.mod_eq_of_lt (by omega)
    have e2 : (zb + 2) % 2 ^ 32 = zb + 2 := Nat.mod_eq_of_lt (by omega)
    have e1 : (zb + 1) % 2 ^ 32 = zb + 1 := Nat.mod_eq_of_lt (by omega)
    rw [e4, e3, e2, e1]
    have := ih (zb + 4) (by omega)
    split
    · omega
    · split
      · omega
      · split
        · omega
        · split <;> omega

/-! ### The sequential mining loops stop at the first nonce that passes -/

theorem set_set_getD {α : Type} (l : List α) (i : Nat) (a d : α) :
    (l.set i a).set i (l.getD i d) = l := by
  induction l generalizing i with
  | nil => rfl
  | cons x xs ih =>
    cases i with
    | zero => rfl
    | succ i => simp only [List.set_cons_succ, List.getD_cons_succ, ih]

theorem mine_pow_commit_optimized_pass_snd (commit_buf : List Char)
    (nonce_offset difficulty pcw nonce : Nat) :
    (mine_pow_commit_optimized_pass commit_buf nonce_offset difficulty pcw nonce).2 =
      memcpy_at commit_buf nonce_offset ((fmt_dec nonce).take 20) (fmt_dec nonce).length := by
  unfold mine_pow_commit_optimized_pass
  simp only [set_set_getD]

theorem toDigitsCore_length_ge :
    ∀ (f n : Nat) (acc : List Char), acc.length ≤ (Nat.toDigitsCore 10 f n acc).length := by
  intro f
  induction f with
  | zero => intro n acc; simp [Nat.toDigitsCore]
  | succ f ih =>
    intro n acc
    simp only [Nat.toDigitsCore]
    split
    · simp
    · exact le_trans (by simp) (ih _ _)

theorem fmt_dec_length_pos (n : Nat) : 1 ≤ (fmt_dec n).length := by
  unfold fmt_dec Nat.toDigits
  simp only [Nat.toDigitsCore]
  split
  · simp
  · exact le_trans (by simp) (toDigitsCore_length_ge _ _ _)

theorem memcpy_at_span (buf src : List Char) (off : Nat) (h20 : src.length ≤ 20)
    (hb : off + 20 ≤ buf.length) :
    (memcpy_at buf off (src.take 20) src.length).length = buf.length ∧
    (memcpy_at buf off (src.take 20) src.length).take off = buf.take off ∧
    (memcpy_at buf off (src.take 20) src.length).drop (off + 20) = buf.drop (off + 20) ∧
    ((memcpy_at buf off (src.take 20) src.length).drop off).take src.length = src := by
  have htake : (src.take 20).take src.length = src := by
    rw [List.take_of_length_le h20, List.take_length]
  have hA : (buf.take off).length = off := by
    rw [List.length_take]; omega
  unfold memcpy_at
  rw [htake]
  refine ⟨?_, ?_, ?_, ?_⟩
  · simp only [List.length_append, List.length_take, List.length_drop]; omega
  · rw [List.append_assoc, List.take_left' hA]
  · have hAB : (buf.take off ++ src).length ≤ off + 20 := by
      rw [List.length_append, hA]; omega
    rw [List.drop_append_eq_append_drop, List.drop_eq_nil_of_le hAB, List.nil_append,
      List.drop_drop, List.length_append, hA]
    congr 1
    omega
  · rw [List.append_assoc, List.drop_left' hA, List.take_left' rfl]

/-! ### The padding of `sha3_256_avx2_final` -/

theorem set_at_take_length (l : List Nat) (k : Nat) (v : Nat) (hk : k < l.length) :
    l.set k v = l.take k ++ v :: l.drop (k + 1) := by
  induction l generalizing k with
  | nil => simp at hk
  | cons x xs ih =>
    cases k with
    | zero => simp
    | succ k =>
      simp only [List.length_cons, Nat.add_lt_add_iff_right] at hk
      simp only [List.set_cons_succ, List.take_succ_cons, List.drop_succ_cons, List.cons_append,
        ih k hk]

theorem set_at_append_length (A T : List Nat) (x y k : Nat) (hk : A.length = k) :
    (A ++ x :: T).set k y = A ++ y :: T := by
  subst hk
  induction A with
  | nil => rfl
  | cons a A ih => simp only [List.cons_append, List.length_cons, List.set_cons_succ, ih]

theorem sha3_zero_pad_eq :
    ∀ (fuel : Nat) (buffer : List Nat) (l : Nat), buffer.length = 136 → l ≤ 135 →
      135 - l ≤ fuel →
      sha3_zero_pad fuel buffer l =
        (buffer.take l ++ List.replicate (135 - l) 0 ++ buffer.drop 135, 135) := by
  intro fuel
  induction fuel with
  | zero =>
    intro buffer l hb hl hf
    have : l = 135 := by omega
    subst this
    simp [sha3_zero_pad]
  | succ fuel ih =>
    intro buffer l hb hl hf
    by_cases h : l < 135
    · simp only [sha3_zero_pad, h, if_true]
      rw [ih (buffer.set l 0) (l + 1) (by simp [hb]) (by omega) (by omega)]
      rw [set_at_take_length buffer l 0 (by omega)]
      have hA : (buffer.take l).length = l := by rw [List.length_take]; omega
      have h1 : (buffer.take l ++ 0 :: buffer.drop (l + 1)).take (l + 1) =
          buffer.take l ++ [0] := by
        rw [List.take_append_eq_append_take, hA, List.take_of_length_le (by omega)]
        simp
      have h2 : (buffer.take l ++ 0 :: buffer.drop (l + 1)).drop 135 = buffer.drop 135 := by
        rw [List.drop_append_eq_append_drop, hA, List.drop_eq_nil_of_le (by omega),
          List.nil_append]
        have : 135 - l = (134 - l) + 1 := by omega
        rw [this, List.drop_succ_cons, List.drop_drop]
        congr 1
        omega
      rw [h1, h2]
      have : 135 - l = (135 - (l + 1)) + 1 := by omega
      rw [this, List.replicate_succ]
      simp
    · have : l = 135 := by omega
      subst this
      simp [sha3_zero_pad]

theorem sha3_zero_pad_writes_lt :
    ∀ (fuel l : Nat), ∀ i ∈ sha3_zero_pad_writes fuel l, i < 135 := by
  intro fuel
  induction fuel with
  | zero => intro l i hi; simp [sha3_zero_pad_writes] at hi
  | succ fuel ih =>
    intro l i hi
    simp only [sha3_zero_pad_writes] at hi
    split at hi
    · rcases List.mem_cons.mp hi with rfl | hi
      · assumption
      · exact ih _ _ hi
    · simp at hi

theorem sha3_256_avx2_final_block_short (ctx : sha3_256_avx2_ctx) (hb : ctx.buffer.length = 136)
    (hl : ctx.buffer_len ≤ 134) :
    sha3_256_avx2_final_block ctx =
      ctx.buffer.take ctx.buffer_len ++ [0x06] ++ List.replicate (134 - ctx.buffer_len) 0 ++
        [0x80] ∧
    ∀ w ∈ sha3_256_avx2_final_writes ctx, w.1 < 136 := by
  have hpad := sha3_zero_pad_eq 136 (ctx.buffer.set ctx.buffer_len 0x06) (ctx.buffer_len + 1)
    (by simp [hb]) (by omega) (by omega)
  constructor
  · unfold sha3_256_avx2_final_block
    simp only [hpad]
    rw [set_at_take_length ctx.buffer ctx.buffer_len 0x06 (by omega)]
    have hA : (ctx.buffer.take ctx.buffer_len).length = ctx.buffer_len := by
      rw [List.length_take]; omega
    have h1 : (ctx.buffer.take ctx.buffer_len ++ 0x06 :: ctx.buffer.drop (ctx.buffer_len + 1)).take
        (ctx.buffer_len + 1) = ctx.buffer.take ctx.buffer_len ++ [0x06] := by
      rw [List.take_append_eq_append_take, hA, List.take_of_length_le (by omega)]
      simp
    have h2 : ∃ x, (ctx.buffer.take ctx.buffer_len ++ 0x06 ::
        ctx.buffer.drop (ctx.buffer_len + 1)).drop 135 = [x] := by
      have hlen : ((ctx.buffer.take ctx.buffer_len ++ 0x06 ::
          ctx.buffer.drop (ctx.buffer_len + 1)).drop 135).length = 1 := by
        simp only [List.length_drop, List.length_append, List.length_cons, hA, hb]
        omega
      exact List.length_eq_one.mp hlen
    obtain ⟨x, hx⟩ := h2
    rw [h1, hx]
    have e : 135 - (ctx.buffer_len + 1) = 134 - ctx.buffer_len := by omega
    rw [e]
    have h135 : (ctx.buffer.take ctx.buffer_len ++ [0x06] ++
        List.replicate (134 - ctx.buffer_len) 0).length = 135 := by
      simp only [List.length_append, List.length_replicate, hA, List.length_singleton]
      omega
    exact set_at_append_length _ [] x 0x80 135 h135
  · intro w hw
    unfold sha3_256_avx2_final_writes at hw
    simp only [hpad, List.mem_append, List.mem_singleton, List.mem_map] at hw
    rcases hw with (rfl | ⟨i, hi, rfl⟩) | rfl
    · show ctx.buffer_len < 136
      omega
    · have := sha3_zero_pad_writes_lt _ _ i hi
      show i < 136
      omega
    · show 135 < 136
      omega

theorem sha3_256_avx2_final_block_full (ctx : sha3_256_avx2_ctx) (hb : ctx.buffer.length = 136)
    (hl : ctx.buffer_len = 135) :
    sha3_256_avx2_final_block ctx = ctx.buffer.take 135 ++ [0x06] ∧
    sha3_256_avx2_final_writes ctx = [(135, 0x06), (136, 0x80)] := by
  have hpad : sha3_zero_pad 136 (ctx.buffer.set 135 0x06) 136 =
      (ctx.buffer.set 135 0x06, 136) := by
    simp [sha3_zero_pad]
  have hw : sha3_zero_pad_writes 136 136 = [] := by
    simp [sha3_zero_pad_writes]
  have hset : ctx.buffer.set 135 0x06 = ctx.buffer.take 135 ++ [0x06] := by
    rw [set_at_take_length ctx.buffer 135 0x06 (by omega),
      List.drop_eq_nil_of_le (by omega)]
  constructor
  · unfold sha3_256_avx2_final_block
    simp only [hl, hpad]
    rw [hset]
    apply List.set_eq_of_length_le
    simp only [List.length_append, List.length_take, List.length_singleton, hb]
    omega
  · unfold sha3_256_avx2_final_writes
    simp only [hl, hpad, hw]
    rfl

theorem sha3_ctx_ok_chunks :
    ∀ (chunks : List (List Nat)) (ctx : sha3_256_avx2_ctx), sha3_ctx_ok ctx →
      sha3_ctx_ok (chunks.foldl sha3_256_avx2_update ctx) := by
  intro chunks
  induction chunks with
  | nil => intro ctx h; exact h
  | cons d rest ih =>
    intro ctx h
    exact ih _ (sha3_256_avx2_update_ok d.length d ctx h)

/-! ### The flag `mining_interrupted` of `pow_avx2.c` is never cleared -/

theorem mining_threads_step_interrupted (repo : Repo) (sha3_avx2_available : Bool)
    (thread_data : List mining_thread_data) (st : mining_threads) (e : sched_event)
    (h : st.shared.mining_interrupted = true ∧ st.shared.found = false) :
    (mining_threads_step repo sha3_avx2_available thread_data st e).shared.mining_interrupted
        = true ∧
    (mining_threads_step repo sha3_avx2_available thread_data st e).shared.found = false := by
  cases e with
  | sigint => exact ⟨rfl, h.2⟩
  | run i =>
    simp only [mining_threads_step]
    split
    · rename_i data nonce _ _
      have hp : mining_worker_avx2_pass repo sha3_avx2_available data st.shared nonce =
          (st.shared, none) := by
        unfold mining_worker_avx2_pass
        simp [h.1]
      simp only [hp]
      exact h
    · exact h

theorem mining_threads_run_interrupted (repo : Repo) (sha3_avx2_available : Bool)
    (thread_data : List mining_thread_data) :
    ∀ (schedule : List sched_event) (st : mining_threads),
      st.shared.mining_interrupted = true ∧ st.shared.found = false →
      (mining_threads_run repo sha3_avx2_available thread_data st schedule).shared.mining_interrupted
          = true ∧
      (mining_threads_run repo sha3_avx2_available thread_data st schedule).shared.found
          = false := by
  intro schedule
  induction schedule with
  | nil => intro st h; exact h
  | cons e rest ih =>
    intro st h
    unfold mining_threads_run
    simp only [List.foldl_cons]
    exact ih _ (mining_threads_step_interrupted repo sha3_avx2_available thread_data st e h)

theorem mine_pow_commit_avx2_signals_after (repo : Repo) (wfuel fuel : Nat)
    (schedule : List sched_event) (signals : signal_state)
    (tree_oid : List Nat) (parent_oid : Option (List Nat))
    (author committer message : List Char) (type : commit_type) (difficulty : Nat)
    (result_oid : List Nat) (pow_out : Option pow_data) (out : avx2_result × signal_state)
    (hrun : mine_pow_commit_avx2_signals repo true wfuel fuel schedule signals tree_oid
      parent_oid author committer message type difficulty result_oid pow_out = some out) :
    out.2.sigint = sighandler.handle_interrupt ∧
    (signals.mining_interrupted = true →
      out.2.mining_interrupted = true ∧ out.1.result.ret = -1 ∧ out.1.result.written = []) := by
  unfold mine_pow_commit_avx2_signals at hrun
  split at hrun
  · simp at hrun
  · rename_i res hres
    simp only [not_true_eq_false, if_false, Option.some.injEq] at hrun
    subst hrun
    refine ⟨rfl, fun hflag => ?_⟩
    unfold mine_pow_commit_avx2 at hres
    simp only [not_true_eq_false, if_false] at hres
    split at hres
    · simp at hres
    · rename_i pw _
      split at hres
      · simp only [Option.some.injEq] at hres
        subst hres
        have hinv := mining_threads_run_interrupted repo true
          (mine_pow_commit_avx2_thread_data
            (mine_pow_commit_avx2_base tree_oid parent_oid author committer message type
              difficulty pw).1
            (mine_pow_commit_avx2_base tree_oid parent_oid author committer message type
              difficulty pw).2 difficulty) schedule
          { shared := { found := false, result_nonce := 0, result_hash := List.replicate 32 0,
                        mining_interrupted := signals.mining_interrupted },
            nonces := (mine_pow_commit_avx2_thread_data
              (mine_pow_commit_avx2_base tree_oid parent_oid author committer message type
                difficulty pw).1
              (mine_pow_commit_avx2_base tree_oid parent_oid author committer message type
                difficulty pw).2 difficulty).map fun d => some d.start_nonce }
          ⟨hflag, rfl⟩
        refine ⟨hinv.1, ?_, ?_⟩
        · simp only [mine_pow_commit_avx2_finish, hinv.2]
          simp
        · simp only [mine_pow_commit_avx2_finish, hinv.2]
          simp
      · simp at hres

theorem mine_pow_commit_avx2_signals_of_run (repo : Repo) (wfuel fuel : Nat)
    (schedule : List sched_event) (signals : signal_state) (flag : Bool)
    (tree_oid : List Nat) (parent_oid : Option (List Nat))
    (author committer message : List Char) (type : commit_type) (difficulty : Nat)
    (result_oid : List Nat) (pow_out : Option pow_data) (res : avx2_result)
    (hf : signals.mining_interrupted = flag)
    (hrun : mine_pow_commit_avx2 repo true wfuel fuel schedule flag tree_oid parent_oid author
      committer message type difficulty result_oid pow_out = some res) :
    mine_pow_commit_avx2_signals repo true wfuel fuel schedule signals tree_oid parent_oid
        author committer message type difficulty result_oid pow_out =
      some (res, ⟨sighandler.handle_interrupt, res.mining_interrupted⟩) := by
  subst hf
  unfold mine_pow_commit_avx2_signals
  rw [hrun]
  rfl

/-! ### Evaluations shared by several worked examples -/

theorem sha3_256_avx2_nil_value :
    sha3_256_avx2 [] = [33, 4, 165, 207, 137, 89, 179, 89, 204, 220, 88, 21, 58, 37,
      182, 210, 196, 171, 49, 134, 148, 121, 3, 186, 234, 234, 95, 134, 28, 66, 93, 74] := by
  decide!

theorem fips202_sha3_256_nil_value : fips202_sha3_256 [] = empty_blob_oid_sha3 := by
  decide!

theorem sha3_256_avx2_nil_state :
    sha3_256_avx2 [] =
      (((keccak_f_1600_avx2 example_empty_state).take 4).map store64).flatten := rfl

set_option maxRecDepth 100000 in
theorem fips202_sha3_256_nil_state :
    fips202_sha3_256 [] =
      (((fips202_keccak_f example_empty_state).take 4).map store64).flatten := rfl

theorem example_avx2_run_value :
    mine_pow_commit_avx2 sha3_repo true 0 0
        [sched_event.run 0, sched_event.run 1, sched_event.run 2, sched_event.run 3] false
        empty_tree_oid_sha3 none example_author example_committer "hello 1500987".toList
        commit_type.COMMIT_TYPE_NORMAL 20 [] (some ⟨0, 0, 0, 0⟩)
      = some example_avx2_result := by
  decide!

theorem example_tag_hash_value :
    sha3_repo.hash_object_file object_type.OBJ_TAG example_tag = example_tag_oid := by
  decide!

theorem readonly_sha3_repo_hash :
    readonly_sha3_repo.hash_object_file = sha3_repo.hash_object_file := rfl

theorem mine_pow_tag_hit (repo : Repo) (fuel : Nat) (object_oid : List Nat)
    (type tag : List Char) (tagger : Option (List Char)) (message : List Char)
    (tag_type : Option (List Char)) (difficulty : Nat) (pow_out : Option pow_data)
    (tag_buf : List Char) (oid : List Nat) (hd : GIT3_MIN_DIFFICULTY ≤ difficulty)
    (hb : mine_pow_tag_buf object_oid type tag tagger message tag_type 0 = tag_buf)
    (hh : repo.hash_object_file object_type.OBJ_TAG tag_buf = oid)
    (hc : check_pow_difficulty (oid_to_hex oid) difficulty = true) :
    mine_pow_tag repo (fuel + 1) object_oid type tag tagger message tag_type difficulty
        pow_out =
      some { ret := 0, result_oid := oid,
             pow_out := pow_out.map fun p =>
               { p with nonce := 0, difficulty := difficulty,
                        cumulative_work := calculate_hash_work (oid_to_hex oid) },
             written := [(object_type.OBJ_TAG, tag_buf)] } := by
  unfold mine_pow_tag
  rw [if_neg (by omega)]
  simp only [mine_pow_tag_loop, write_object_file, hb, hh, hc, if_true]

/-! ## Claims C1 to C10 -/

/-- C1: whenever `mine_pow_commit` returns 0, there is a nonce `n` (the one
recorded in `*pow_out` when a record is requested) such that the returned
identifier is the object hash of the commit serialization built with `n`,
those very bytes are the single object passed to the store write, and
`check_pow_difficulty` holds for the hex form of the returned identifier, which
for a 32-byte identifier means at least `difficulty` leading zero bits. -/
theorem mine_pow_commit_success_oid (repo : Repo) (wfuel fuel : Nat) (tree_oid : List Nat)
    (parent_oid : Option (List Nat)) (author committer message : List Char)
    (type : commit_type) (difficulty : Nat) (pow_out : Option pow_data) (res : mine_result)
    (hrun : mine_pow_commit repo wfuel fuel tree_oid parent_oid author committer message type
      difficulty pow_out = some res)
    (hret : res.ret = 0) :
    ∃ n pcw, n < 2 ^ 64 ∧
      (match parent_oid with
        | some p => calculate_total_work repo wfuel p
        | none => some 0) = some pcw ∧
      res.pow_out.map (fun p => p.nonce) = pow_out.map (fun _ => n) ∧
      res.result_oid = repo.hash_object_file object_type.OBJ_COMMIT
        (mine_pow_commit_buf (mine_pow_commit_header tree_oid parent_oid author committer)
          message type difficulty pcw n) ∧
      res.written = [(object_type.OBJ_COMMIT,
        mine_pow_commit_buf (mine_pow_commit_header tree_oid parent_oid author committer)
          message type difficulty pcw n)] ∧
      check_pow_difficulty (oid_to_hex res.result_oid) difficulty = true ∧
      (IsDigest res.result_oid → difficulty ≤ leading_zero_bits res.result_oid) := by
  unfold mine_pow_commit at hrun
  simp only at hrun
  cases hpw : (match parent_oid with
      | some p => calculate_total_work repo wfuel p
      | none => some 0) with
  | none => rw [hpw] at hrun; simp at hrun
  | some pcw =>
    rw [hpw] at hrun
    simp only at hrun
    obtain ⟨n, hn, h1, h2, _, h4, h5⟩ :=
      mine_pow_commit_loop_success repo _ message type difficulty pcw pow_out fuel 0 res
        (by norm_num) hrun hret
    refine ⟨n, pcw, hn, rfl, ?_, h1, h2, h4, ?_⟩
    · rw [h5]
      cases pow_out <;> rfl
    · intro hdig
      rw [check_pow_difficulty_hex _ hdig] at h4
      simpa using h4

/-- Witness for C1: on the checksum repository, mining `hello` on the empty
tree at difficulty 24 returns 0 with nonce 1. -/
theorem mine_pow_commit_success_oid_witness :
    mine_pow_commit checksum_repo 0 8 empty_tree_oid_sha3 none "a".toList "c".toList
        "hello".toList commit_type.COMMIT_TYPE_NORMAL 24 (some ⟨0, 0, 0, 0⟩)
      = some example_root_result ∧
    example_root_result.ret = 0 ∧
    ∃ n pcw, n < 2 ^ 64 ∧
      (match (none : Option (List Nat)) with
        | some p => calculate_total_work checksum_repo 0 p
        | none => some 0) = some pcw ∧
      example_root_result.pow_out.map (fun p => p.nonce)
        = (some (⟨0, 0, 0, 0⟩ : pow_data)).map (fun _ => n) ∧
      example_root_result.result_oid = checksum_repo.hash_object_file object_type.OBJ_COMMIT
        (mine_pow_commit_buf
          (mine_pow_commit_header empty_tree_oid_sha3 none "a".toList "c".toList)
          "hello".toList commit_type.COMMIT_TYPE_NORMAL 24 pcw n) ∧
      example_root_result.written = [(object_type.OBJ_COMMIT,
        mine_pow_commit_buf
          (mine_pow_commit_header empty_tree_oid_sha3 none "a".toList "c".toList)
          "hello".toList commit_type.COMMIT_TYPE_NORMAL 24 pcw n)] ∧
      check_pow_difficulty (oid_to_hex example_root_result.result_oid) 24 = true ∧
      (IsDigest example_root_result.result_oid →
        24 ≤ leading_zero_bits example_root_result.result_oid) :=
  ⟨by decide!, by decide!,
    mine_pow_commit_success_oid checksum_repo 0 8 empty_tree_oid_sha3 none "a".toList
      "c".toList "hello".toList commit_type.COMMIT_TYPE_NORMAL 24 (some ⟨0, 0, 0, 0⟩)
      example_root_result (by decide!) (by decide!)⟩

/-- C2, the code at a failing input: on a repository whose identifiers are
SHA3-256 object hashes, with the CPU probe positive, mining the commit `hello
1500987` on the empty tree at difficulty 20 succeeds when thread 0 runs first.
The digest the worker tested, `sha3_256_avx2` of the commit bytes, has 20
leading zero bits; the identifier returned in `*result_oid`, under which the
store wrote those bytes, is a different digest with no leading zero bit, and
`check_pow_difficulty` fails for it. -/
theorem mine_pow_commit_avx2_returns_untested_oid :
    mine_pow_commit_avx2 sha3_repo true 0 0
        [sched_event.run 0, sched_event.run 1, sched_event.run 2, sched_event.run 3] false
        empty_tree_oid_sha3 none example_author example_committer "hello 1500987".toList
        commit_type.COMMIT_TYPE_NORMAL 20 [] (some ⟨0, 0, 0, 0⟩)
      = some example_avx2_result ∧
    example_avx2_result.result.ret = 0 ∧
    example_avx2_result.joined.map (fun sh => sh.result_hash) = some example_avx2_tested ∧
    check_difficulty_avx2 example_avx2_tested 20 = true ∧
    example_avx2_result.result.result_oid = example_avx2_stored ∧
    example_avx2_stored ≠ example_avx2_tested ∧
    leading_zero_bits example_avx2_stored = 0 ∧
    check_pow_difficulty (oid_to_hex example_avx2_result.result.result_oid) 20 = false := by
  refine ⟨example_avx2_run_value, by decide!, by decide!, by decide!, by decide!, by decide!,
    by decide!, by decide!⟩

/-- C3: for every commit template (C strings), 32-bit difficulty, 64-bit parent
work and 64-bit nonce `n`, the bytes `mine_pow_commit_optimized` hashes in the
pass for `n` and the bytes every worker of the AVX2 miner hashes for `n` both
equal the bytes `mine_pow_commit` hashes for `n`; and the final object
`mine_pow_commit_avx2` builds for a winning nonce `n` equals the bytes its
workers hashed for `n`. -/
theorem mining_variants_hash_same_bytes (tree_oid : List Nat)
    (parent_oid : Option (List Nat)) (author committer message : List Char)
    (type : commit_type) (difficulty parent_work n : Nat)
    (ha : IsCString author) (hc : IsCString committer) (hm : IsCString message)
    (hn : n < 2 ^ 64) (hd : difficulty < 2 ^ 32) (hp : parent_work < 2 ^ 64) :
    mine_pow_commit_optimized_hashed tree_oid parent_oid author committer message type
        difficulty parent_work n =
      mine_pow_commit_buf (mine_pow_commit_header tree_oid parent_oid author committer)
        message type difficulty parent_work n ∧
    (∀ data ∈ mine_pow_commit_avx2_thread_data
        (mine_pow_commit_avx2_base tree_oid parent_oid author committer message type
          difficulty parent_work).1
        (mine_pow_commit_avx2_base tree_oid parent_oid author committer message type
          difficulty parent_work).2 difficulty,
      mining_worker_avx2_buf data n =
        mine_pow_commit_buf (mine_pow_commit_header tree_oid parent_oid author committer)
          message type difficulty parent_work n ∧
      mine_pow_commit_avx2_final_buf
          (mine_pow_commit_avx2_base tree_oid parent_oid author committer message type
            difficulty parent_work).1
          (mine_pow_commit_avx2_base tree_oid parent_oid author committer message type
            difficulty parent_work).2 n =
        mining_worker_avx2_buf data n) := by
  rw [mine_pow_commit_buf_split, mine_pow_commit_avx2_base_split]
  refine ⟨mine_pow_commit_optimized_hashed_eq tree_oid parent_oid author committer message
    type difficulty parent_work n ha hc hm hn hd hp, ?_⟩
  intro data hdata
  obtain ⟨h1, h2, h3, _⟩ := mine_pow_commit_avx2_thread_data_mem _ _ _ data hdata
  have hw := mining_worker_avx2_buf_eq
    (commit_front tree_oid parent_oid author committer message type)
    (commit_back difficulty parent_work) data n hn h1 h2 h3
  exact ⟨hw, by rw [hw, mine_pow_commit_avx2_final_buf_eq]⟩

/-- Witness for C3: a CLEAN commit with a parent, at difficulty 20, parent work
4129 and nonce 12345; the optimized miner, reaching that nonce after 12345
passes over its buffer, hashes the text shown. -/
theorem mining_variants_hash_same_bytes_witness :
    IsCString "a".toList ∧ IsCString "c".toList ∧ IsCString "hello".toList ∧
    mine_pow_commit_buf (mine_pow_commit_header empty_tree_oid_sha3 (some example_c0)
        "a".toList "c".toList) "hello".toList commit_type.COMMIT_TYPE_CLEAN 20 4129 12345 =
      ("tree 30211ed485c912e5bc285bd0bd8959ddbfb5875cafb0ae28e0abfa1077b2b214\n" ++
       "parent 0401010101010101010101010101010101010101010101010101010101010101\n" ++
       "author a\ncommitter c\n\n[CLEAN] hello\n\n" ++
       "PoW-Nonce: 12345\nPoW-Difficulty: 20\nPoW-Parent-Work: 4129").toList ∧
    (mine_pow_commit_optimized_hashed empty_tree_oid_sha3 (some example_c0) "a".toList
        "c".toList "hello".toList commit_type.COMMIT_TYPE_CLEAN 20 4129 12345 =
      mine_pow_commit_buf (mine_pow_commit_header empty_tree_oid_sha3 (some example_c0)
        "a".toList "c".toList) "hello".toList commit_type.COMMIT_TYPE_CLEAN 20 4129 12345 ∧
    (∀ data ∈ mine_pow_commit_avx2_thread_data
        (mine_pow_commit_avx2_base empty_tree_oid_sha3 (some example_c0) "a".toList
          "c".toList "hello".toList commit_type.COMMIT_TYPE_CLEAN 20 4129).1
        (mine_pow_commit_avx2_base empty_tree_oid_sha3 (some example_c0) "a".toList
          "c".toList "hello".toList commit_type.COMMIT_TYPE_CLEAN 20 4129).2 20,
      mining_worker_avx2_buf data 12345 =
        mine_pow_commit_buf (mine_pow_commit_header empty_tree_oid_sha3 (some example_c0)
          "a".toList "c".toList) "hello".toList commit_type.COMMIT_TYPE_CLEAN 20 4129 12345 ∧
      mine_pow_commit_avx2_final_buf
          (mine_pow_commit_avx2_base empty_tree_oid_sha3 (some example_c0) "a".toList
            "c".toList "hello".toList commit_type.COMMIT_TYPE_CLEAN 20 4129).1
          (mine_pow_commit_avx2_base empty_tree_oid_sha3 (some example_c0) "a".toList
            "c".toList "hello".toList commit_type.COMMIT_TYPE_CLEAN 20 4129).2 12345 =
        mining_worker_avx2_buf data 12345)) :=
  ⟨by decide, by decide, by decide, by decide!,
    mining_variants_hash_same_bytes empty_tree_oid_sha3 (some example_c0) "a".toList
      "c".toList "hello".toList commit_type.COMMIT_TYPE_CLEAN 20 4129 12345
      (by decide) (by decide) (by decide) (by norm_num) (by norm_num) (by norm_num)⟩

/-- C4: the bytes `mine_pow_commit` builds for a nonce are, for every nonce, the
serialization of the spec (`tree`, optional `parent`, `author`, `committer`,
empty line, kind marker and message, then the `PoW-Nonce`, `PoW-Difficulty` and
`PoW-Parent-Work` lines, no trailing newline); and on success these bytes, for
the winning nonce, are what was hashed into the returned identifier and the
single object written to the store. -/
theorem mine_pow_commit_serialization (repo : Repo) (wfuel fuel : Nat) (tree_oid : List Nat)
    (parent_oid : Option (List Nat)) (author committer message : List Char)
    (type : commit_type) (difficulty : Nat) (pow_out : Option pow_data) (res : mine_result)
    (hrun : mine_pow_commit repo wfuel fuel tree_oid parent_oid author committer message type
      difficulty pow_out = some res)
    (hret : res.ret = 0) :
    (∀ pcw n : Nat,
      mine_pow_commit_buf (mine_pow_commit_header tree_oid parent_oid author committer)
          message type difficulty pcw n =
        commit_serialization (oid_to_hex tree_oid) (parent_oid.map oid_to_hex) author
          committer message type n difficulty pcw) ∧
    ∃ n pcw, n < 2 ^ 64 ∧
      (match parent_oid with
        | some p => calculate_total_work repo wfuel p
        | none => some 0) = some pcw ∧
      res.written = [(object_type.OBJ_COMMIT,
        commit_serialization (oid_to_hex tree_oid) (parent_oid.map oid_to_hex) author
          committer message type n difficulty pcw)] ∧
      res.result_oid = repo.hash_object_file object_type.OBJ_COMMIT
        (commit_serialization (oid_to_hex tree_oid) (parent_oid.map oid_to_hex) author
          committer message type n difficulty pcw) := by
  refine ⟨fun pcw n => mine_pow_commit_buf_eq _ _ _ _ _ _ _ _ _, ?_⟩
  unfold mine_pow_commit at hrun
  simp only at hrun
  cases hpw : (match parent_oid with
      | some p => calculate_total_work repo wfuel p
      | none => some 0) with
  | none => rw [hpw] at hrun; simp at hrun
  | some pcw =>
    rw [hpw] at hrun
    simp only at hrun
    obtain ⟨n, hn, h1, h2, _, _, _⟩ :=
      mine_pow_commit_loop_success repo _ message type difficulty pcw pow_out fuel 0 res
        (by norm_num) hrun hret
    rw [mine_pow_commit_buf_eq] at h1 h2
    exact ⟨n, pcw, hn, rfl, h2, h1⟩

/-- Witness for C4: a FREEZE commit with a parent, mined on the checksum
repository; the object written is the text shown. -/
theorem mine_pow_commit_serialization_witness :
    mine_pow_commit checksum_repo 1 8 example_c1 (some example_c0) "ab".toList "c".toList
        "hello".toList commit_type.COMMIT_TYPE_FREEZE 24 none = some example_commit_result ∧
    example_commit_result.ret = 0 ∧
    example_commit_result.written = [(object_type.OBJ_COMMIT,
      ("tree 000f010101010101010101010101010101010101010101010101010101010101\n" ++
       "parent 0401010101010101010101010101010101010101010101010101010101010101\n" ++
       "author ab\ncommitter c\n\n[FREEZE] hello\n\n" ++
       "PoW-Nonce: 2\nPoW-Difficulty: 24\nPoW-Parent-Work: 0").toList)] ∧
    ((∀ pcw n : Nat,
      mine_pow_commit_buf (mine_pow_commit_header example_c1 (some example_c0) "ab".toList
          "c".toList) "hello".toList commit_type.COMMIT_TYPE_FREEZE 24 pcw n =
        commit_serialization (oid_to_hex example_c1) ((some example_c0).map oid_to_hex)
          "ab".toList "c".toList "hello".toList commit_type.COMMIT_TYPE_FREEZE n 24 pcw) ∧
    ∃ n pcw, n < 2 ^ 64 ∧
      (match some example_c0 with
        | some p => calculate_total_work checksum_repo 1 p
        | none => some 0) = some pcw ∧
      example_commit_result.written = [(object_type.OBJ_COMMIT,
        commit_serialization (oid_to_hex example_c1) ((some example_c0).map oid_to_hex)
          "ab".toList "c".toList "hello".toList commit_type.COMMIT_TYPE_FREEZE n 24 pcw)] ∧
      example_commit_result.result_oid = checksum_repo.hash_object_file object_type.OBJ_COMMIT
        (commit_serialization (oid_to_hex example_c1) ((some example_c0).map oid_to_hex)
          "ab".toList "c".toList "hello".toList commit_type.COMMIT_TYPE_FREEZE n 24 pcw)) :=
  ⟨by decide!, by decide!, by decide!,
    mine_pow_commit_serialization checksum_repo 1 8 example_c1 (some example_c0) "ab".toList
      "c".toList "hello".toList commit_type.COMMIT_TYPE_FREEZE 24 none example_commit_result
      (by decide!) (by decide!)⟩

/-- C5: the bytes `mine_pow_tag` builds for a nonce are, for every nonce, the
tag serialization of the spec (`object`, `type`, `tag`, `tagger` only if given,
`tagtype` if and only if a category is given and is not "normal", then an empty
line, the message, an empty line and `PoW-Nonce: <n>` without a trailing
newline); and when the call returns, these bytes, for the winning nonce, are
what was hashed into the returned identifier and the single object written to
the store. -/
theorem mine_pow_tag_serialization (repo : Repo) (fuel : Nat) (object_oid : List Nat)
    (type tag : List Char) (tagger : Option (List Char)) (message : List Char)
    (tag_type : Option (List Char)) (difficulty : Nat) (pow_out : Option pow_data)
    (res : mine_result)
    (hrun : mine_pow_tag repo fuel object_oid type tag tagger message tag_type difficulty
      pow_out = some res) :
    (∀ n : Nat,
      mine_pow_tag_buf object_oid type tag tagger message tag_type n =
        tag_serialization (oid_to_hex object_oid) type tag tagger message tag_type n) ∧
    ∃ n, n < 2 ^ 64 ∧
      res.written = [(object_type.OBJ_TAG,
        tag_serialization (oid_to_hex object_oid) type tag tagger message tag_type n)] ∧
      res.result_oid = repo.hash_object_file object_type.OBJ_TAG
        (tag_serialization (oid_to_hex object_oid) type tag tagger message tag_type n) := by
  refine ⟨fun n => mine_pow_tag_buf_eq _ _ _ _ _ _ _, ?_⟩
  unfold mine_pow_tag at hrun
  obtain ⟨_, n, hn, h1, h2, _, _⟩ :=
    mine_pow_tag_loop_result repo object_oid type tag tagger message tag_type _ pow_out
      fuel 0 res (by norm_num) hrun
  rw [mine_pow_tag_buf_eq] at h1 h2
  exact ⟨n, hn, h2, h1⟩

/-- Witness for C5: a tag with a tagger and the category `release`, mined on
the checksum repository; the object written is the text shown. -/
theorem mine_pow_tag_serialization_witness :
    mine_pow_tag checksum_repo 8 example_c1 "commit".toList "v1".toList (some "t".toList)
        "msg".toList (some "release".toList) 24 (some ⟨7, 7, 7, 7⟩) = some example_tag_result ∧
    example_tag_result.written = [(object_type.OBJ_TAG,
      ("object 000f010101010101010101010101010101010101010101010101010101010101\n" ++
       "type commit\ntag v1\ntagger t\ntagtype release\n\nmsg\n\nPoW-Nonce: 3").toList)] ∧
    ((∀ n : Nat,
      mine_pow_tag_buf example_c1 "commit".toList "v1".toList (some "t".toList) "msg".toList
          (some "release".toList) n =
        tag_serialization (oid_to_hex example_c1) "commit".toList "v1".toList
          (some "t".toList) "msg".toList (some "release".toList) n) ∧
    ∃ n, n < 2 ^ 64 ∧
      example_tag_result.written = [(object_type.OBJ_TAG,
        tag_serialization (oid_to_hex example_c1) "commit".toList "v1".toList
          (some "t".toList) "msg".toList (some "release".toList) n)] ∧
      example_tag_result.result_oid = checksum_repo.hash_object_file object_type.OBJ_TAG
        (tag_serialization (oid_to_hex example_c1) "commit".toList "v1".toList
          (some "t".toList) "msg".toList (some "release".toList) n)) :=
  ⟨by decide!, by decide!,
    mine_pow_tag_serialization checksum_repo 8 example_c1 "commit".toList "v1".toList
      (some "t".toList) "msg".toList (some "release".toList) 24 (some ⟨7, 7, 7, 7⟩)
      example_tag_result (by decide!)⟩

/-- C6: for every 32-byte digest `d` and every required difficulty `k`,
`check_pow_difficulty (to_hex d) k` is true exactly when `k` is at most the
reference count of leading zero bits of `d`; a digest beginning `0x00 0x0f` has
count 12 and a digest beginning `0x04` has count 5. -/
theorem check_pow_difficulty_iff_leading_zero_bits (d : List Nat) (hd : IsDigest d)
    (k : Nat) :
    (check_pow_difficulty (oid_to_hex d) k = true ↔ k ≤ leading_zero_bits d) ∧
    (∀ rest : List Nat, leading_zero_bits (0x00 :: 0x0f :: rest) = 12) ∧
    (∀ rest : List Nat, leading_zero_bits (0x04 :: rest) = 5) := by
  refine ⟨?_, ?_, ?_⟩
  · rw [check_pow_difficulty_hex d hd k]; simp
  · intro rest; simp [leading_zero_bits, floor_log2, Nat.findGreatest]
  · intro rest; simp [leading_zero_bits, floor_log2, Nat.findGreatest]

/-- Witness for C6: the digest `example_c1`, which begins `0x00 0x0f`, at
difficulty 12. -/
theorem check_pow_difficulty_iff_leading_zero_bits_witness :
    IsDigest example_c1 ∧ check_pow_difficulty (oid_to_hex example_c1) 12 = true ∧
    check_pow_difficulty (oid_to_hex example_c1) 13 = false ∧
    ((check_pow_difficulty (oid_to_hex example_c1) 12 = true ↔
        12 ≤ leading_zero_bits example_c1) ∧
      (∀ rest : List Nat, leading_zero_bits (0x00 :: 0x0f :: rest) = 12) ∧
      (∀ rest : List Nat, leading_zero_bits (0x04 :: rest) = 5)) :=
  ⟨by decide, by decide, by decide,
    check_pow_difficulty_iff_leading_zero_bits example_c1 (by decide) 12⟩

/-- C7: the byte-level and the hex-level difficulty checks agree: for every
32-byte digest `d` and every difficulty `k`, `check_difficulty_avx2 d k` is true
if and only if `check_pow_difficulty (to_hex d) k` is true. -/
theorem check_difficulty_avx2_iff_check_pow_difficulty (d : List Nat) (hd : IsDigest d)
    (k : Nat) :
    check_difficulty_avx2 d k = true ↔ check_pow_difficulty (oid_to_hex d) k = true := by
  rw [check_difficulty_avx2_eq d hd k, check_pow_difficulty_hex d hd k]

/-- Witness for C7: the digest `example_c0`, which begins `0x04`, at difficulty
5 (met by both checks). -/
theorem check_difficulty_avx2_iff_check_pow_difficulty_witness :
    IsDigest example_c0 ∧ check_difficulty_avx2 example_c0 5 = true ∧
    (check_difficulty_avx2 example_c0 5 = true ↔
      check_pow_difficulty (oid_to_hex example_c0) 5 = true) :=
  ⟨by decide, by decide,
    check_difficulty_avx2_iff_check_pow_difficulty example_c0 (by decide) 5⟩

/-- C8: difficulty is monotone: for all difficulties `k' ≤ k`, every hash
string that meets `k` under `check_pow_difficulty` meets `k'`, and every
32-byte digest that meets `k` under `check_difficulty_avx2` meets `k'`. -/
theorem difficulty_monotone (k k' : Nat) (hk : k' ≤ k) :
    (∀ h : List Char, check_pow_difficulty h k = true → check_pow_difficulty h k' = true) ∧
    (∀ d : List Nat, IsDigest d →
      check_difficulty_avx2 d k = true → check_difficulty_avx2 d k' = true) := by
  constructor
  · intro h
    unfold check_pow_difficulty
    cases check_pow_difficulty_loop h 0 with
    | none => simp
    | some z => simp only [decide_eq_true_eq]; omega
  · intro d hd
    rw [check_difficulty_avx2_eq d hd k, check_difficulty_avx2_eq d hd k']
    simp only [decide_eq_true_eq]; omega

/-- Witness for C8: difficulties 5 and 12; `example_c1` meets 12, hence 5. -/
theorem difficulty_monotone_witness :
    5 ≤ 12 ∧ check_pow_difficulty (oid_to_hex example_c1) 12 = true ∧
    ((∀ h : List Char, check_pow_difficulty h 12 = true → check_pow_difficulty h 5 = true) ∧
    (∀ d : List Nat, IsDigest d →
      check_difficulty_avx2 d 12 = true → check_difficulty_avx2 d 5 = true)) :=
  ⟨by decide, by decide, difficulty_monotone 12 5 (by decide)⟩

/-- Counterexample for C9: the all-zero digest has 256 leading zero bits, and
`calculate_hash_work`, whose result is a 64-bit value, does not return `2^256`
for it. -/
theorem calculate_hash_work_zero_digest :
    IsDigest zero_digest ∧ leading_zero_bits zero_digest = 256 ∧
    calculate_hash_work (oid_to_hex zero_digest) < 2 ^ 64 ∧
    calculate_hash_work (oid_to_hex zero_digest) ≠ 2 ^ leading_zero_bits zero_digest := by
  refine ⟨by decide, by decide, calculate_hash_work_lt _, ?_⟩
  have h1 : leading_zero_bits zero_digest = 256 := by decide
  have h2 := calculate_hash_work_lt (oid_to_hex zero_digest)
  rw [h1]
  intro h
  rw [h] at h2
  norm_num at h2

/-- C9, amended: for every 32-byte digest `d` with `z < 64` leading zero bits,
`calculate_hash_work (to_hex d)` returns `2^z` (1 when `z = 0`); it returns 4096
for a digest beginning `0x00 0x0f` and 32 for a digest beginning `0x04`. -/
theorem calculate_hash_work_eq_two_pow (d : List Nat) (hd : IsDigest d)
    (hz : leading_zero_bits d < 64) :
    calculate_hash_work (oid_to_hex d) = 2 ^ leading_zero_bits d ∧
    (leading_zero_bits d = 0 → calculate_hash_work (oid_to_hex d) = 1) ∧
    (∀ rest : List Nat, IsDigest (0x00 :: 0x0f :: rest) →
      calculate_hash_work (oid_to_hex (0x00 :: 0x0f :: rest)) = 4096) ∧
    (∀ rest : List Nat, IsDigest (0x04 :: rest) →
      calculate_hash_work (oid_to_hex (0x04 :: rest)) = 32) := by
  refine ⟨calculate_hash_work_hex d hd hz, ?_, ?_, ?_⟩
  · intro h0
    rw [calculate_hash_work_hex d hd hz, h0]; rfl
  · intro rest hr
    have hl : leading_zero_bits (0x00 :: 0x0f :: rest) = 12 := by
      simp [leading_zero_bits, floor_log2, Nat.findGreatest]
    rw [calculate_hash_work_hex _ hr (by rw [hl]; norm_num), hl]; rfl
  · intro rest hr
    have hl : leading_zero_bits (0x04 :: rest) = 5 := by
      simp [leading_zero_bits, floor_log2, Nat.findGreatest]
    rw [calculate_hash_work_hex _ hr (by rw [hl]; norm_num), hl]; rfl

/-- Witness for C9: `example_c1` has 12 leading zero bits and work 4096. -/
theorem calculate_hash_work_eq_two_pow_witness :
    IsDigest example_c1 ∧ leading_zero_bits example_c1 < 64 ∧
    calculate_hash_work (oid_to_hex example_c1) = 4096 ∧
    (calculate_hash_work (oid_to_hex example_c1) = 2 ^ leading_zero_bits example_c1 ∧
    (leading_zero_bits example_c1 = 0 → calculate_hash_work (oid_to_hex example_c1) = 1) ∧
    (∀ rest : List Nat, IsDigest (0x00 :: 0x0f :: rest) →
      calculate_hash_work (oid_to_hex (0x00 :: 0x0f :: rest)) = 4096) ∧
    (∀ rest : List Nat, IsDigest (0x04 :: rest) →
      calculate_hash_work (oid_to_hex (0x04 :: rest)) = 32)) :=
  ⟨by decide, by decide, by decide,
    calculate_hash_work_eq_two_pow example_c1 (by decide) (by decide)⟩

/-- C10: for every store and every first-parent chain `C_0, .., C_r` in it
(all commits present, the last one without parent), `calculate_total_work C_0`
returns, given fuel for the `r + 1` calls, the sum of the works of the `C_i`
as a 64-bit sum; any other store with the same first-parent chain gives the same
value, whatever the other parents are; for a chain `C0 ← C1 ← C2` the value is
`work C0 + work C1 + work C2`. -/
theorem calculate_total_work_first_parent_sum (repo repo2 : Repo) (chain : List (List Nat))
    (fuel : Nat) (h : FirstParentChain repo chain) (h2 : FirstParentChain repo2 chain)
    (hf : chain.length ≤ fuel) :
    calculate_total_work repo fuel (chain.headD []) =
      some ((chain.map fun c => calculate_hash_work (oid_to_hex c)).sum % 2 ^ 64) ∧
    calculate_total_work repo2 fuel (chain.headD []) =
      calculate_total_work repo fuel (chain.headD []) ∧
    (∀ c0 c1 c2 : List Nat, chain = [c2, c1, c0] →
      calculate_total_work repo fuel c2 =
        some ((calculate_hash_work (oid_to_hex c0) + calculate_hash_work (oid_to_hex c1) +
          calculate_hash_work (oid_to_hex c2)) % 2 ^ 64)) := by
  have e1 := calculate_total_work_chain repo chain fuel h hf
  have e2 := calculate_total_work_chain repo2 chain fuel h2 hf
  refine ⟨e1, by rw [e1, e2], ?_⟩
  intro c0 c1 c2 hc
  subst hc
  simp only [List.headD_cons, List.map_cons, List.map_nil, List.sum_cons, List.sum_nil,
    Nat.add_zero] at e1
  rw [e1]
  congr 2
  omega

/-- Witness for C10: the chain `example_c0 ← example_c1 ← example_c2` in two
stores that differ in the second parent of the merge `example_c2`; the total is
`32 + 4096 + 1 = 4129` in both. -/
theorem calculate_total_work_first_parent_sum_witness :
    FirstParentChain example_chain_repo [example_c2, example_c1, example_c0] ∧
    FirstParentChain example_chain_repo_alt [example_c2, example_c1, example_c0] ∧
    calculate_total_work example_chain_repo 3 example_c2 = some 4129 ∧
    (calculate_total_work example_chain_repo 3 ([example_c2, example_c1, example_c0].headD []) =
      some (([example_c2, example_c1, example_c0].map
        fun c => calculate_hash_work (oid_to_hex c)).sum % 2 ^ 64) ∧
    calculate_total_work example_chain_repo_alt 3
        ([example_c2, example_c1, example_c0].headD []) =
      calculate_total_work example_chain_repo 3
        ([example_c2, example_c1, example_c0].headD []) ∧
    (∀ c0 c1 c2 : List Nat, [example_c2, example_c1, example_c0] = [c2, c1, c0] →
      calculate_total_work example_chain_repo 3 c2 =
        some ((calculate_hash_work (oid_to_hex c0) + calculate_hash_work (oid_to_hex c1) +
          calculate_hash_work (oid_to_hex c2)) % 2 ^ 64))) :=
  have hc : FirstParentChain example_chain_repo [example_c2, example_c1, example_c0] :=
    ⟨⟨⟨[example_c1, example_side]⟩, by decide, by decide⟩,
      ⟨⟨[example_c0]⟩, by decide, by decide⟩, ⟨⟨[]⟩, by decide, by decide⟩⟩
  have hc2 : FirstParentChain example_chain_repo_alt [example_c2, example_c1, example_c0] :=
    ⟨⟨⟨[example_c1, zero_digest]⟩, by decide, by decide⟩,
      ⟨⟨[example_c0]⟩, by decide, by decide⟩, ⟨⟨[]⟩, by decide, by decide⟩⟩
  ⟨hc, hc2, by decide,
    calculate_total_work_first_parent_sum example_chain_repo example_chain_repo_alt
      [example_c2, example_c1, example_c0] 3 hc hc2 (by decide)⟩

/-! ## Claims C11 to C20 -/

/-- C11 (counterexample): `example_broken_repo` lacks `example_c0`, the first
parent of `example_c1`; the walk from `example_c2` still returns a total, 4097,
the work of `example_c2` plus that of `example_c1`, which is what it returns in
a store where `example_c1` is a root commit; started at the missing commit
itself it returns 0. -/
theorem calculate_total_work_ignores_missing_commit :
    example_broken_repo.lookup_commit example_c0 = none ∧
    (∃ cm, example_broken_repo.lookup_commit example_c1 = some cm ∧
      cm.parents.head? = some example_c0) ∧
    calculate_total_work example_broken_repo 3 example_c2 = some 4097 ∧
    calculate_total_work example_cut_repo 3 example_c2 = some 4097 ∧
    calculate_total_work example_broken_repo 3 example_c0 = some 0 :=
  ⟨by decide, ⟨⟨[example_c0]⟩, by decide, by decide⟩, by decide, by decide, by decide⟩

/-- C11 (amended): when the first-parent chain from a commit reaches an
identifier the store cannot look up, `calculate_total_work` reports no failure:
given fuel for the calls, it returns the 64-bit sum of the works of the commits
before the missing one, and 0 when the starting commit itself is missing. -/
theorem calculate_total_work_missing_commit (repo : Repo) (chain : List (List Nat))
    (fuel : Nat) (h : BrokenFirstParentChain repo chain) (hf : chain.length ≤ fuel) :
    calculate_total_work repo fuel (chain.headD []) =
      some ((chain.dropLast.map fun c => calculate_hash_work (oid_to_hex c)).sum % 2 ^ 64) ∧
    (∀ c, chain = [c] → calculate_total_work repo fuel c = some 0) := by
  have e := calculate_total_work_broken_chain repo chain fuel h hf
  refine ⟨e, ?_⟩
  intro c hc
  subst hc
  simpa using e

/-- Witness for C11 (amended): the chain `example_c2, example_c1` followed by
the missing `example_c0` in `example_broken_repo`. -/
theorem calculate_total_work_missing_commit_witness :
    BrokenFirstParentChain example_broken_repo [example_c2, example_c1, example_c0] ∧
    (calculate_total_work example_broken_repo 3
        ([example_c2, example_c1, example_c0].headD []) =
      some ((([example_c2, example_c1, example_c0].dropLast).map
        fun c => calculate_hash_work (oid_to_hex c)).sum % 2 ^ 64) ∧
    (∀ c, [example_c2, example_c1, example_c0] = [c] →
      calculate_total_work example_broken_repo 3 c = some 0)) :=
  have hc : BrokenFirstParentChain example_broken_repo [example_c2, example_c1, example_c0] :=
    ⟨⟨⟨[example_c1, example_side]⟩, by decide, by decide⟩,
      ⟨⟨[example_c0]⟩, by decide, by decide⟩,
      (by decide : example_broken_repo.lookup_commit example_c0 = none)⟩
  ⟨hc, calculate_total_work_missing_commit example_broken_repo
    [example_c2, example_c1, example_c0] 3 hc (by decide)⟩

/-- C12 (counterexample): two runs of `mine_pow_commit` that return 0. On
`example_wide_repo` the returned identifier has 64 leading zero bits and the
record's work is 1, not `2 ^ 64`. On `example_heavy_repo` the parent's cumulative
work and the work are both `2 ^ 63` and the record's cumulative work is 0, not
their sum. -/
theorem mine_pow_commit_record_wraps :
    (mine_pow_commit example_wide_repo 0 1 empty_tree_oid_sha3 none "a".toList "c".toList
        "hello".toList commit_type.COMMIT_TYPE_NORMAL 20 (some ⟨0, 0, 0, 0⟩)).map
      (fun res => (res.ret, res.result_oid, res.pow_out)) =
      some (0, example_wide, some ⟨0, 20, 1, 1⟩) ∧
    leading_zero_bits example_wide = 64 ∧
    (mine_pow_commit example_heavy_repo 1 1 empty_tree_oid_sha3 (some example_heavy)
        "a".toList "c".toList "hello".toList commit_type.COMMIT_TYPE_NORMAL 20
        (some ⟨0, 0, 0, 0⟩)).map
      (fun res => (res.ret, res.result_oid, res.pow_out)) =
      some (0, example_heavy, some ⟨0, 20, 2 ^ 63, 0⟩) ∧
    calculate_total_work example_heavy_repo 1 example_heavy = some (2 ^ 63) ∧
    leading_zero_bits example_heavy = 63 := by
  refine ⟨by decide!, by decide!, by decide!, by decide!, by decide!⟩

/-- C12 (amended): on every successful `mine_pow_commit` with a record
requested, the record holds the winning nonce and the required difficulty; the
returned identifier, when it is a 32-byte one, has `a ≥ difficulty` leading
zero bits; the work is `2 ^ a` when `a < 64`; and the cumulative work is the
parent's cumulative work (0 without parent) plus the work, as a 64-bit sum. -/
theorem mine_pow_commit_result_record (repo : Repo) (wfuel fuel : Nat) (tree_oid : List Nat)
    (parent_oid : Option (List Nat)) (author committer message : List Char)
    (type : commit_type) (difficulty : Nat) (p : pow_data) (res : mine_result)
    (hrun : mine_pow_commit repo wfuel fuel tree_oid parent_oid author committer message type
      difficulty (some p) = some res)
    (hret : res.ret = 0) (hdig : IsDigest res.result_oid) :
    ∃ n pcw record, n < 2 ^ 64 ∧
      (match parent_oid with
        | some parent => calculate_total_work repo wfuel parent
        | none => some 0) = some pcw ∧
      res.pow_out = some record ∧
      res.result_oid = repo.hash_object_file object_type.OBJ_COMMIT
        (mine_pow_commit_buf (mine_pow_commit_header tree_oid parent_oid author committer)
          message type difficulty pcw n) ∧
      record.nonce = n ∧
      record.difficulty = difficulty ∧
      difficulty ≤ leading_zero_bits res.result_oid ∧
      (leading_zero_bits res.result_oid < 64 →
        record.work = 2 ^ leading_zero_bits res.result_oid) ∧
      record.cumulative_work = (pcw + record.work) % 2 ^ 64 := by
  unfold mine_pow_commit at hrun
  simp only at hrun
  split at hrun
  · simp at hrun
  · next pcw hpw0 =>
    obtain ⟨n, hn, h1, _, _, h4, h5⟩ :=
      mine_pow_commit_loop_success repo _ message type difficulty pcw (some p) fuel 0 res
        (by norm_num) hrun hret
    rw [check_pow_difficulty_hex _ hdig] at h4
    refine ⟨n, pcw, _, hn, by cases parent_oid <;> exact hpw0, h5, h1, rfl, rfl,
      by simpa using h4, ?_, rfl⟩
    intro hz
    exact calculate_hash_work_hex _ hdig hz

/-- Witness for C12 (amended): mining `hello` on `example_mining_repo` with
parent `example_c1` at difficulty 24 returns 0 with nonce 2, work `2 ^ 31` and
cumulative work `4128 + 2 ^ 31`. -/
theorem mine_pow_commit_result_record_witness :
    mine_pow_commit example_mining_repo 2 8 empty_tree_oid_sha3 (some example_c1) "a".toList
        "c".toList "hello".toList commit_type.COMMIT_TYPE_NORMAL 24 (some ⟨0, 0, 0, 0⟩)
      = some example_child_result ∧
    ∃ n pcw record, n < 2 ^ 64 ∧
      (match some example_c1 with
        | some parent => calculate_total_work example_mining_repo 2 parent
        | none => some 0) = some pcw ∧
      example_child_result.pow_out = some record ∧
      example_child_result.result_oid =
        example_mining_repo.hash_object_file object_type.OBJ_COMMIT
          (mine_pow_commit_buf
            (mine_pow_commit_header empty_tree_oid_sha3 (some example_c1) "a".toList "c".toList)
            "hello".toList commit_type.COMMIT_TYPE_NORMAL 24 pcw n) ∧
      record.nonce = n ∧
      record.difficulty = 24 ∧
      24 ≤ leading_zero_bits example_child_result.result_oid ∧
      (leading_zero_bits example_child_result.result_oid < 64 →
        record.work = 2 ^ leading_zero_bits example_child_result.result_oid) ∧
      record.cumulative_work = (pcw + record.work) % 2 ^ 64 :=
  have h : mine_pow_commit example_mining_repo 2 8 empty_tree_oid_sha3 (some example_c1)
        "a".toList "c".toList "hello".toList commit_type.COMMIT_TYPE_NORMAL 24
        (some ⟨0, 0, 0, 0⟩) = some example_child_result := by decide!
  ⟨h,
    mine_pow_commit_result_record example_mining_repo 2 8 empty_tree_oid_sha3
      (some example_c1) "a".toList "c".toList "hello".toList commit_type.COMMIT_TYPE_NORMAL 24
      ⟨0, 0, 0, 0⟩ example_child_result h (by decide!) (by decide!)⟩

/-- C13: whenever `mine_pow_tag` returns with a record requested, the record's
`work` field holds what it held before the call, whatever the tag's identifier
is; only `nonce`, `difficulty` and `cumulative_work` are written, the last one
with the work of the identifier. -/
theorem mine_pow_tag_leaves_work_unset (repo : Repo) (fuel : Nat) (object_oid : List Nat)
    (type tag : List Char) (tagger : Option (List Char)) (message : List Char)
    (tag_type : Option (List Char)) (difficulty : Nat) (p : pow_data) (res : mine_result)
    (hrun : mine_pow_tag repo fuel object_oid type tag tagger message tag_type difficulty
      (some p) = some res) :
    res.ret = 0 ∧
    ∃ record, res.pow_out = some record ∧
      record.work = p.work ∧
      record.cumulative_work = calculate_hash_work (oid_to_hex res.result_oid) := by
  unfold mine_pow_tag at hrun
  obtain ⟨h0, n, _, _, _, _, h5⟩ :=
    mine_pow_tag_loop_result repo object_oid type tag tagger message tag_type _ (some p) fuel 0
      res (by norm_num) hrun
  exact ⟨h0, _, h5, rfl, rfl⟩

/-- Witness for C13: on the SHA3-256 repository, mining the tag `v1` of the
empty tree with message `release 83417` at difficulty 20 returns 0 at nonce 0
with the identifier `00000146f7f2...` of 23 leading zero bits; the record's
cumulative work is `2 ^ 23` and its work is still 0. -/
theorem mine_pow_tag_leaves_work_unset_witness :
    mine_pow_tag sha3_repo 1 empty_tree_oid_sha3 "tree".toList "v1".toList
        (some example_tagger) "release 83417".toList none 20 (some ⟨0, 0, 0, 0⟩)
      = some example_sha3_tag_result ∧
    leading_zero_bits example_sha3_tag_result.result_oid = 23 ∧
    example_sha3_tag_result.pow_out.map (fun record => record.work) = some 0 ∧
    (example_sha3_tag_result.ret = 0 ∧
    ∃ record, example_sha3_tag_result.pow_out = some record ∧
      record.work = (⟨0, 0, 0, 0⟩ : pow_data).work ∧
      record.cumulative_work =
        calculate_hash_work (oid_to_hex example_sha3_tag_result.result_oid)) :=
  have h : mine_pow_tag sha3_repo 1 empty_tree_oid_sha3 "tree".toList "v1".toList
        (some example_tagger) "release 83417".toList none 20 (some ⟨0, 0, 0, 0⟩)
      = some example_sha3_tag_result :=
    (mine_pow_tag_hit sha3_repo 0 empty_tree_oid_sha3 "tree".toList "v1".toList
      (some example_tagger) "release 83417".toList none 20 (some ⟨0, 0, 0, 0⟩) example_tag
      example_tag_oid (by decide) (by decide!) example_tag_hash_value (by decide!)).trans
      (by decide!)
  ⟨h, by decide!, by decide!,
    mine_pow_tag_leaves_work_unset sha3_repo 1 empty_tree_oid_sha3 "tree".toList "v1".toList
      (some example_tagger) "release 83417".toList none 20 ⟨0, 0, 0, 0⟩
      example_sha3_tag_result h⟩

/-- C14 (counterexample): on the SHA3-256 repository, `mine_pow_commit` asked
for difficulty 8 returns 0 at nonce 0 for the commit `hello 30`; the returned
identifier `00386937d7c1...` has 10 leading zero bits, fewer than 20, and the
recorded difficulty is 8. -/
theorem mine_pow_commit_below_floor :
    mine_pow_commit sha3_repo 0 1 empty_tree_oid_sha3 none example_author example_committer
        "hello 30".toList commit_type.COMMIT_TYPE_NORMAL 8 (some ⟨0, 0, 0, 0⟩)
      = some example_easy_result ∧
    example_easy_result.ret = 0 ∧
    leading_zero_bits example_easy_result.result_oid = 10 ∧
    example_easy_result.pow_out.map (fun record => record.difficulty) = some 8 := by
  refine ⟨by decide!, by decide!, by decide!, by decide!⟩

/-- C14 (amended): the commit miners use the requested difficulty as given,
also below 20. For every commit template and every requested `difficulty`, a
successful `mine_pow_commit`, `mine_pow_commit_optimized` or
`mine_pow_commit_avx2` has tested an identifier against `difficulty` itself
(for a 32-byte identifier: at least `difficulty` leading zero bits), for
`mine_pow_commit` the returned one, and the record holds `difficulty`. -/
theorem commit_miners_use_requested_difficulty (repo : Repo)
    (lookup_commit_node : List Nat → Bool) (sigint : Nat → Bool) (wfuel fuel : Nat)
    (signals : signal_state) (schedule : List sched_event) (interrupted : Bool)
    (tree_oid : List Nat) (parent_oid : Option (List Nat))
    (author committer message : List Char) (type : commit_type) (difficulty : Nat)
    (result_oid : List Nat) (p : pow_data)
    (ha : IsCString author) (hc : IsCString committer) (hm : IsCString message)
    (hd : difficulty < 2 ^ 32) :
    (∀ res, mine_pow_commit repo wfuel fuel tree_oid parent_oid author committer message type
        difficulty (some p) = some res → res.ret = 0 →
      check_pow_difficulty (oid_to_hex res.result_oid) difficulty = true ∧
      (IsDigest res.result_oid → difficulty ≤ leading_zero_bits res.result_oid) ∧
      res.pow_out.map (fun record => record.difficulty) = some difficulty) ∧
    (∀ res, mine_pow_commit_optimized repo lookup_commit_node sigint wfuel fuel signals
        tree_oid parent_oid author committer message type difficulty result_oid (some p)
        = some res → res.result.ret = 0 →
      (∃ n pw tested, n < 2 ^ 64 ∧
        (match parent_oid with
          | some parent => calculate_total_work repo wfuel parent
          | none => some 0) = some pw ∧
        tested = repo.hash_object_file object_type.OBJ_COMMIT
          (commit_front tree_oid parent_oid author committer message type ++ fmt_dec n ++
            commit_back difficulty pw) ∧
        check_pow_difficulty (oid_to_hex tested) difficulty = true ∧
        (IsDigest tested → difficulty ≤ leading_zero_bits tested)) ∧
      res.result.pow_out.map (fun record => record.difficulty) = some difficulty) ∧
    (∀ res, mine_pow_commit_avx2 repo true wfuel fuel schedule interrupted tree_oid parent_oid
        author committer message type difficulty result_oid (some p) = some res →
        res.result.ret = 0 →
      (∃ sh, res.joined = some sh ∧
        check_difficulty_avx2 sh.result_hash difficulty = true ∧
        (IsDigest sh.result_hash → difficulty ≤ leading_zero_bits sh.result_hash)) ∧
      res.result.pow_out.map (fun record => record.difficulty) = some difficulty) := by
  refine ⟨?_, ?_, ?_⟩
  · intro res hrun hret
    unfold mine_pow_commit at hrun
    simp only at hrun
    split at hrun
    · simp at hrun
    · next pcw hpw0 =>
      obtain ⟨n, hn, h1, _, _, h4, h5⟩ :=
        mine_pow_commit_loop_success repo _ message type difficulty pcw (some p) fuel 0 res
          (by norm_num) hrun hret
      refine ⟨h4, ?_, by rw [h5]; rfl⟩
      intro hdig
      rw [check_pow_difficulty_hex _ hdig] at h4
      simpa using h4
  · intro res hrun hret
    obtain ⟨_, pw, hpw, h2, h3⟩ := mine_pow_commit_optimized_spec repo lookup_commit_node sigint
      wfuel fuel signals tree_oid parent_oid author committer message type difficulty
      result_oid (some p) res ha hc hm hd hrun
    have hne : res.exit_path ≠ optimized_exit.cancelled := by
      intro hx
      have := (h2 hx).1
      rw [hret] at this
      exact absurd this (by decide)
    obtain ⟨_, n, hn, hchk, hsf, hfound⟩ := h3 hne
    have hf : res.exit_path = optimized_exit.found := by
      cases he : res.exit_path with
      | found => rfl
      | cancelled => exact absurd he hne
      | store_failed =>
        have := (hsf he).1
        rw [hret] at this
        exact absurd this (by decide)
    refine ⟨⟨n, pw, _, hn, hpw, rfl, hchk, ?_⟩, by rw [(hfound hf).2]; rfl⟩
    intro hdig
    rw [check_pow_difficulty_hex _ hdig] at hchk
    simpa using hchk
  · intro res hrun hret
    obtain ⟨sh, pw, hj, _, _, hneg, hpos⟩ := mine_pow_commit_avx2_joined repo wfuel fuel schedule
      interrupted tree_oid parent_oid author committer message type difficulty result_oid
      (some p) res hrun
    by_cases hf : sh.found = true ∧ sh.mining_interrupted = false
    · obtain ⟨_, _, _, hchk, hpo⟩ := hpos hf
      refine ⟨⟨sh, hj, hchk, ?_⟩, by rw [hpo hret]; rfl⟩
      intro hdig
      rw [check_difficulty_avx2_eq _ hdig] at hchk
      simpa using hchk
    · have := (hneg hf).2.1
      rw [hret] at this
      exact absurd this (by decide)

/-- Witness for C14 (amended): the three miners asked for difficulty 8 on
`coarse_repo` with the template `hello 333`. All three return 0 at nonce 0 with
difficulty 8 in the record; the identifier the first two tested and return has
12 leading zero bits, the digest the AVX2 worker tested has 9. -/
theorem commit_miners_use_requested_difficulty_witness :
    mine_pow_commit coarse_repo 0 1 empty_tree_oid_sha3 none example_author example_committer
        "hello 333".toList commit_type.COMMIT_TYPE_NORMAL 8 (some ⟨0, 0, 0, 0⟩)
      = some example_low_result ∧
    mine_pow_commit_optimized coarse_repo (fun _ => true) (fun _ => false) 0 1
        ⟨sighandler.SIG_DFL, false⟩ empty_tree_oid_sha3 none example_author example_committer
        "hello 333".toList commit_type.COMMIT_TYPE_NORMAL 8 zero_digest (some ⟨0, 0, 0, 0⟩)
      = some example_low_optimized_result ∧
    mine_pow_commit_avx2 coarse_repo true 0 1
        [sched_event.run 0, sched_event.run 1, sched_event.run 2, sched_event.run 3] false
        empty_tree_oid_sha3 none example_author example_committer "hello 333".toList
        commit_type.COMMIT_TYPE_NORMAL 8 zero_digest (some ⟨0, 0, 0, 0⟩)
      = some example_low_avx2_result ∧
    leading_zero_bits example_low_result.result_oid = 12 ∧
    leading_zero_bits example_low_tested = 9 ∧
    IsCString example_author ∧ IsCString example_committer ∧ IsCString "hello 333".toList ∧
    ((∀ res, mine_pow_commit coarse_repo 0 1 empty_tree_oid_sha3 none example_author
        example_committer "hello 333".toList commit_type.COMMIT_TYPE_NORMAL 8
        (some ⟨0, 0, 0, 0⟩) = some res → res.ret = 0 →
      check_pow_difficulty (oid_to_hex res.result_oid) 8 = true ∧
      (IsDigest res.result_oid → 8 ≤ leading_zero_bits res.result_oid) ∧
      res.pow_out.map (fun record => record.difficulty) = some 8) ∧
    (∀ res, mine_pow_commit_optimized coarse_repo (fun _ => true) (fun _ => false) 0 1
        ⟨sighandler.SIG_DFL, false⟩ empty_tree_oid_sha3 none example_author example_committer
        "hello 333".toList commit_type.COMMIT_TYPE_NORMAL 8 zero_digest (some ⟨0, 0, 0, 0⟩)
        = some res → res.result.ret = 0 →
      (∃ n pw tested, n < 2 ^ 64 ∧
        (match (none : Option (List Nat)) with
          | some parent => calculate_total_work coarse_repo 0 parent
          | none => some 0) = some pw ∧
        tested = coarse_repo.hash_object_file object_type.OBJ_COMMIT
          (commit_front empty_tree_oid_sha3 none example_author example_committer
            "hello 333".toList commit_type.COMMIT_TYPE_NORMAL ++ fmt_dec n ++
            commit_back 8 pw) ∧
        check_pow_difficulty (oid_to_hex tested) 8 = true ∧
        (IsDigest tested → 8 ≤ leading_zero_bits tested)) ∧
      res.result.pow_out.map (fun record => record.difficulty) = some 8) ∧
    (∀ res, mine_pow_commit_avx2 coarse_repo true 0 1
        [sched_event.run 0, sched_event.run 1, sched_event.run 2, sched_event.run 3] false
        empty_tree_oid_sha3 none example_author example_committer "hello 333".toList
        commit_type.COMMIT_TYPE_NORMAL 8 zero_digest (some ⟨0, 0, 0, 0⟩) = some res →
        res.result.ret = 0 →
      (∃ sh, res.joined = some sh ∧
        check_difficulty_avx2 sh.result_hash 8 = true ∧
        (IsDigest sh.result_hash → 8 ≤ leading_zero_bits sh.result_hash)) ∧
      res.result.pow_out.map (fun record => record.difficulty) = some 8)) :=
  ⟨by decide!, by decide!, by decide!, by decide!, by decide!, by decide, by decide, by decide,
    commit_miners_use_requested_difficulty coarse_repo (fun _ => true) (fun _ => false) 0 1
      ⟨sighandler.SIG_DFL, false⟩
      [sched_event.run 0, sched_event.run 1, sched_event.run 2, sched_event.run 3] false
      empty_tree_oid_sha3 none example_author example_committer "hello 333".toList
      commit_type.COMMIT_TYPE_NORMAL 8 zero_digest ⟨0, 0, 0, 0⟩ (by decide) (by decide)
      (by decide) (by norm_num)⟩

/-- C15: `mine_pow_tag` mines against `max difficulty 20`: a call with
`difficulty` is the call with `max difficulty 20`; whenever it returns, it
returns 0, `check_pow_difficulty` holds of the returned identifier at
`max difficulty 20`, which for a 32-byte identifier means at least that many
leading zero bits, and a requested record holds `max difficulty 20`. -/
theorem mine_pow_tag_clamps_difficulty (repo : Repo) (fuel : Nat) (object_oid : List Nat)
    (type tag : List Char) (tagger : Option (List Char)) (message : List Char)
    (tag_type : Option (List Char)) (difficulty : Nat) (pow_out : Option pow_data)
    (res : mine_result)
    (hrun : mine_pow_tag repo fuel object_oid type tag tagger message tag_type difficulty
      pow_out = some res) :
    mine_pow_tag repo fuel object_oid type tag tagger message tag_type
      (max difficulty GIT3_MIN_DIFFICULTY) pow_out = some res ∧
    res.ret = 0 ∧
    check_pow_difficulty (oid_to_hex res.result_oid) (max difficulty 20) = true ∧
    (IsDigest res.result_oid → max difficulty 20 ≤ leading_zero_bits res.result_oid) ∧
    res.pow_out.map (fun record => record.difficulty) =
      pow_out.map (fun _ => max difficulty 20) := by
  have hmax : (if difficulty < GIT3_MIN_DIFFICULTY then GIT3_MIN_DIFFICULTY else difficulty)
      = max difficulty 20 := by
    unfold GIT3_MIN_DIFFICULTY
    split <;> omega
  have hidem : (if max difficulty 20 < GIT3_MIN_DIFFICULTY then GIT3_MIN_DIFFICULTY
      else max difficulty 20) = max difficulty 20 := by
    unfold GIT3_MIN_DIFFICULTY
    split <;> omega
  unfold mine_pow_tag at hrun ⊢
  simp only [hmax] at hrun
  have hG : max difficulty GIT3_MIN_DIFFICULTY = max difficulty 20 := rfl
  simp only [hG, hidem]
  obtain ⟨h0, n, _, _, _, h4, h5⟩ :=
    mine_pow_tag_loop_result repo object_oid type tag tagger message tag_type _ pow_out fuel 0
      res (by norm_num) hrun
  refine ⟨hrun, h0, h4, ?_, ?_⟩
  · intro hdig
    rw [check_pow_difficulty_hex _ hdig] at h4
    simpa using h4
  · rw [h5]
    cases pow_out <;> rfl

/-- Witness for C15: on `coarse_repo`, whose identifiers have 12 or 31 leading
zero bits, a tag requested at difficulty 5 is mined against 20: nonce 0 gives
12 bits and is passed over, the tag is found at nonce 3 with 31 bits, and the
record holds difficulty 20. -/
theorem mine_pow_tag_clamps_difficulty_witness :
    mine_pow_tag coarse_repo 8 example_c1 "commit".toList "v1".toList (some "t".toList)
        "msg".toList (some "release".toList) 5 (some ⟨7, 7, 7, 7⟩)
      = some example_coarse_tag_result ∧
    leading_zero_bits (coarse_repo.hash_object_file object_type.OBJ_TAG
      (mine_pow_tag_buf example_c1 "commit".toList "v1".toList (some "t".toList) "msg".toList
        (some "release".toList) 0)) = 12 ∧
    (mine_pow_tag coarse_repo 8 example_c1 "commit".toList "v1".toList (some "t".toList)
        "msg".toList (some "release".toList) (max 5 GIT3_MIN_DIFFICULTY) (some ⟨7, 7, 7, 7⟩)
      = some example_coarse_tag_result ∧
    example_coarse_tag_result.ret = 0 ∧
    check_pow_difficulty (oid_to_hex example_coarse_tag_result.result_oid) (max 5 20) = true ∧
    (IsDigest example_coarse_tag_result.result_oid →
      max 5 20 ≤ leading_zero_bits example_coarse_tag_result.result_oid) ∧
    example_coarse_tag_result.pow_out.map (fun record => record.difficulty) =
      (some (⟨7, 7, 7, 7⟩ : pow_data)).map (fun _ => max 5 20)) :=
  have h : mine_pow_tag coarse_repo 8 example_c1 "commit".toList "v1".toList
        (some "t".toList) "msg".toList (some "release".toList) 5 (some ⟨7, 7, 7, 7⟩)
      = some example_coarse_tag_result := by decide!
  ⟨h, by decide!,
    mine_pow_tag_clamps_difficulty coarse_repo 8 example_c1 "commit".toList "v1".toList
      (some "t".toList) "msg".toList (some "release".toList) 5 (some ⟨7, 7, 7, 7⟩)
      example_coarse_tag_result h⟩

/-- C16: whenever `mine_pow_tag` returns, it returns 0 after handing exactly
one tag object to the store write, also when the store write of that object
fails: the result of the write is not looked at. -/
theorem mine_pow_tag_ignores_write_failure (repo : Repo) (fuel : Nat) (object_oid : List Nat)
    (type tag : List Char) (tagger : Option (List Char)) (message : List Char)
    (tag_type : Option (List Char)) (difficulty : Nat) (pow_out : Option pow_data)
    (res : mine_result)
    (hfail : ∀ buf, repo.store_accepts object_type.OBJ_TAG buf = false)
    (hrun : mine_pow_tag repo fuel object_oid type tag tagger message tag_type difficulty
      pow_out = some res) :
    res.ret = 0 ∧
    ∃ buf, res.written = [(object_type.OBJ_TAG, buf)] ∧
      (write_object_file repo object_type.OBJ_TAG buf).1 < 0 := by
  unfold mine_pow_tag at hrun
  obtain ⟨h0, n, _, _, h3, _, _⟩ :=
    mine_pow_tag_loop_result repo object_oid type tag tagger message tag_type _ pow_out fuel 0
      res (by norm_num) hrun
  refine ⟨h0, _, h3, ?_⟩
  simp [write_object_file, hfail]

/-- Witness for C16: on the SHA3-256 repository with a store that refuses
every write, mining the tag `v1` of the empty tree with message `release 83417`
at difficulty 20 returns 0 with the identifier `00000146f7f2...`, although the
write of the tag failed. -/
theorem mine_pow_tag_ignores_write_failure_witness :
    (∀ buf, readonly_sha3_repo.store_accepts object_type.OBJ_TAG buf = false) ∧
    mine_pow_tag readonly_sha3_repo 1 empty_tree_oid_sha3 "tree".toList "v1".toList
        (some example_tagger) "release 83417".toList none 20 none
      = some example_refused_tag_result ∧
    (write_object_file readonly_sha3_repo object_type.OBJ_TAG example_tag).1 = -1 ∧
    (example_refused_tag_result.ret = 0 ∧
    ∃ buf, example_refused_tag_result.written = [(object_type.OBJ_TAG, buf)] ∧
      (write_object_file readonly_sha3_repo object_type.OBJ_TAG buf).1 < 0) :=
  have h : mine_pow_tag readonly_sha3_repo 1 empty_tree_oid_sha3 "tree".toList "v1".toList
        (some example_tagger) "release 83417".toList none 20 none
      = some example_refused_tag_result :=
    (mine_pow_tag_hit readonly_sha3_repo 0 empty_tree_oid_sha3 "tree".toList "v1".toList
      (some example_tagger) "release 83417".toList none 20 none example_tag
      example_tag_oid (by decide) (by decide!)
      ((congrFun (congrFun readonly_sha3_repo_hash _) _).trans example_tag_hash_value)
      (by decide!)).trans
      (by decide!)
  ⟨fun _ => rfl, h, by decide!,
    mine_pow_tag_ignores_write_failure readonly_sha3_repo 1 empty_tree_oid_sha3 "tree".toList
      "v1".toList (some example_tagger) "release 83417".toList none 20 none
      example_refused_tag_result (fun _ => rfl) h⟩

/-- C17: in every run of `mine_pow_commit`, `mine_pow_commit_optimized` and
`mine_pow_commit_avx2` that returns, at most one object is handed to the store,
and if one is, the run has found a nonce `n` for which the digest it tests
meets `difficulty`: the object hash of the commit with nonce `n` for the first
two (and for the AVX2 miner on a CPU without AVX2), `sha3_256_avx2` of those
bytes for the AVX2 workers. A run of `mine_pow_commit_optimized` that leaves
through the test of the flag, and a run of the AVX2 path that finds the flag set
after the join, hand nothing to the store. -/
theorem store_written_at_most_once_after_hit (repo : Repo)
    (lookup_commit_node : List Nat → Bool) (sigint : Nat → Bool) (wfuel fuel : Nat)
    (signals : signal_state) (schedule : List sched_event) (interrupted : Bool)
    (tree_oid : List Nat) (parent_oid : Option (List Nat))
    (author committer message : List Char) (type : commit_type) (difficulty : Nat)
    (result_oid : List Nat) (pow_out : Option pow_data)
    (ha : IsCString author) (hc : IsCString committer) (hm : IsCString message)
    (hd : difficulty < 2 ^ 32) :
    (∀ res, mine_pow_commit repo wfuel fuel tree_oid parent_oid author committer message type
        difficulty pow_out = some res →
      res.written.length ≤ 1 ∧
      (res.written ≠ [] → ∃ n pw, n < 2 ^ 64 ∧
        (match parent_oid with
          | some parent => calculate_total_work repo wfuel parent
          | none => some 0) = some pw ∧
        check_pow_difficulty (oid_to_hex (repo.hash_object_file object_type.OBJ_COMMIT
          (commit_front tree_oid parent_oid author committer message type ++ fmt_dec n ++
            commit_back difficulty pw))) difficulty = true)) ∧
    (∀ res, mine_pow_commit_optimized repo lookup_commit_node sigint wfuel fuel signals
        tree_oid parent_oid author committer message type difficulty result_oid pow_out
        = some res →
      res.result.written.length ≤ 1 ∧
      (res.result.written ≠ [] → ∃ n pw, n < 2 ^ 64 ∧
        (match parent_oid with
          | some parent => calculate_total_work repo wfuel parent
          | none => some 0) = some pw ∧
        check_pow_difficulty (oid_to_hex (repo.hash_object_file object_type.OBJ_COMMIT
          (commit_front tree_oid parent_oid author committer message type ++ fmt_dec n ++
            commit_back difficulty pw))) difficulty = true) ∧
      (res.exit_path = optimized_exit.cancelled → res.result.written = [])) ∧
    (∀ res, mine_pow_commit_avx2 repo true wfuel fuel schedule interrupted tree_oid parent_oid
        author committer message type difficulty result_oid pow_out = some res →
      res.result.written.length ≤ 1 ∧
      (res.result.written ≠ [] → ∃ n pw, n < 2 ^ 64 ∧
        (match parent_oid with
          | some parent => calculate_total_work repo wfuel parent
          | none => some 0) = some pw ∧
        check_difficulty_avx2 (sha3_256_avx2 (bytes_of
          (commit_front tree_oid parent_oid author committer message type ++ fmt_dec n ++
            commit_back difficulty pw))) difficulty = true) ∧
      (res.mining_interrupted = true → res.result.written = [])) ∧
    (∀ res, mine_pow_commit_avx2 repo false wfuel fuel schedule interrupted tree_oid parent_oid
        author committer message type difficulty result_oid pow_out = some res →
      res.result.written.length ≤ 1 ∧
      (res.result.written ≠ [] → ∃ n pw, n < 2 ^ 64 ∧
        (match parent_oid with
          | some parent => calculate_total_work repo wfuel parent
          | none => some 0) = some pw ∧
        check_pow_difficulty (oid_to_hex (repo.hash_object_file object_type.OBJ_COMMIT
          (commit_front tree_oid parent_oid author committer message type ++ fmt_dec n ++
            commit_back difficulty pw))) difficulty = true)) := by
  have hcommit : ∀ res, mine_pow_commit repo wfuel fuel tree_oid parent_oid author committer
      message type difficulty pow_out = some res →
      res.written.length ≤ 1 ∧
      (res.written ≠ [] → ∃ n pw, n < 2 ^ 64 ∧
        (match parent_oid with
          | some parent => calculate_total_work repo wfuel parent
          | none => some 0) = some pw ∧
        check_pow_difficulty (oid_to_hex (repo.hash_object_file object_type.OBJ_COMMIT
          (commit_front tree_oid parent_oid author committer message type ++ fmt_dec n ++
            commit_back difficulty pw))) difficulty = true) := by
    intro res hrun
    unfold mine_pow_commit at hrun
    simp only at hrun
    split at hrun
    · simp at hrun
    · next pcw hpw0 =>
      obtain ⟨n, hn, hw, hchk⟩ :=
        mine_pow_commit_loop_written repo _ message type difficulty pcw pow_out fuel 0 res
          (by norm_num) hrun
      rw [mine_pow_commit_buf_split] at hchk
      refine ⟨by rw [hw]; simp, fun _ => ⟨n, pcw, hn, ?_, hchk⟩⟩
      cases parent_oid <;> exact hpw0
  refine ⟨hcommit, ?_, ?_, ?_⟩
  · intro res hrun
    obtain ⟨_, pw, hpw, h2, h3⟩ := mine_pow_commit_optimized_spec repo lookup_commit_node sigint
      wfuel fuel signals tree_oid parent_oid author committer message type difficulty
      result_oid pow_out res ha hc hm hd hrun
    by_cases he : res.exit_path = optimized_exit.cancelled
    · obtain ⟨_, hw, _⟩ := h2 he
      exact ⟨by rw [hw]; simp, fun hne => absurd hw hne, fun _ => hw⟩
    · obtain ⟨hlen, n, hn, hchk, _⟩ := h3 he
      exact ⟨by omega, fun _ => ⟨n, pw, hn, hpw, hchk⟩, fun hx => absurd hx he⟩
  · intro res hrun
    obtain ⟨sh, pw, _, hmi, hpw, hneg, hpos⟩ := mine_pow_commit_avx2_joined repo wfuel fuel
      schedule interrupted tree_oid parent_oid author committer message type difficulty
      result_oid pow_out res hrun
    by_cases hf : sh.found = true ∧ sh.mining_interrupted = false
    · obtain ⟨hlt, hw, hhash, hchk, _⟩ := hpos hf
      rw [hhash] at hchk
      refine ⟨by rw [hw]; simp, fun _ => ⟨sh.result_nonce, pw, hlt, hpw, hchk⟩, ?_⟩
      intro hi
      rw [hmi, hf.2] at hi
      exact absurd hi (by decide)
    · obtain ⟨hw, _⟩ := hneg hf
      exact ⟨by rw [hw]; simp, fun hne => absurd hw hne, fun _ => hw⟩
  · intro res hrun
    unfold mine_pow_commit_avx2 at hrun
    simp only [Bool.false_eq_true, not_false_eq_true, if_true, Option.map_eq_some'] at hrun
    obtain ⟨r, hr, hres⟩ := hrun
    subst hres
    exact hcommit r hr

/-- Witness for C17: on the checksum repository at difficulty 24,
`mine_pow_commit` hands one commit to the store, `mine_pow_commit_optimized`
interrupted during its first pass hands nothing, and so does the AVX2 miner
interrupted before its threads run. -/
theorem store_written_at_most_once_after_hit_witness :
    mine_pow_commit checksum_repo 0 8 empty_tree_oid_sha3 none "a".toList "c".toList
        "hello".toList commit_type.COMMIT_TYPE_NORMAL 24 (some ⟨0, 0, 0, 0⟩)
      = some example_root_result ∧
    example_root_result.written.length = 1 ∧
    mine_pow_commit_optimized checksum_repo (fun _ => true) (fun k => k = 1) 0 8
        ⟨sighandler.installed 7, false⟩ empty_tree_oid_sha3 none "a".toList "c".toList
        "hello".toList commit_type.COMMIT_TYPE_NORMAL 24 zero_digest (some ⟨0, 0, 0, 0⟩)
      = some example_cancelled_optimized_result ∧
    mine_pow_commit_avx2 checksum_repo true 0 8
        [sched_event.sigint, sched_event.run 0, sched_event.run 1, sched_event.run 2,
          sched_event.run 3] false empty_tree_oid_sha3 none "a".toList "c".toList
        "hello".toList commit_type.COMMIT_TYPE_NORMAL 24 zero_digest (some ⟨0, 0, 0, 0⟩)
      = some example_cancelled_avx2_result ∧
    IsCString "a".toList ∧ IsCString "c".toList ∧ IsCString "hello".toList ∧
    ((∀ res, mine_pow_commit checksum_repo 0 8 empty_tree_oid_sha3 none "a".toList
        "c".toList "hello".toList commit_type.COMMIT_TYPE_NORMAL 24 (some ⟨0, 0, 0, 0⟩)
        = some res →
      res.written.length ≤ 1 ∧
      (res.written ≠ [] → ∃ n pw, n < 2 ^ 64 ∧
        (match (none : Option (List Nat)) with
          | some parent => calculate_total_work checksum_repo 0 parent
          | none => some 0) = some pw ∧
        check_pow_difficulty (oid_to_hex (checksum_repo.hash_object_file object_type.OBJ_COMMIT
          (commit_front empty_tree_oid_sha3 none "a".toList "c".toList "hello".toList
            commit_type.COMMIT_TYPE_NORMAL ++ fmt_dec n ++ commit_back 24 pw))) 24 = true)) ∧
    (∀ res, mine_pow_commit_optimized checksum_repo (fun _ => true) (fun k => k = 1) 0 8
        ⟨sighandler.installed 7, false⟩ empty_tree_oid_sha3 none "a".toList "c".toList
        "hello".toList commit_type.COMMIT_TYPE_NORMAL 24 zero_digest (some ⟨0, 0, 0, 0⟩)
        = some res →
      res.result.written.length ≤ 1 ∧
      (res.result.written ≠ [] → ∃ n pw, n < 2 ^ 64 ∧
        (match (none : Option (List Nat)) with
          | some parent => calculate_total_work checksum_repo 0 parent
          | none => some 0) = some pw ∧
        check_pow_difficulty (oid_to_hex (checksum_repo.hash_object_file object_type.OBJ_COMMIT
          (commit_front empty_tree_oid_sha3 none "a".toList "c".toList "hello".toList
            commit_type.COMMIT_TYPE_NORMAL ++ fmt_dec n ++ commit_back 24 pw))) 24 = true) ∧
      (res.exit_path = optimized_exit.cancelled → res.result.written = [])) ∧
    (∀ res, mine_pow_commit_avx2 checksum_repo true 0 8
        [sched_event.sigint, sched_event.run 0, sched_event.run 1, sched_event.run 2,
          sched_event.run 3] false empty_tree_oid_sha3 none "a".toList "c".toList
        "hello".toList commit_type.COMMIT_TYPE_NORMAL 24 zero_digest (some ⟨0, 0, 0, 0⟩)
        = some res →
      res.result.written.length ≤ 1 ∧
      (res.result.written ≠ [] → ∃ n pw, n < 2 ^ 64 ∧
        (match (none : Option (List Nat)) with
          | some parent => calculate_total_work checksum_repo 0 parent
          | none => some 0) = some pw ∧
        check_difficulty_avx2 (sha3_256_avx2 (bytes_of
          (commit_front empty_tree_oid_sha3 none "a".toList "c".toList "hello".toList
            commit_type.COMMIT_TYPE_NORMAL ++ fmt_dec n ++ commit_back 24 pw))) 24 = true) ∧
      (res.mining_interrupted = true → res.result.written = [])) ∧
    (∀ res, mine_pow_commit_avx2 checksum_repo false 0 8
        [sched_event.sigint, sched_event.run 0, sched_event.run 1, sched_event.run 2,
          sched_event.run 3] false empty_tree_oid_sha3 none "a".toList "c".toList
        "hello".toList commit_type.COMMIT_TYPE_NORMAL 24 zero_digest (some ⟨0, 0, 0, 0⟩)
        = some res →
      res.result.written.length ≤ 1 ∧
      (res.result.written ≠ [] → ∃ n pw, n < 2 ^ 64 ∧
        (match (none : Option (List Nat)) with
          | some parent => calculate_total_work checksum_repo 0 parent
          | none => some 0) = some pw ∧
        check_pow_difficulty (oid_to_hex (checksum_repo.hash_object_file object_type.OBJ_COMMIT
          (commit_front empty_tree_oid_sha3 none "a".toList "c".toList "hello".toList
            commit_type.COMMIT_TYPE_NORMAL ++ fmt_dec n ++ commit_back 24 pw))) 24 = true))) :=
  ⟨by decide!, by decide!, by decide!, by decide!, by decide, by decide, by decide,
    store_written_at_most_once_after_hit checksum_repo (fun _ => true) (fun k => k = 1) 0 8
      ⟨sighandler.installed 7, false⟩
      [sched_event.sigint, sched_event.run 0, sched_event.run 1, sched_event.run 2,
        sched_event.run 3] false empty_tree_oid_sha3 none "a".toList "c".toList
      "hello".toList commit_type.COMMIT_TYPE_NORMAL 24 zero_digest (some ⟨0, 0, 0, 0⟩)
      (by decide) (by decide) (by decide) (by norm_num)⟩

/-- C18 (counterexample): two runs of `mine_pow_commit_optimized` for the same
template on the checksum repository. The first is interrupted during its first
pass and leaves through the test of the flag; the second finds the nonce and
its store write fails. Both return -1. -/
theorem mine_pow_commit_optimized_same_failure_value :
    mine_pow_commit_optimized checksum_repo (fun _ => true) (fun k => k = 1) 0 8
        ⟨sighandler.installed 7, false⟩ empty_tree_oid_sha3 none "a".toList "c".toList
        "hello".toList commit_type.COMMIT_TYPE_NORMAL 24 zero_digest (some ⟨0, 0, 0, 0⟩)
      = some example_cancelled_optimized_result ∧
    mine_pow_commit_optimized readonly_checksum_repo (fun _ => true) (fun _ => false) 0 8
        ⟨sighandler.SIG_IGN, false⟩ empty_tree_oid_sha3 none "a".toList "c".toList
        "hello".toList commit_type.COMMIT_TYPE_NORMAL 24 zero_digest (some ⟨0, 0, 0, 0⟩)
      = some example_refused_optimized_result ∧
    example_cancelled_optimized_result.exit_path = optimized_exit.cancelled ∧
    example_refused_optimized_result.exit_path = optimized_exit.store_failed ∧
    example_cancelled_optimized_result.result.ret = -1 ∧
    example_refused_optimized_result.result.ret = -1 := by
  refine ⟨by decide!, by decide!, by decide!, by decide!, by decide!, by decide!⟩

/-- C18 (amended): a run of `mine_pow_commit_optimized` that returns has found
and stored a nonce, or seen the cancel flag, or failed to store; it returns 0
exactly in the first case and -1 in the other two, so the return value tells
success from failure but not cancellation from a store failure. -/
theorem mine_pow_commit_optimized_return_value (repo : Repo)
    (lookup_commit_node : List Nat → Bool) (sigint : Nat → Bool) (wfuel fuel : Nat)
    (signals : signal_state) (tree_oid : List Nat) (parent_oid : Option (List Nat))
    (author committer message : List Char) (type : commit_type) (difficulty : Nat)
    (result_oid : List Nat) (pow_out : Option pow_data) (res : optimized_result)
    (hrun : mine_pow_commit_optimized repo lookup_commit_node sigint wfuel fuel signals tree_oid
      parent_oid author committer message type difficulty result_oid pow_out = some res) :
    (res.exit_path = optimized_exit.found ∨ res.exit_path = optimized_exit.cancelled ∨
      res.exit_path = optimized_exit.store_failed) ∧
    (res.result.ret = 0 ↔ res.exit_path = optimized_exit.found) ∧
    (res.exit_path = optimized_exit.cancelled → res.result.ret = -1) ∧
    (res.exit_path = optimized_exit.store_failed → res.result.ret = -1) := by
  obtain ⟨_, hc, hs, hf⟩ := mine_pow_commit_optimized_exit repo lookup_commit_node sigint wfuel
    fuel signals tree_oid parent_oid author committer message type difficulty result_oid
    pow_out res hrun
  refine ⟨?_, ⟨?_, fun h => (hf h).1⟩, fun h => (hc h).1, fun h => (hs h).1⟩
  · cases res.exit_path <;> simp
  · intro hret
    cases he : res.exit_path with
    | found => rfl
    | cancelled =>
      have := (hc he).1
      rw [hret] at this
      exact absurd this (by decide)
    | store_failed =>
      have := (hs he).1
      rw [hret] at this
      exact absurd this (by decide)

/-- Witness for C18 (amended): the run that finds nonce 1 on the checksum
repository returns 0. -/
theorem mine_pow_commit_optimized_return_value_witness :
    mine_pow_commit_optimized checksum_repo (fun _ => true) (fun _ => false) 0 8
        ⟨sighandler.SIG_DFL, true⟩ empty_tree_oid_sha3 none "a".toList "c".toList
        "hello".toList commit_type.COMMIT_TYPE_NORMAL 24 zero_digest (some ⟨0, 0, 0, 0⟩)
      = some example_found_optimized_result ∧
    ((example_found_optimized_result.exit_path = optimized_exit.found ∨
      example_found_optimized_result.exit_path = optimized_exit.cancelled ∨
      example_found_optimized_result.exit_path = optimized_exit.store_failed) ∧
    (example_found_optimized_result.result.ret = 0 ↔
      example_found_optimized_result.exit_path = optimized_exit.found) ∧
    (example_found_optimized_result.exit_path = optimized_exit.cancelled →
      example_found_optimized_result.result.ret = -1) ∧
    (example_found_optimized_result.exit_path = optimized_exit.store_failed →
      example_found_optimized_result.result.ret = -1)) :=
  have h : mine_pow_commit_optimized checksum_repo (fun _ => true) (fun _ => false) 0 8
        ⟨sighandler.SIG_DFL, true⟩ empty_tree_oid_sha3 none "a".toList "c".toList
        "hello".toList commit_type.COMMIT_TYPE_NORMAL 24 zero_digest (some ⟨0, 0, 0, 0⟩)
      = some example_found_optimized_result := by decide!
  ⟨h, mine_pow_commit_optimized_return_value checksum_repo (fun _ => true) (fun _ => false)
    0 8 ⟨sighandler.SIG_DFL, true⟩ empty_tree_oid_sha3 none "a".toList "c".toList
    "hello".toList commit_type.COMMIT_TYPE_NORMAL 24 zero_digest (some ⟨0, 0, 0, 0⟩)
    example_found_optimized_result h⟩

/-- C19: whenever `mine_pow_commit_optimized` returns, the disposition of
SIGINT after the call is the one in force when it was called, through whichever
statement the call left its loop; `handle_interrupt` is installed in between
and every exit passes `cleanup`, which puts the saved one back. -/
theorem mine_pow_commit_optimized_restores_sigint (repo : Repo)
    (lookup_commit_node : List Nat → Bool) (sigint : Nat → Bool) (wfuel fuel : Nat)
    (signals : signal_state) (tree_oid : List Nat) (parent_oid : Option (List Nat))
    (author committer message : List Char) (type : commit_type) (difficulty : Nat)
    (result_oid : List Nat) (pow_out : Option pow_data) (res : optimized_result)
    (hrun : mine_pow_commit_optimized repo lookup_commit_node sigint wfuel fuel signals tree_oid
      parent_oid author committer message type difficulty result_oid pow_out = some res) :
    res.signals.sigint = signals.sigint :=
  (mine_pow_commit_optimized_exit repo lookup_commit_node sigint wfuel fuel signals tree_oid
    parent_oid author committer message type difficulty result_oid pow_out res hrun).1

/-- Witness for C19: the run that is cancelled in its second pass was entered
with the host's handler number 7 installed; the flag was set, so
`handle_interrupt` was the handler when the signal came, and handler 7 is back
in place after the call. -/
theorem mine_pow_commit_optimized_restores_sigint_witness :
    mine_pow_commit_optimized checksum_repo (fun _ => true) (fun k => k = 1) 0 8
        ⟨sighandler.installed 7, false⟩ empty_tree_oid_sha3 none "a".toList "c".toList
        "hello".toList commit_type.COMMIT_TYPE_NORMAL 24 zero_digest (some ⟨0, 0, 0, 0⟩)
      = some example_cancelled_optimized_result ∧
    example_cancelled_optimized_result.signals.mining_interrupted = true ∧
    example_cancelled_optimized_result.signals.sigint =
      (⟨sighandler.installed 7, false⟩ : signal_state).sigint :=
  have h : mine_pow_commit_optimized checksum_repo (fun _ => true) (fun k => k = 1) 0 8
        ⟨sighandler.installed 7, false⟩ empty_tree_oid_sha3 none "a".toList "c".toList
        "hello".toList commit_type.COMMIT_TYPE_NORMAL 24 zero_digest (some ⟨0, 0, 0, 0⟩)
      = some example_cancelled_optimized_result := by decide!
  ⟨h, by decide!,
    mine_pow_commit_optimized_restores_sigint checksum_repo (fun _ => true) (fun k => k = 1)
      0 8 ⟨sighandler.installed 7, false⟩ empty_tree_oid_sha3 none "a".toList "c".toList
      "hello".toList commit_type.COMMIT_TYPE_NORMAL 24 zero_digest (some ⟨0, 0, 0, 0⟩)
      example_cancelled_optimized_result h⟩

/-- C20: `sha3_256_avx2` does not give the known answers. For the empty input
it returns `2104a5cf...`, not `a7ffc6f8...`, the value `hash.c` itself records
as the SHA3-256 of the empty string; for the three bytes `abc` it returns
`5f7220c4...`, not `3a985da7...`. -/
theorem sha3_256_avx2_misses_known_answers :
    oid_to_hex (sha3_256_avx2 []) =
      "2104a5cf8959b359ccdc58153a25b6d2c4ab3186947903baeaea5f861c425d4a".toList ∧
    oid_to_hex (sha3_256_avx2 []) ≠ spec_oneshot_empty ∧
    sha3_256_avx2 [] ≠ empty_blob_oid_sha3 ∧
    oid_to_hex empty_blob_oid_sha3 = spec_oneshot_empty ∧
    oid_to_hex (sha3_256_avx2 [0x61, 0x62, 0x63]) =
      "5f7220c4e258d711474992d81278f72581ac1a9b50e255fdce34339b5b6a2efa".toList ∧
    oid_to_hex (sha3_256_avx2 [0x61, 0x62, 0x63]) ≠ spec_oneshot_abc := by
  have h0 : sha3_256_avx2 [] = [33, 4, 165, 207, 137, 89, 179, 89, 204, 220, 88, 21, 58, 37,
      182, 210, 196, 171, 49, 134, 148, 121, 3, 186, 234, 234, 95, 134, 28, 66, 93, 74] :=
    sha3_256_avx2_nil_value
  have h1 : sha3_256_avx2 [0x61, 0x62, 0x63] = [95, 114, 32, 196, 226, 88, 215, 17, 71, 73,
      146, 216, 18, 120, 247, 37, 129, 172, 26, 155, 80, 226, 85, 253, 206, 52, 51, 155, 91,
      106, 46, 250] := by
    decide!
  rw [h0, h1]
  refine ⟨by decide!, by decide!, by decide!, by decide!, by decide!, by decide!⟩

/-! ## Claims C21 to C30 -/

/-- C21: for all byte strings `a` and `b`, initialising a context, updating
with `a`, updating with `b` and finalising gives the bytes of the one-shot
`sha3_256_avx2 (a ++ b)`; a context updated with a prefix, kept, and then
updated with a nonce and a suffix finalises to the one-shot digest of the
three parts joined; and from any context between calls, two updates leave the
context that one update with the joined bytes leaves. -/
theorem sha3_256_avx2_incremental (a b : List Nat) :
    sha3_256_avx2_final
        (sha3_256_avx2_update (sha3_256_avx2_update sha3_256_avx2_init a) b) =
      sha3_256_avx2 (a ++ b) ∧
    (∀ nonce : List Nat,
      sha3_256_avx2_final
          (sha3_256_avx2_update
            (sha3_256_avx2_update (sha3_256_avx2_update sha3_256_avx2_init a) nonce) b) =
        sha3_256_avx2 (a ++ nonce ++ b)) ∧
    (∀ ctx : sha3_256_avx2_ctx, sha3_ctx_ok ctx →
      sha3_256_avx2_update (sha3_256_avx2_update ctx a) b =
        sha3_256_avx2_update ctx (a ++ b)) := by
  have hinit : sha3_ctx_ok sha3_256_avx2_init := by
    unfold sha3_ctx_ok sha3_256_avx2_init
    simp
  refine ⟨?_, ?_, fun ctx hok => sha3_256_avx2_update_append ctx a b hok⟩
  · unfold sha3_256_avx2
    rw [sha3_256_avx2_update_append _ a b hinit]
  · intro nonce
    unfold sha3_256_avx2
    rw [sha3_256_avx2_update_append _ a nonce hinit,
      sha3_256_avx2_update_append _ (a ++ nonce) b hinit]

/-- C22: `empty_blob_oid_sha3` is the SHA3-256 digest of the empty string,
`a7ffc6f8...8434a`, and `empty_tree_oid_sha3` is the SHA3-256 digest of the 7
bytes `tree 0` followed by NUL. -/
theorem empty_oids_are_sha3_256_digests :
    fips202_sha3_256 [] = empty_blob_oid_sha3 ∧
    oid_to_hex empty_blob_oid_sha3 = spec_oneshot_empty ∧
    fips202_sha3_256 (bytes_of ("tree 0".toList ++ [Char.ofNat 0])) = empty_tree_oid_sha3 ∧
    (bytes_of ("tree 0".toList ++ [Char.ofNat 0])).length = 7 := by
  refine ⟨fips202_sha3_256_nil_value, by decide!, by decide!, by decide!⟩

/-- C23: for every value `refs_resolve_ref_unsafe` can return for HEAD (NULL, a
name outside `refs/heads/`, or a branch) and every content of the configuration
store, `get_pow_difficulty_for_branch` returns at least 20. -/
theorem get_pow_difficulty_for_branch_floor (cfg : Config) (head : Option (List Char)) :
    20 ≤ get_pow_difficulty_for_branch cfg head := by
  unfold get_pow_difficulty_for_branch GIT3_MIN_DIFFICULTY
  cases head with
  | none => simp
  | some h =>
    simp only
    split
    · simp
    · split <;> omega

/-- C24: for a branch without a positive branch override,
`get_branch_pattern_difficulty` is the value of the pattern the name falls
under, first match in the order dev, feature, release, main, default: the value
configured under the pattern's key when that is positive, else the built-in
8, 10, 16, 12 or 10; with nothing configured it is the built-in value. -/
theorem get_branch_pattern_difficulty_follows_table (cfg : Config) (branch : List Char)
    (hb : ∀ v, cfg.get_int ("branch.".toList ++ branch ++ ".powdifficulty".toList) = some v →
      v ≤ 0) :
    get_branch_pattern_difficulty cfg branch =
      (match cfg.get_int (spec_pattern_key (spec_pattern_of branch)) with
        | some v => if 0 < v then v else spec_pattern_default (spec_pattern_of branch)
        | none => spec_pattern_default (spec_pattern_of branch)) ∧
    ((∀ key, cfg.get_int key = none) →
      get_branch_pattern_difficulty cfg branch = spec_pattern_default (spec_pattern_of branch)) := by
  have e := get_branch_pattern_difficulty_table cfg branch hb
  refine ⟨e, ?_⟩
  intro hnone
  rw [e, hnone]

/-- Witness for C24: with nothing configured `dev/x` and `develop/x` resolve to
8, `feature/x` and `feat/x` to 10, `release/1` and `v2` to 16, `main` and
`master` to 12, `topic` and `mainline` to 10; in `example_config` the release
pattern is set to 18 and `v2` resolves to 18, while the default is set to 0 and
`topic` keeps the built-in 10. -/
theorem get_branch_pattern_difficulty_follows_table_witness :
    (["dev/x", "develop/x", "feature/x", "feat/x", "release/1", "v2", "main", "master",
        "topic", "mainline"].map fun name =>
      get_branch_pattern_difficulty empty_config name.toList) =
      [8, 8, 10, 10, 16, 16, 12, 12, 10, 10] ∧
    get_branch_pattern_difficulty example_config "topic".toList = 10 ∧
    (∀ v, example_config.get_int ("branch.".toList ++ "v2".toList ++ ".powdifficulty".toList)
      = some v → v ≤ 0) ∧
    get_branch_pattern_difficulty example_config "v2".toList = 18 ∧
    (get_branch_pattern_difficulty example_config "v2".toList =
      (match example_config.get_int (spec_pattern_key (spec_pattern_of "v2".toList)) with
        | some v => if 0 < v then v else spec_pattern_default (spec_pattern_of "v2".toList)
        | none => spec_pattern_default (spec_pattern_of "v2".toList)) ∧
    ((∀ key, example_config.get_int key = none) →
      get_branch_pattern_difficulty example_config "v2".toList =
        spec_pattern_default (spec_pattern_of "v2".toList))) :=
  have hb : ∀ v, example_config.get_int
      ("branch.".toList ++ "v2".toList ++ ".powdifficulty".toList) = some v → v ≤ 0 := by
    intro v hv
    have hn : example_config.get_int
        ("branch.".toList ++ "v2".toList ++ ".powdifficulty".toList) = none := by decide
    rw [hn] at hv
    cases hv
  ⟨by decide, by decide, hb, by decide,
    get_branch_pattern_difficulty_follows_table example_config "v2".toList hb⟩

/-- C25: on any configuration store, when `set_branch_difficulty branch k`
returns 0 with `20 ≤ k ≤ 32`, `get_pow_difficulty_for_branch` returns `k` on
the store it leaves when HEAD points to `refs/heads/<branch>`, whatever the
branch name matches and whatever else is configured. -/
theorem set_branch_difficulty_then_resolve (cfg : Config) (branch : List Char) (k : Int)
    (hok : (set_branch_difficulty cfg branch k).ret = 0) (h1 : 20 ≤ k) (h2 : k ≤ 32) :
    get_pow_difficulty_for_branch (set_branch_difficulty cfg branch k).config
      (some ("refs/heads/".toList ++ branch)) = k := by
  have hp := parse_int_fmt_int_small k (by omega) (by omega)
  have hl : ¬ k < (GIT3_MIN_DIFFICULTY : Int) := by unfold GIT3_MIN_DIFFICULTY; omega
  have hu : ¬ k > 32 := by omega
  unfold set_branch_difficulty at hok ⊢
  simp only [hl, hu, if_false] at hok ⊢
  unfold git_config_set_gently at hok ⊢
  by_cases hs : cfg.set_status ("branch.".toList ++ branch ++ ".powdifficulty".toList)
      (some (fmt_int k)) = 0
  · simp only [hs, if_true]
    rw [get_pow_difficulty_for_branch_on_branch,
      get_branch_pattern_difficulty_override _ branch k (by simp [hp]) (by omega)]
    omega
  · simp only [hs, if_false] at hok

/-- Witness for C25: in `example_config` the main pattern is set to 30; after
`set_branch_difficulty main 24` the resolver returns 24 on `main`. -/
theorem set_branch_difficulty_then_resolve_witness :
    get_pow_difficulty_for_branch example_config (some "refs/heads/main".toList) = 30 ∧
    (set_branch_difficulty example_config "main".toList 24).ret = 0 ∧
    get_pow_difficulty_for_branch (set_branch_difficulty example_config "main".toList 24).config
      (some ("refs/heads/".toList ++ "main".toList)) = 24 :=
  ⟨by decide, by decide,
    set_branch_difficulty_then_resolve example_config "main".toList 24 (by decide) (by decide)
      (by decide)⟩

/-- C26: with an empty configuration the resolver returns 20 on `feature/x`;
and for every branch whose name starts with `feature/` or `feat/` and that has
no positive branch override, when `set_pow_difficulty_config "feature" b`
returns 0 with `1 ≤ b ≤ 256`, the resolver returns `max b 20` on the store it
leaves. -/
theorem set_pattern_then_resolve (cfg : Config) (branch : List Char) (b : Int)
    (hname : "feature/".toList <+: branch ∨ "feat/".toList <+: branch)
    (hb : ∀ v, cfg.get_int ("branch.".toList ++ branch ++ ".powdifficulty".toList) = some v →
      v ≤ 0)
    (hok : (set_pow_difficulty_config cfg "feature".toList b).ret = 0)
    (h1 : 1 ≤ b) (h2 : b ≤ 256) :
    get_pow_difficulty_for_branch empty_config (some "refs/heads/feature/x".toList) = 20 ∧
    get_pow_difficulty_for_branch (set_pow_difficulty_config cfg "feature".toList b).config
      (some ("refs/heads/".toList ++ branch)) = max b 20 := by
  refine ⟨by decide, ?_⟩
  have hp := parse_int_fmt_int_small b h1 h2
  have hr : ¬ (b < 1 ∨ b > 256) := by omega
  have hpat : spec_pattern_of branch = pow_pattern.feature := by
    obtain ⟨t, ht⟩ : ∃ t, branch = 'f' :: t := by
      rcases hname with ⟨t, ht⟩ | ⟨t, ht⟩
      · exact ⟨"eature/".toList ++ t, ht.symm⟩
      · exact ⟨"eat/".toList ++ t, ht.symm⟩
    have hd1 : ¬ "dev/".toList <+: branch := by
      rw [ht]; intro hx; obtain ⟨u, hu⟩ := hx; simp at hu
    have hd2 : ¬ "develop/".toList <+: branch := by
      rw [ht]; intro hx; obtain ⟨u, hu⟩ := hx; simp at hu
    unfold spec_pattern_of
    simp only [hd1, hd2, or_self, if_false, hname, if_true]
  unfold set_pow_difficulty_config at hok ⊢
  simp only [hr, if_false] at hok ⊢
  unfold git_config_set_gently at hok ⊢
  by_cases hs : cfg.set_status ("pow.difficulty.".toList ++ "feature".toList)
      (some (fmt_int b)) = 0
  · simp only [hs, if_true]
    rw [get_pow_difficulty_for_branch_on_branch, get_branch_pattern_difficulty_table]
    · simp only [hpat, spec_pattern_key]
      have hk : ("pow.difficulty.feature".toList = "pow.difficulty.".toList ++ "feature".toList)
          := by decide
      simp only [hk, if_true]
      have h0 : 0 < b := by omega
      have hbind : (some (fmt_int b)).bind parse_int = some b := hp
      rw [hbind]
      simp only [h0, if_true]
    · intro v hv
      have hne : ("branch.".toList ++ branch ++ ".powdifficulty".toList) ≠
          "pow.difficulty.".toList ++ "feature".toList := by
        intro hx
        simp at hx
      simp only [hne, if_false] at hv
      exact hb v hv
  · simp only [hs, if_false] at hok

/-- Witness for C26: `feat/login` in `example_config`, after the feature
pattern is set to 24 and after it is set to 5. -/
theorem set_pattern_then_resolve_witness :
    get_pow_difficulty_for_branch
      (set_pow_difficulty_config example_config "feature".toList 5).config
      (some "refs/heads/feat/login".toList) = 20 ∧
    (get_pow_difficulty_for_branch empty_config (some "refs/heads/feature/x".toList) = 20 ∧
    get_pow_difficulty_for_branch
      (set_pow_difficulty_config example_config "feature".toList 24).config
      (some ("refs/heads/".toList ++ "feat/login".toList)) = max 24 20) :=
  ⟨by decide,
    set_pattern_then_resolve example_config "feat/login".toList 24
      (Or.inr ⟨"login".toList, rfl⟩)
      (fun v hv => by
        have hn : example_config.get_int
            ("branch.".toList ++ "feat/login".toList ++ ".powdifficulty".toList) = none := by
          decide
        rw [hn] at hv
        cases hv)
      (by decide) (by decide) (by decide)⟩

/-- C28: `set_pow_difficulty_config` returns -1 without a call of the
configuration write exactly when `bits < 1` or `bits > 256`, and then leaves
the store as it was; otherwise it makes one call, with the decimal form of
`bits`, on `pow.difficulty.<pattern>`, and returns what that call returns. -/
theorem set_pow_difficulty_config_bounds (cfg : Config) (pattern : List Char) (bits : Int) :
    (((set_pow_difficulty_config cfg pattern bits).ret = -1 ∧
        (set_pow_difficulty_config cfg pattern bits).writes = []) ↔
      (bits < 1 ∨ 256 < bits)) ∧
    (bits < 1 ∨ 256 < bits →
      (set_pow_difficulty_config cfg pattern bits).config = cfg) ∧
    (1 ≤ bits ∧ bits ≤ 256 →
      (set_pow_difficulty_config cfg pattern bits).writes =
        [("pow.difficulty.".toList ++ pattern, some (fmt_dec bits.toNat))] ∧
      (set_pow_difficulty_config cfg pattern bits).ret =
        (git_config_set_gently cfg ("pow.difficulty.".toList ++ pattern)
          (some (fmt_dec bits.toNat))).1 ∧
      (set_pow_difficulty_config cfg pattern bits).config =
        (git_config_set_gently cfg ("pow.difficulty.".toList ++ pattern)
          (some (fmt_dec bits.toNat))).2) := by
  by_cases h : bits < 1 ∨ bits > 256
  · have h' : bits < 1 ∨ 256 < bits := h
    refine ⟨⟨fun _ => h', fun _ => ?_⟩, fun _ => ?_, fun hx => by omega⟩
    · simp [set_pow_difficulty_config, h]
    · simp [set_pow_difficulty_config, h]
  · have h' : ¬ (bits < 1 ∨ 256 < bits) := h
    have h3 : ¬ bits < 0 := by omega
    refine ⟨⟨fun hx => ?_, fun hx => absurd hx h'⟩, fun hx => absurd hx h', fun _ => ?_⟩
    · have := hx.2
      simp [set_pow_difficulty_config, h] at this
    · simp [set_pow_difficulty_config, h, fmt_int, h3]

/-- C29: for every 64-bit `w` and a buffer of at least 32 bytes, `format_work`
leaves the plain decimal of `w` when `w < 1000`, and otherwise a number with
one decimal digit followed by the suffix chosen by the thresholds: `K` with
divisor `10^3` below `10^6`, `M` with `10^6` below `10^9`, `B` with `10^9` below
`10^12`, `T` with `10^12` from there on. The number printed is within
`0.05 + 10^-8` of `w` over the divisor, and below `10^12` it is a tenth nearest
to that quotient. -/
theorem format_work_units (w size : Nat) (hw : w < 2 ^ 64) (hsize : 32 ≤ size) :
    (w < 1000 → format_work w size = fmt_dec w) ∧
    (1000 ≤ w →
      ∃ t : Nat,
        format_work w size =
          fmt_dec (t / 10) ++ ['.'] ++ fmt_dec (t % 10) ++ [(spec_work_unit w).2] ∧
        |(t : ℚ) / 10 - (w : ℚ) / 10 ^ (spec_work_unit w).1| ≤ 1 / 20 + 1 / 10 ^ 8 ∧
        (w < 10 ^ 12 →
          2 * t * 10 ^ ((spec_work_unit w).1 - 1) ≤ 2 * w + 10 ^ ((spec_work_unit w).1 - 1) ∧
          2 * w ≤ 2 * t * 10 ^ ((spec_work_unit w).1 - 1) +
            10 ^ ((spec_work_unit w).1 - 1))) ∧
    (w < 10 ^ 6 → spec_work_unit w = (3, 'K')) ∧
    (10 ^ 6 ≤ w → w < 10 ^ 9 → spec_work_unit w = (6, 'M')) ∧
    (10 ^ 9 ≤ w → w < 10 ^ 12 → spec_work_unit w = (9, 'B')) ∧
    (10 ^ 12 ≤ w → spec_work_unit w = (12, 'T')) := by
  have e3 : (1000 : Nat) = 10 ^ 3 := by norm_num
  have e6 : (1000000 : Nat) = 10 ^ 6 := by norm_num
  have e9 : (1000000000 : Nat) = 10 ^ 9 := by norm_num
  have e12 : (1000000000000 : Nat) = 10 ^ 12 := by norm_num
  have c69 : (10 : Nat) ^ 6 ≤ 10 ^ 9 := by norm_num
  have c912 : (10 : Nat) ^ 9 ≤ 10 ^ 12 := by norm_num
  have hT : w ≤ 2 * 10 ^ 7 * 10 ^ 12 := by
    have : (2 : Nat) ^ 64 ≤ 2 * 10 ^ 7 * 10 ^ 12 := by norm_num
    omega
  have uK : w < 10 ^ 6 → spec_work_unit w = (3, 'K') := by
    intro h; unfold spec_work_unit; rw [if_pos h]
  have uM : 10 ^ 6 ≤ w → w < 10 ^ 9 → spec_work_unit w = (6, 'M') := by
    intro h1 h2; unfold spec_work_unit; rw [if_neg (by omega), if_pos h2]
  have uB : 10 ^ 9 ≤ w → w < 10 ^ 12 → spec_work_unit w = (9, 'B') := by
    intro h1 h2
    unfold spec_work_unit
    rw [if_neg (by omega), if_neg (by omega), if_pos h2]
  have uT : 10 ^ 12 ≤ w → spec_work_unit w = (12, 'T') := by
    intro h1
    unfold spec_work_unit
    rw [if_neg (by omega), if_neg (by omega), if_neg (by omega)]
  refine ⟨?_, ?_, uK, uM, uB, uT⟩
  · intro h
    unfold format_work
    rw [if_pos h]
    exact snprintf_result_fits _ _ (by
      have := fmt_dec_length_u64 w hw
      omega)
  · intro h
    by_cases h6 : w < 10 ^ 6
    · have hf : format_work w size =
          snprintf_result size (fmt_f1 (format_work_quotient w (10 ^ 3)) ++ ['K']) := by
        unfold format_work
        rw [if_neg (by omega), e3, e6, if_pos h6]
      rw [hf, uK h6]
      exact format_work_unit_text w 3 size 'K' (by norm_num) (by norm_num) (by omega)
        (by norm_num at h6 ⊢; omega) hw hsize
    · by_cases h9 : w < 10 ^ 9
      · have hf : format_work w size =
            snprintf_result size (fmt_f1 (format_work_quotient w (10 ^ 6)) ++ ['M']) := by
          unfold format_work
          rw [if_neg (by omega), e6, e9, if_neg h6, if_pos h9]
        rw [hf, uM (by omega) h9]
        exact format_work_unit_text w 6 size 'M' (by norm_num) (by norm_num) (by omega)
          (by norm_num at h9 ⊢; omega) hw hsize
      · by_cases h12 : w < 10 ^ 12
        · have hf : format_work w size =
              snprintf_result size (fmt_f1 (format_work_quotient w (10 ^ 9)) ++ ['B']) := by
            unfold format_work
            rw [if_neg (by omega), e6, e9, e12, if_neg h6, if_neg h9, if_pos h12]
          rw [hf, uB (by omega) h12]
          exact format_work_unit_text w 9 size 'B' (by norm_num) (by norm_num) (by omega)
            (by norm_num at h12 ⊢; omega) hw hsize
        · have hf : format_work w size =
              snprintf_result size (fmt_f1 (format_work_quotient w (10 ^ 12)) ++ ['T']) := by
            unfold format_work
            rw [if_neg (by omega), e6, e9, e12, if_neg h6, if_neg h9, if_neg h12]
          rw [hf, uT (by omega)]
          exact format_work_unit_text w 12 size 'T' (by norm_num) (by norm_num) (by omega)
            hT hw hsize

/-- Witness for C29: with a 32-byte buffer, 999 prints as `999`, 4096 as
`4.1K`, 999950 as `1000.0K` (still the `K` unit), `2^20` as `1.0M`, `2^31` as
`2.1B` and `2^63` as `9223372.0T`. -/
theorem format_work_units_witness :
    ([999, 4096, 999950, 2 ^ 20, 2 ^ 31, 2 ^ 63].map fun w => format_work w 32) =
      ["999", "4.1K", "1000.0K", "1.0M", "2.1B", "9223372.0T"].map String.toList ∧
    ((4096 < 1000 → format_work 4096 32 = fmt_dec 4096) ∧
    (1000 ≤ 4096 →
      ∃ t : Nat,
        format_work 4096 32 =
          fmt_dec (t / 10) ++ ['.'] ++ fmt_dec (t % 10) ++ [(spec_work_unit 4096).2] ∧
        |(t : ℚ) / 10 - ((4096 : Nat) : ℚ) / 10 ^ (spec_work_unit 4096).1| ≤
          1 / 20 + 1 / 10 ^ 8 ∧
        (4096 < 10 ^ 12 →
          2 * t * 10 ^ ((spec_work_unit 4096).1 - 1) ≤
            2 * 4096 + 10 ^ ((spec_work_unit 4096).1 - 1) ∧
          2 * 4096 ≤ 2 * t * 10 ^ ((spec_work_unit 4096).1 - 1) +
            10 ^ ((spec_work_unit 4096).1 - 1))) ∧
    (4096 < 10 ^ 6 → spec_work_unit 4096 = (3, 'K')) ∧
    (10 ^ 6 ≤ 4096 → 4096 < 10 ^ 9 → spec_work_unit 4096 = (6, 'M')) ∧
    (10 ^ 9 ≤ 4096 → 4096 < 10 ^ 12 → spec_work_unit 4096 = (9, 'B')) ∧
    (10 ^ 12 ≤ 4096 → spec_work_unit 4096 = (12, 'T'))) :=
  ⟨by decide!, format_work_units 4096 32 (by norm_num) (by norm_num)⟩

/-- C30 (counterexample): on the checksum repository, `mine_pow_commit` given
the author line `a`, newline, `committer x` returns 0 and has stored a commit
with the header lines `author a`, `committer x`, `committer c`; and
`mine_pow_tag` given the tag name `v1`, newline, `tagger x` returns 0 and has
stored a tag with the header lines `tag v1`, `tagger x`, `tagger t`. -/
theorem mining_accepts_newline_in_field :
    mine_pow_commit checksum_repo 0 8 empty_tree_oid_sha3 none "a\ncommitter x".toList
        "c".toList "hello".toList commit_type.COMMIT_TYPE_NORMAL 24 (some ⟨0, 0, 0, 0⟩)
      = some example_split_commit_result ∧
    example_split_commit_result.ret = 0 ∧
    mine_pow_tag checksum_repo 8 example_c1 "commit".toList "v1\ntagger x".toList
        (some "t".toList) "msg".toList none 24 (some ⟨7, 7, 7, 7⟩)
      = some example_split_tag_result ∧
    example_split_tag_result.ret = 0 := by
  refine ⟨by decide!, by decide!, by decide!, by decide!⟩

/-- C30 (amended): mining does not validate its template. Whatever the
author, committer, tag name, type and tagger lines hold, a newline included, a
mining call that returns 0 has stored the serialization with the fields as
given; with an author line `a1`, newline, `a2` the commit reads `author a1`,
then the line `a2`, then `committer ...`. -/
theorem mining_serializes_fields_as_given (repo : Repo) (wfuel fuel : Nat)
    (tree_oid : List Nat) (parent_oid : Option (List Nat))
    (author committer message : List Char) (type : commit_type) (difficulty : Nat)
    (pow_out : Option pow_data) (object_oid : List Nat) (tag_target tag : List Char)
    (tagger tag_type : Option (List Char)) :
    (∀ res, mine_pow_commit repo wfuel fuel tree_oid parent_oid author committer message type
        difficulty pow_out = some res → res.ret = 0 →
      ∃ n pcw, res.written = [(object_type.OBJ_COMMIT,
        commit_serialization (oid_to_hex tree_oid) (parent_oid.map oid_to_hex) author
          committer message type n difficulty pcw)]) ∧
    (∀ res, mine_pow_tag repo fuel object_oid tag_target tag tagger message tag_type difficulty
        pow_out = some res →
      res.ret = 0 ∧
      ∃ n, res.written = [(object_type.OBJ_TAG,
        tag_serialization (oid_to_hex object_oid) tag_target tag tagger message tag_type n)]) ∧
    (∀ a1 a2 : List Char, author = a1 ++ ['\n'] ++ a2 → ∀ n pcw : Nat,
      commit_serialization (oid_to_hex tree_oid) (parent_oid.map oid_to_hex) author
          committer message type n difficulty pcw =
        "tree ".toList ++ oid_to_hex tree_oid ++ "\n".toList ++
        (match parent_oid.map oid_to_hex with
          | some p => "parent ".toList ++ p ++ "\n".toList
          | none => []) ++
        "author ".toList ++ a1 ++ "\n".toList ++ a2 ++ "\n".toList ++
        ("committer ".toList ++ committer ++ "\n".toList ++ "\n".toList ++
          (match type with
            | commit_type.COMMIT_TYPE_NORMAL => []
            | commit_type.COMMIT_TYPE_FREEZE => "[FREEZE] ".toList
            | commit_type.COMMIT_TYPE_CLEAN => "[CLEAN] ".toList) ++
          message ++ "\n\nPoW-Nonce: ".toList ++ fmt_dec n ++
          "\nPoW-Difficulty: ".toList ++ fmt_dec difficulty ++
          "\nPoW-Parent-Work: ".toList ++ fmt_dec pcw)) := by
  refine ⟨?_, ?_, ?_⟩
  · intro res hrun hret
    unfold mine_pow_commit at hrun
    simp only at hrun
    split at hrun
    · simp at hrun
    · next pcw _ =>
      obtain ⟨n, _, _, hw, _⟩ :=
        mine_pow_commit_loop_success repo _ message type difficulty pcw pow_out fuel 0 res
          (by norm_num) hrun hret
      exact ⟨n, pcw, by rw [hw, mine_pow_commit_buf_eq]⟩
  · intro res hrun
    unfold mine_pow_tag at hrun
    obtain ⟨h0, n, _, _, hw, _⟩ :=
      mine_pow_tag_loop_result repo object_oid tag_target tag tagger message tag_type _ pow_out
        fuel 0 res (by norm_num) hrun
    exact ⟨h0, n, by rw [hw, mine_pow_tag_buf_eq]⟩
  · intro a1 a2 ha n pcw
    subst ha
    unfold commit_serialization
    simp only [List.append_assoc]
    rfl

/-! ## Claims C31 to C39 -/

/-- C31: `keccak_f_1600_avx2` is not the Keccak-f[1600] of FIPS-202. The
lanes its rho/pi loop visits, `(i + 1)(i + 2)/2 % 25`, are not the lane order
of the pi step, and one pass of its round loop already differs from a FIPS-202
round on `example_lane_state`. For the empty input both `sha3_256_avx2` and
SHA3-256 apply their permutation to `example_empty_state` and output its first
four lanes; the two digests differ, and so do the two permutations on that
state. -/
theorem keccak_f_1600_avx2_differs_from_fips202 :
    (List.range 24).map (fun i => (i + 1) * (i + 2) / 2 % 25) =
      [1, 3, 6, 10, 15, 21, 3, 11, 20, 5, 16, 3, 16, 5, 20, 11, 3, 21, 15, 10, 6, 3, 1, 0] ∧
    (List.range 24).map (fun i => (i + 1) * (i + 2) / 2 % 25) ≠ fips202_piln ∧
    keccak_round example_lane_state 0 ≠ fips202_round example_lane_state 0 ∧
    sha3_256_avx2 [] =
      (((keccak_f_1600_avx2 example_empty_state).take 4).map store64).flatten ∧
    fips202_sha3_256 [] =
      (((fips202_keccak_f example_empty_state).take 4).map store64).flatten ∧
    (sha3_256_avx2 []).take 2 = [0x21, 0x04] ∧
    (fips202_sha3_256 []).take 2 = [0xa7, 0xff] ∧
    sha3_256_avx2 [] ≠ fips202_sha3_256 [] ∧
    keccak_f_1600_avx2 example_empty_state ≠ fips202_keccak_f example_empty_state := by
  have h3 : (sha3_256_avx2 []).take 2 = [0x21, 0x04] := by
    rw [sha3_256_avx2_nil_value]
    decide
  have h4 : (fips202_sha3_256 []).take 2 = [0xa7, 0xff] := by
    rw [fips202_sha3_256_nil_value]
    decide
  have hne : sha3_256_avx2 [] ≠ fips202_sha3_256 [] := by
    intro h
    rw [h, h4] at h3
    exact absurd h3 (by decide)
  refine ⟨by decide, by decide, by decide!, sha3_256_avx2_nil_state,
    fips202_sha3_256_nil_state, h3, h4, hne, ?_⟩
  intro h
  apply hne
  rw [sha3_256_avx2_nil_state, fips202_sha3_256_nil_state, h]

/-- C32: in every context reached from `sha3_256_avx2_init` by updates the
buffered tail has at most 135 bytes. For a tail of at most 134 bytes
`sha3_256_avx2_final` absorbs the tail, `0x06`, zeros and `0x80` in the last
byte, and every store is at an index below 136. For a tail of 135 bytes it
stores `0x06` at index 135 and `0x80` at index 136, outside the buffer, and
absorbs the tail followed by `0x06`; so it does for the 135 bytes of
`example_full_tail`, where FIPS-202 pads with the single byte `0x86`. -/
theorem sha3_256_avx2_final_stores_past_buffer (chunks : List (List Nat)) :
    (chunks.foldl sha3_256_avx2_update sha3_256_avx2_init).buffer_len ≤ 135 ∧
    ((chunks.foldl sha3_256_avx2_update sha3_256_avx2_init).buffer_len ≤ 134 →
      sha3_256_avx2_final_block (chunks.foldl sha3_256_avx2_update sha3_256_avx2_init) =
        (chunks.foldl sha3_256_avx2_update sha3_256_avx2_init).buffer.take
            (chunks.foldl sha3_256_avx2_update sha3_256_avx2_init).buffer_len ++ [0x06] ++
          List.replicate
            (134 - (chunks.foldl sha3_256_avx2_update sha3_256_avx2_init).buffer_len) 0 ++
          [0x80] ∧
      ∀ w ∈ sha3_256_avx2_final_writes (chunks.foldl sha3_256_avx2_update sha3_256_avx2_init),
        w.1 < 136) ∧
    ((chunks.foldl sha3_256_avx2_update sha3_256_avx2_init).buffer_len = 135 →
      sha3_256_avx2_final_block (chunks.foldl sha3_256_avx2_update sha3_256_avx2_init) =
        (chunks.foldl sha3_256_avx2_update sha3_256_avx2_init).buffer.take 135 ++ [0x06] ∧
      sha3_256_avx2_final_writes (chunks.foldl sha3_256_avx2_update sha3_256_avx2_init) =
        [(135, 0x06), (136, 0x80)]) ∧
    sha3_256_avx2_final (chunks.foldl sha3_256_avx2_update sha3_256_avx2_init) =
      (((keccak_f_1600_avx2 (xor_buffer_into_state
        (chunks.foldl sha3_256_avx2_update sha3_256_avx2_init).state
        (sha3_256_avx2_final_block
          (chunks.foldl sha3_256_avx2_update sha3_256_avx2_init)))).take 4).map
        store64).flatten ∧
    (sha3_256_avx2_update sha3_256_avx2_init example_full_tail).buffer_len = 135 ∧
    sha3_256_avx2_final_block (sha3_256_avx2_update sha3_256_avx2_init example_full_tail) =
      example_full_tail ++ [0x06] ∧
    sha3_256_avx2_final_writes (sha3_256_avx2_update sha3_256_avx2_init example_full_tail) =
      [(135, 0x06), (136, 0x80)] ∧
    fips202_pad example_full_tail = example_full_tail ++ [0x86] := by
  have hinit : sha3_ctx_ok sha3_256_avx2_init := by
    unfold sha3_ctx_ok sha3_256_avx2_init
    exact ⟨by simp, by norm_num⟩
  have hok := sha3_ctx_ok_chunks chunks sha3_256_avx2_init hinit
  have htail : (sha3_256_avx2_update sha3_256_avx2_init example_full_tail).buffer_len = 135 ∧
      (sha3_256_avx2_update sha3_256_avx2_init example_full_tail).buffer.take 135 =
        example_full_tail := by decide!
  have hok1 : sha3_ctx_ok (sha3_256_avx2_update sha3_256_avx2_init example_full_tail) := by
    unfold sha3_256_avx2_update
    exact sha3_256_avx2_update_ok _ _ _ hinit
  have hfull := sha3_256_avx2_final_block_full
    (sha3_256_avx2_update sha3_256_avx2_init example_full_tail) hok1.1 htail.1
  rw [htail.2] at hfull
  refine ⟨by have := hok.2; omega, fun h => sha3_256_avx2_final_block_short _ hok.1 h,
    fun h => sha3_256_avx2_final_block_full _ hok.1 h, rfl, htail.1, hfull.1, hfull.2,
    by decide!⟩

/-- C33: the four worker ranges `mine_pow_commit_avx2` hands out are
`[i * (2^62 - 1), (i + 1) * (2^62 - 1))`: they start at 0, each ends where the
next starts, and together they hold exactly the nonces below `2^64 - 4`, so the
four nonces `2^64 - 4` to `2^64 - 1` belong to no worker. -/
theorem mine_pow_commit_avx2_ranges_miss_top_nonces (base_buf : List Char)
    (nonce_offset difficulty : Nat) :
    (mine_pow_commit_avx2_thread_data base_buf nonce_offset difficulty).map
        (fun d => (d.start_nonce, d.end_nonce)) =
      [(0, 2 ^ 62 - 1), (2 ^ 62 - 1, 2 ^ 63 - 2), (2 ^ 63 - 2, 3 * 2 ^ 62 - 3),
        (3 * 2 ^ 62 - 3, 2 ^ 64 - 4)] ∧
    (∀ n : Nat, (∃ d ∈ mine_pow_commit_avx2_thread_data base_buf nonce_offset difficulty,
        d.start_nonce ≤ n ∧ n < d.end_nonce) ↔ n < 2 ^ 64 - 4) ∧
    (∀ d ∈ mine_pow_commit_avx2_thread_data base_buf nonce_offset difficulty,
        ¬ (d.start_nonce ≤ 2 ^ 64 - 1 ∧ 2 ^ 64 - 1 < d.end_nonce)) := by
  have h : mine_pow_commit_avx2_thread_data base_buf nonce_offset difficulty =
      [{ base_data := base_buf, base_len := base_buf.length, nonce_offset := nonce_offset,
         start_nonce := 0, end_nonce := 2 ^ 62 - 1, difficulty := difficulty },
       { base_data := base_buf, base_len := base_buf.length, nonce_offset := nonce_offset,
         start_nonce := 2 ^ 62 - 1, end_nonce := 2 ^ 63 - 2, difficulty := difficulty },
       { base_data := base_buf, base_len := base_buf.length, nonce_offset := nonce_offset,
         start_nonce := 2 ^ 63 - 2, end_nonce := 3 * 2 ^ 62 - 3, difficulty := difficulty },
       { base_data := base_buf, base_len := base_buf.length, nonce_offset := nonce_offset,
         start_nonce := 3 * 2 ^ 62 - 3, end_nonce := 2 ^ 64 - 4, difficulty := difficulty }] := by
    simp [mine_pow_commit_avx2_thread_data, UINT64_MAX, List.range_succ]
  rw [h]
  refine ⟨by simp, ?_, ?_⟩
  · intro n
    simp only [List.mem_cons, List.mem_singleton, List.not_mem_nil, or_false,
      exists_eq_or_imp, exists_eq_left]
    omega
  · intro d hd
    simp only [List.mem_cons, List.mem_singleton, List.not_mem_nil, or_false] at hd
    rcases hd with rfl | rfl | rfl | rfl <;> simp

/-- C34: in the template of `build_commit_for_mining` the 11 characters before
`nonce_offset` are `PoW-Nonce: `, the 20 characters from `nonce_offset` on are
the reserved zeros, and the difficulty line follows them. The decimal form of a
64-bit nonce has between 1 and 20 characters, so the 21-byte `nonce_str` holds
it whole, and a pass of `mine_pow_commit_optimized` over a buffer of the
template's length leaves the length, the bytes before `nonce_offset` and the
bytes from `nonce_offset + 20` on as they were, with the whole decimal nonce
at `nonce_offset`. -/
theorem nonce_span_holds_every_nonce (tree_oid : List Nat) (parent_oid : Option (List Nat))
    (author committer message : List Char) (type : commit_type)
    (difficulty pcw n : Nat) (template : List Char) (nonce_offset : Nat)
    (ht : build_commit_for_mining tree_oid parent_oid author committer message type difficulty
      pcw = (template, nonce_offset))
    (hn : n < 2 ^ 64) :
    11 ≤ nonce_offset ∧
    (template.take nonce_offset).drop (nonce_offset - 11) = "PoW-Nonce: ".toList ∧
    (template.drop nonce_offset).take 20 = "00000000000000000000".toList ∧
    template.drop (nonce_offset + 20) = commit_back difficulty pcw ∧
    1 ≤ (fmt_dec n).length ∧ (fmt_dec n).length ≤ 20 ∧
    (fmt_dec n).take 20 = fmt_dec n ∧
    (∀ buf : List Char, buf.length = template.length →
      ((mine_pow_commit_optimized_pass buf nonce_offset difficulty pcw n).2).length =
        buf.length ∧
      ((mine_pow_commit_optimized_pass buf nonce_offset difficulty pcw n).2).take nonce_offset =
        buf.take nonce_offset ∧
      ((mine_pow_commit_optimized_pass buf nonce_offset difficulty pcw n).2).drop
        (nonce_offset + 20) = buf.drop (nonce_offset + 20) ∧
      (((mine_pow_commit_optimized_pass buf nonce_offset difficulty pcw n).2).drop
        nonce_offset).take (fmt_dec n).length = fmt_dec n) := by
  rw [build_commit_for_mining_split] at ht
  obtain ⟨rfl, rfl⟩ := Prod.mk.inj ht
  obtain ⟨G, hG⟩ : ∃ G, commit_front tree_oid parent_oid author committer message type =
      G ++ "PoW-Nonce: ".toList := by
    unfold commit_front
    exact ⟨_, by
      rw [show "\n\nPoW-Nonce: ".toList = "\n\n".toList ++ "PoW-Nonce: ".toList from rfl,
        ← List.append_assoc]⟩
  have hlen := fmt_dec_length_u64 n hn
  have hF : (commit_front tree_oid parent_oid author committer message type).length =
      G.length + 11 := by
    rw [hG, List.length_append]; rfl
  refine ⟨by omega, ?_, ?_, ?_, fmt_dec_length_pos n, hlen, List.take_of_length_le hlen, ?_⟩
  · rw [List.append_assoc, List.take_left' rfl, hF, hG, Nat.add_sub_cancel,
      List.drop_left' rfl]
  · have h20 : "00000000000000000000".toList.length = 20 := rfl
    rw [List.append_assoc, List.drop_left' rfl, List.take_left' h20]
  · have h20 : "00000000000000000000".toList.length = 20 := rfl
    rw [List.append_assoc, ← List.drop_drop, List.drop_left' rfl, List.drop_left' h20]
  · intro buf hb
    have hbl : (commit_front tree_oid parent_oid author committer message type).length + 20 ≤
        buf.length := by
      rw [hb]
      simp only [List.length_append]
      have h20 : "00000000000000000000".toList.length = 20 := rfl
      omega
    rw [mine_pow_commit_optimized_pass_snd]
    exact memcpy_at_span buf (fmt_dec n) _ hlen hbl

/-- Witness for C34: the template `example_template` and the largest 64-bit
nonce, whose decimal form has 20 characters. -/
theorem nonce_span_holds_every_nonce_witness :
    (2 ^ 64 - 1 < 2 ^ 64) ∧ (fmt_dec (2 ^ 64 - 1)).length = 20 ∧
    example_template.2 = 110 ∧ example_template.1.length = 168 ∧
    (11 ≤ example_template.2 ∧
    (example_template.1.take example_template.2).drop (example_template.2 - 11) =
      "PoW-Nonce: ".toList ∧
    (example_template.1.drop example_template.2).take 20 = "00000000000000000000".toList ∧
    example_template.1.drop (example_template.2 + 20) = commit_back 24 0 ∧
    1 ≤ (fmt_dec (2 ^ 64 - 1)).length ∧ (fmt_dec (2 ^ 64 - 1)).length ≤ 20 ∧
    (fmt_dec (2 ^ 64 - 1)).take 20 = fmt_dec (2 ^ 64 - 1) ∧
    (∀ buf : List Char, buf.length = example_template.1.length →
      ((mine_pow_commit_optimized_pass buf example_template.2 24 0 (2 ^ 64 - 1)).2).length =
        buf.length ∧
      ((mine_pow_commit_optimized_pass buf example_template.2 24 0 (2 ^ 64 - 1)).2).take
        example_template.2 = buf.take example_template.2 ∧
      ((mine_pow_commit_optimized_pass buf example_template.2 24 0 (2 ^ 64 - 1)).2).drop
        (example_template.2 + 20) = buf.drop (example_template.2 + 20) ∧
      (((mine_pow_commit_optimized_pass buf example_template.2 24 0 (2 ^ 64 - 1)).2).drop
        example_template.2).take (fmt_dec (2 ^ 64 - 1)).length = fmt_dec (2 ^ 64 - 1))) :=
  ⟨by decide, by decide!, by decide!, by decide!,
    nonce_span_holds_every_nonce empty_tree_oid_sha3 none "a".toList "c".toList "hello".toList
      commit_type.COMMIT_TYPE_NORMAL 24 0 (2 ^ 64 - 1) example_template.1 example_template.2
      rfl (by decide)⟩

/-- C35: on every string `h` of 64 lowercase hexadecimal digits the scan of
`check_pow_difficulty`, the scan of `calculate_hash_work` and the `actual_bits`
scan of `mine_pow_commit` end with the same count `z`, at most 256;
`check_pow_difficulty h k` is true exactly when `k ≤ z`, the achieved bits
`mine_pow_commit` reports are `z`, and when `h` is the hex form of a digest,
`z` is the number of leading zero bits of that digest. -/
theorem achieved_bits_scans_agree (h : List Char) (hh : IsLowerHex h) :
    ∃ z, check_pow_difficulty_loop h 0 = some z ∧ calculate_hash_work_loop h 0 = z ∧
      mine_pow_commit_actual_bits h = z ∧ z ≤ 256 ∧
      (∀ k, check_pow_difficulty h k = true ↔ k ≤ z) ∧
      (∀ d, IsDigest d → oid_to_hex d = h → z = leading_zero_bits d) := by
  obtain ⟨hlen, hc⟩ := hh
  have hchk := check_pow_difficulty_loop_lower_hex h 0 hc
  have hb := calculate_hash_work_loop_bound h 0 (by rw [hlen]; norm_num)
  refine ⟨calculate_hash_work_loop h 0, hchk, rfl, ?_, ?_, ?_, ?_⟩
  · unfold mine_pow_commit_actual_bits
    exact mine_pow_commit_actual_bits_loop_eq h 0
  · rw [hlen] at hb
    omega
  · intro k
    unfold check_pow_difficulty
    rw [hchk]
    simp
  · intro d hd hdh
    have := calculate_hash_work_loop_hex d 0 hd.2 (by rw [hd.1]; norm_num)
    rw [hdh] at this
    rw [this]
    omega

/-- Witness for C35: the hex form of `example_c1`, a digest that begins
`0x00 0x0f`: the three scans give 12. -/
theorem achieved_bits_scans_agree_witness :
    IsLowerHex (oid_to_hex example_c1) ∧
    check_pow_difficulty_loop (oid_to_hex example_c1) 0 = some 12 ∧
    calculate_hash_work_loop (oid_to_hex example_c1) 0 = 12 ∧
    mine_pow_commit_actual_bits (oid_to_hex example_c1) = 12 ∧
    (∃ z, check_pow_difficulty_loop (oid_to_hex example_c1) 0 = some z ∧
      calculate_hash_work_loop (oid_to_hex example_c1) 0 = z ∧
      mine_pow_commit_actual_bits (oid_to_hex example_c1) = z ∧ z ≤ 256 ∧
      (∀ k, check_pow_difficulty (oid_to_hex example_c1) k = true ↔ k ≤ z) ∧
      (∀ d, IsDigest d → oid_to_hex d = oid_to_hex example_c1 → z = leading_zero_bits d)) :=
  ⟨by decide, by decide, by decide, by decide,
    achieved_bits_scans_agree (oid_to_hex example_c1) (by decide)⟩

/-- C36: `mine_pow_commit_avx2` leaves process-wide state behind. Every call
on the AVX2 path that returns leaves `handle_interrupt` installed for SIGINT,
whatever was installed before, and a call that starts with the flag
`mining_interrupted` set returns -1 with nothing written and the flag still
set. On the SHA3-256 repository: a call started with handler 7 installed and
interrupted by one SIGINT returns -1 and leaves `handle_interrupt` and the flag
set; the next call, which no SIGINT reaches, returns -1 as well, although the
same call with the flag clear finds the nonce 0 and returns 0. -/
theorem mine_pow_commit_avx2_leaks_signal_state :
    (∀ (repo : Repo) (wfuel fuel : Nat) (schedule : List sched_event) (signals : signal_state)
        (tree_oid : List Nat) (parent_oid : Option (List Nat))
        (author committer message : List Char) (type : commit_type) (difficulty : Nat)
        (result_oid : List Nat) (pow_out : Option pow_data) (out : avx2_result × signal_state),
      mine_pow_commit_avx2_signals repo true wfuel fuel schedule signals tree_oid parent_oid
          author committer message type difficulty result_oid pow_out = some out →
        out.2.sigint = sighandler.handle_interrupt ∧
        (signals.mining_interrupted = true →
          out.2.mining_interrupted = true ∧ out.1.result.ret = -1 ∧
            out.1.result.written = [])) ∧
    (mine_pow_commit_avx2_signals sha3_repo true 0 0
        [sched_event.sigint, sched_event.run 0, sched_event.run 1, sched_event.run 2,
          sched_event.run 3]
        ⟨sighandler.installed 7, false⟩ empty_tree_oid_sha3 none example_author
        example_committer "hello 1500987".toList commit_type.COMMIT_TYPE_NORMAL 20 []
        (some ⟨0, 0, 0, 0⟩)).map (fun out => (out.1.result.ret, out.1.result.written, out.2)) =
      some (-1, [], ⟨sighandler.handle_interrupt, true⟩) ∧
    (mine_pow_commit_avx2_signals sha3_repo true 0 0
        [sched_event.run 0, sched_event.run 1, sched_event.run 2, sched_event.run 3]
        ⟨sighandler.handle_interrupt, true⟩ empty_tree_oid_sha3 none example_author
        example_committer "hello 1500987".toList commit_type.COMMIT_TYPE_NORMAL 20 []
        (some ⟨0, 0, 0, 0⟩)).map (fun out => (out.1.result.ret, out.1.result.written, out.2)) =
      some (-1, [], ⟨sighandler.handle_interrupt, true⟩) ∧
    mine_pow_commit_avx2_signals sha3_repo true 0 0
        [sched_event.run 0, sched_event.run 1, sched_event.run 2, sched_event.run 3]
        ⟨sighandler.installed 7, false⟩ empty_tree_oid_sha3 none example_author
        example_committer "hello 1500987".toList commit_type.COMMIT_TYPE_NORMAL 20 []
        (some ⟨0, 0, 0, 0⟩) =
      some (example_avx2_result, ⟨sighandler.handle_interrupt, false⟩) ∧
    example_avx2_result.result.ret = 0 ∧
    example_avx2_result.joined.map (fun sh => (sh.found, sh.result_nonce)) = some (true, 0) := by
  have hrun : mine_pow_commit_avx2_signals sha3_repo true 0 0
      [sched_event.run 0, sched_event.run 1, sched_event.run 2, sched_event.run 3]
      ⟨sighandler.installed 7, false⟩ empty_tree_oid_sha3 none example_author
      example_committer "hello 1500987".toList commit_type.COMMIT_TYPE_NORMAL 20 []
      (some ⟨0, 0, 0, 0⟩) =
      some (example_avx2_result, ⟨sighandler.handle_interrupt, false⟩) :=
    mine_pow_commit_avx2_signals_of_run sha3_repo 0 0
      [sched_event.run 0, sched_event.run 1, sched_event.run 2, sched_event.run 3]
      ⟨sighandler.installed 7, false⟩ false empty_tree_oid_sha3 none example_author
      example_committer "hello 1500987".toList commit_type.COMMIT_TYPE_NORMAL 20 []
      (some ⟨0, 0, 0, 0⟩) example_avx2_result rfl example_avx2_run_value
  refine ⟨?_, by decide!, by decide!, hrun, by decide!, by decide!⟩
  intro repo wfuel fuel schedule signals tree_oid parent_oid author committer message type
    difficulty result_oid pow_out out hrun
  exact mine_pow_commit_avx2_signals_after repo wfuel fuel schedule signals tree_oid parent_oid
    author committer message type difficulty result_oid pow_out out hrun

/-- C38: for a branch name that falls under one of the patterns, with neither
an entry `branch.<name>.powdifficulty` nor an entry for the key of its own
pattern, `get_pow_difficulty_for_branch` gives the same result in every
configuration that differs only in `pow.difficulty.default`: the built-in
value of the pattern raised to 20, which is 20 for each of the four patterns;
`get_branch_pattern_difficulty` gives the built-in value itself. -/
theorem pattern_result_ignores_default (cfg cfg2 : Config) (branch : List Char)
    (hp : spec_pattern_of branch ≠ pow_pattern.default)
    (hb : cfg.get_int ("branch.".toList ++ branch ++ ".powdifficulty".toList) = none)
    (hk : cfg.get_int (spec_pattern_key (spec_pattern_of branch)) = none)
    (hsame : ∀ key, key ≠ "pow.difficulty.default".toList →
      cfg2.get_int key = cfg.get_int key) :
    get_pow_difficulty_for_branch cfg2 (some ("refs/heads/".toList ++ branch)) =
      get_pow_difficulty_for_branch cfg (some ("refs/heads/".toList ++ branch)) ∧
    get_branch_pattern_difficulty cfg2 branch = spec_pattern_default (spec_pattern_of branch) ∧
    get_branch_pattern_difficulty cfg branch = spec_pattern_default (spec_pattern_of branch) ∧
    get_pow_difficulty_for_branch cfg (some ("refs/heads/".toList ++ branch)) =
      max (spec_pattern_default (spec_pattern_of branch)) 20 ∧
    get_pow_difficulty_for_branch cfg (some ("refs/heads/".toList ++ branch)) = 20 := by
  have hkey : spec_pattern_key (spec_pattern_of branch) ≠ "pow.difficulty.default".toList := by
    cases hs : spec_pattern_of branch with
    | default => exact absurd hs hp
    | dev => decide
    | feature => decide
    | release => decide
    | main => decide
  have hbkey : "branch.".toList ++ branch ++ ".powdifficulty".toList ≠
      "pow.difficulty.default".toList := by
    intro h
    have h0 := congrArg (fun l => l.head?) h
    simp at h0
  have hb2 : cfg2.get_int ("branch.".toList ++ branch ++ ".powdifficulty".toList) = none := by
    rw [hsame _ hbkey, hb]
  have hk2 : cfg2.get_int (spec_pattern_key (spec_pattern_of branch)) = none := by
    rw [hsame _ hkey, hk]
  have h1 : get_branch_pattern_difficulty cfg branch =
      spec_pattern_default (spec_pattern_of branch) := by
    rw [get_branch_pattern_difficulty_table cfg branch (fun v hv => by rw [hb] at hv; cases hv),
      hk]
  have h2 : get_branch_pattern_difficulty cfg2 branch =
      spec_pattern_default (spec_pattern_of branch) := by
    rw [get_branch_pattern_difficulty_table cfg2 branch
      (fun v hv => by rw [hb2] at hv; cases hv), hk2]
  have h20 : max (spec_pattern_default (spec_pattern_of branch)) 20 = 20 := by
    cases spec_pattern_of branch <;> decide
  rw [get_pow_difficulty_for_branch_on_branch, get_pow_difficulty_for_branch_on_branch, h1, h2]
  exact ⟨rfl, rfl, rfl, rfl, h20⟩

/-- Witness for C38: the branch `dev/x` in the empty configuration and in the
one that sets `pow.difficulty.default` to 50. -/
theorem pattern_result_ignores_default_witness :
    spec_pattern_of "dev/x".toList ≠ pow_pattern.default ∧
    example_default_config.get_int "pow.difficulty.default".toList = some 50 ∧
    empty_config.get_int "pow.difficulty.default".toList = none ∧
    (get_pow_difficulty_for_branch example_default_config
        (some ("refs/heads/".toList ++ "dev/x".toList)) =
      get_pow_difficulty_for_branch empty_config
        (some ("refs/heads/".toList ++ "dev/x".toList)) ∧
    get_branch_pattern_difficulty example_default_config "dev/x".toList =
      spec_pattern_default (spec_pattern_of "dev/x".toList) ∧
    get_branch_pattern_difficulty empty_config "dev/x".toList =
      spec_pattern_default (spec_pattern_of "dev/x".toList) ∧
    get_pow_difficulty_for_branch empty_config
        (some ("refs/heads/".toList ++ "dev/x".toList)) =
      max (spec_pattern_default (spec_pattern_of "dev/x".toList)) 20 ∧
    get_pow_difficulty_for_branch empty_config
        (some ("refs/heads/".toList ++ "dev/x".toList)) = 20) :=
  ⟨by decide, by decide, by decide,
    pattern_result_ignores_default empty_config example_default_config "dev/x".toList
      (by decide) rfl rfl
      (fun key hkey => by
        show (if key = "pow.difficulty.default".toList then some 50 else none) = none
        rw [if_neg hkey])⟩


/-- C39: on a store in which the first-parent chain from the starting commit
is finite, ending in a root commit or in an identifier the store cannot look
up, `calculate_total_work` returns, and the depth of its recursion is the
number of identifiers on the chain: it returns with that much fuel, one call
for each of them, and with no less. -/
theorem calculate_total_work_terminates (repo : Repo) (chain : List (List Nat))
    (h : FirstParentChain repo chain ∨ BrokenFirstParentChain repo chain) :
    (∃ w, calculate_total_work repo chain.length (chain.headD []) = some w ∧
      ∀ fuel, chain.length ≤ fuel →
        calculate_total_work repo fuel (chain.headD []) = some w) ∧
    (∀ fuel, (calculate_total_work repo fuel (chain.headD [])).isSome = true ↔
      chain.length ≤ fuel) := by
  have hsome : ∃ w, ∀ fuel, chain.length ≤ fuel →
      calculate_total_work repo fuel (chain.headD []) = some w := by
    rcases h with h | h
    · exact ⟨_, fun fuel hf => calculate_total_work_chain repo chain fuel h hf⟩
    · exact ⟨_, fun fuel hf => calculate_total_work_broken_chain repo chain fuel h hf⟩
  obtain ⟨w, hw⟩ := hsome
  refine ⟨⟨w, hw _ (le_refl _), hw⟩, ?_⟩
  intro fuel
  constructor
  · intro hs
    by_contra hlt
    rw [calculate_total_work_chain_short repo chain fuel h (by omega)] at hs
    simp at hs
  · intro hf
    rw [hw fuel hf]
    rfl

/-- Witness for C39: the chain `example_c2, example_c1, example_c0` of
`example_chain_repo`, whose last commit is a root. -/
theorem calculate_total_work_terminates_witness :
    FirstParentChain example_chain_repo [example_c2, example_c1, example_c0] ∧
    calculate_total_work example_chain_repo 2 example_c2 = none ∧
    ((∃ w, calculate_total_work example_chain_repo
          [example_c2, example_c1, example_c0].length
          ([example_c2, example_c1, example_c0].headD []) = some w ∧
        ∀ fuel, [example_c2, example_c1, example_c0].length ≤ fuel →
          calculate_total_work example_chain_repo fuel
            ([example_c2, example_c1, example_c0].headD []) = some w) ∧
      (∀ fuel, (calculate_total_work example_chain_repo fuel
          ([example_c2, example_c1, example_c0].headD [])).isSome = true ↔
        [example_c2, example_c1, example_c0].length ≤ fuel)) :=
  have hc : FirstParentChain example_chain_repo [example_c2, example_c1, example_c0] :=
    ⟨⟨⟨[example_c1, example_side]⟩, by decide, by decide⟩,
      ⟨⟨[example_c0]⟩, by decide, by decide⟩, ⟨⟨[]⟩, by decide, by decide⟩⟩
  ⟨hc, by decide,
    calculate_total_work_terminates example_chain_repo [example_c2, example_c1, example_c0]
      (Or.inl hc)⟩

end Git3
